import Mathlib

/-!
Route decision engine (`rde.c`): decoders, update dispatcher, peer registry.

A shallow embedding of `src/rde.c` (OpenBGPD route decision engine, rev. 1.26)
and theorems about it.

Conventions of the embedding

* A buffer handed to a decoder (`u_char *p`) is the list of the bytes that exist
  at and after `p`; a pointer into it is an offset.  An access outside the list is
  undefined behaviour in C and is reported as the outcome `oob`.
* Machine integers are natural numbers; an assignment to a `u_int16_t` is taken
  modulo `2 ^ 16`.  C's integer promotion makes `len - plen` a signed `int`
  subtraction, rendered over `Int`.
* The byte order of the host is a parameter (`byte_order`): it decides what a
  `memcpy` into a multi-byte integer yields and what `ntohs`/`ntohl` do.
* Functions of the daemon that live outside `rde.c` (`aspath_verify`,
  `path_update`, `imsg_compose`, ...) are either parameters or recorded calls.
-/

/-! ## Machine-level types -/

/-- A `u_char` / `u_int8_t`: one octet. -/
abbrev u_char := Fin 256

/-- Byte order of the host the daemon is compiled for. -/
inductive byte_order where
  | LITTLE_ENDIAN
  | BIG_ENDIAN
  deriving DecidableEq, Repr

/-- Value of a `u_int16_t` whose two bytes in memory are `b0`, `b1` (in address
order), i.e. what `memcpy(&x, p, 2)` leaves in `x`. -/
def memcpy16 (host : byte_order) (b0 b1 : u_char) : Nat :=
  match host with
  | .BIG_ENDIAN => b0.val * 256 + b1.val
  | .LITTLE_ENDIAN => b1.val * 256 + b0.val

/-- Value of a `u_int32_t` whose four bytes in memory are `b0 .. b3`. -/
def memcpy32 (host : byte_order) (b0 b1 b2 b3 : u_char) : Nat :=
  match host with
  | .BIG_ENDIAN => ((b0.val * 256 + b1.val) * 256 + b2.val) * 256 + b3.val
  | .LITTLE_ENDIAN => ((b3.val * 256 + b2.val) * 256 + b1.val) * 256 + b0.val

/-- `ntohs`: identity on a big-endian host, byte swap on a little-endian one. -/
def ntohs (host : byte_order) (x : Nat) : Nat :=
  match host with
  | .BIG_ENDIAN => x % 65536
  | .LITTLE_ENDIAN => (x % 256) * 256 + (x / 256) % 256

/-- `ntohl`: identity on a big-endian host, byte reversal on a little-endian one. -/
def ntohl (host : byte_order) (x : Nat) : Nat :=
  match host with
  | .BIG_ENDIAN => x % 4294967296
  | .LITTLE_ENDIAN =>
    (((x % 256) * 256 + (x / 256) % 256) * 256 + (x / 65536) % 256) * 256
      + (x / 16777216) % 256

/-- A `struct in_addr`, kept as its four octets in memory order (`s_addr` is in
network byte order, so `a0` is the first octet of the dotted quad).  This is the
`addr8` view of the union used by `rde_update_get_prefix`. -/
structure in_addr where
  a0 : u_char
  a1 : u_char
  a2 : u_char
  a3 : u_char
  deriving DecidableEq, Repr

/-- `addr.addr32.s_addr = 0`. -/
def in_addr.zero : in_addr := ⟨0, 0, 0, 0⟩

/-- `addr.addr8[i] = b` for `i` in `0..3`. -/
def in_addr.set8 (a : in_addr) (i : Nat) (b : u_char) : in_addr :=
  match i with
  | 0 => { a with a0 := b }
  | 1 => { a with a1 := b }
  | 2 => { a with a2 := b }
  | _ => { a with a3 := b }

/-- `addr.addr8[i]` for `i` in `0..3`. -/
def in_addr.get8 (a : in_addr) (i : Nat) : u_char :=
  match i with
  | 0 => a.a0
  | 1 => a.a1
  | 2 => a.a2
  | _ => a.a3

/-- Result of a decoder call. -/
inductive Ret (α : Type) where
  /-- the function returned a non-negative count, with its out-parameters -/
  | ok (v : α)
  /-- `return (-1)` -/
  | err
  /-- a byte outside the buffer was accessed (undefined behaviour) -/
  | oob
  deriving DecidableEq, Repr

/-- One access of a decoder to its buffer, by offset from `p`. -/
inductive access where
  /-- `memcpy(t, p, n)`: `n` bytes copied from offset `off` -/
  | memcpy (off n : Nat)
  /-- the range `[off, off + n)` handed to `aspath_verify` -/
  | aspath_verify (off n : Nat)
  /-- the range `[off, off + n)` handed to `aspath_create` -/
  | aspath_create (off n : Nat)
  deriving DecidableEq, Repr

/-- One past the last offset an access touches. -/
def access.upper : access → Nat
  | .memcpy off n => off + n
  | .aspath_verify off n => off + n
  | .aspath_create off n => off + n

/-! ## `rde_update_get_prefix` (rde.c:359-391) -/

/-- The out-parameters and return value of a successful
`rde_update_get_prefix`. -/
structure prefix_result where
  plen : Nat
  pfx : in_addr
  prefixlen : Nat
  deriving DecidableEq, Repr

/-- Local variables of `rde_update_get_prefix` while the `for` loop runs,
together with the accesses made so far. -/
structure prefix_vars where
  p : Nat
  plen : Nat
  addr : in_addr
  log : List access
  deriving DecidableEq, Repr

/-- What a decoder run leaves: the accesses it made, in order, and its result. -/
structure traced (α : Type) where
  log : List access
  ret : Ret α
  deriving DecidableEq, Repr

/-- The `for (i = 0; i <= 3; i++)` loop of `rde_update_get_prefix`; `is` lists the
values of `i` still to come. -/
def prefix_loop (buf : List u_char) (len pfxlen : Nat) :
    List Nat → prefix_vars → traced prefix_vars
  | [], s => ⟨s.log, .ok s⟩
  | i :: is, s =>
    if pfxlen > i * 8 then
      if (len : Int) - (s.plen : Int) < 1 then ⟨s.log, .err⟩
      else
        match buf[s.p]? with
        | none => ⟨s.log ++ [.memcpy s.p 1], .oob⟩
        | some b =>
          prefix_loop buf len pfxlen is
            { p := s.p + 1, plen := (s.plen + 1) % 65536,
              addr := s.addr.set8 i b, log := s.log ++ [.memcpy s.p 1] }
    else prefix_loop buf len pfxlen is s

/-- `rde_update_get_prefix(p, len, &pfx, &prefixlen)` with its access log. -/
def rde_update_get_prefix_traced (buf : List u_char) (len : Nat) : traced prefix_result :=
  if len < 1 then ⟨[], .err⟩
  else
    match buf[0]? with
    | none => ⟨[.memcpy 0 1], .oob⟩
    | some pfxlen =>
      match prefix_loop buf len pfxlen.val [0, 1, 2, 3]
          { p := 1, plen := 1, addr := in_addr.zero, log := [.memcpy 0 1] } with
      | ⟨log, .ok s⟩ => ⟨log, .ok { plen := s.plen, pfx := s.addr, prefixlen := pfxlen.val }⟩
      | ⟨log, .err⟩ => ⟨log, .err⟩
      | ⟨log, .oob⟩ => ⟨log, .oob⟩

/-- `rde_update_get_prefix(p, len, &pfx, &prefixlen)`: `ok` carries the returned
`plen` and the two out-parameters, `err` is `return (-1)`. -/
def rde_update_get_prefix (buf : List u_char) (len : Nat) : Ret prefix_result :=
  (rde_update_get_prefix_traced buf len).ret

/-- Wire encoding of the prefix `a/n` (spec 4.1): one length byte `n`
followed by the first `ceil(n/8)` octets of the address. -/
def prefix_wire (a : in_addr) (n : Nat) : List u_char :=
  Fin.ofNat n :: [a.a0, a.a1, a.a2, a.a3].take ((n + 7) / 8)

/-- Number of loop rounds among `is` in which `pfxlen > i * 8`, i.e. in which
`rde_update_get_prefix` wants one more octet. -/
def prefix_wanted (pfxlen : Nat) (is : List Nat) : Nat :=
  (is.filter (fun i => decide (pfxlen > i * 8))).length

/-! ## `rde_update_get_attr` (rde.c:393-494) -/

/-- Modelled from the spec: `enum attrtypes` of rde.h, which is not among the
sources.  The spec calls `ATTR_UNDEF` "the zero/undefined type value"; the other
members follow in declaration order, which are the BGP-4 attribute type codes. -/
def ATTR_UNDEF : Nat := 0

/-- Modelled from the spec: see `ATTR_UNDEF`; type code of ORIGIN. -/
def ATTR_ORIGIN : Nat := 1

/-- Modelled from the spec: see `ATTR_UNDEF`; type code of AS_PATH. -/
def ATTR_ASPATH : Nat := 2

/-- Modelled from the spec: see `ATTR_UNDEF`; type code of NEXT_HOP. -/
def ATTR_NEXTHOP : Nat := 3

/-- Modelled from the spec: see `ATTR_UNDEF`; type code of MULTI_EXIT_DISC. -/
def ATTR_MED : Nat := 4

/-- Modelled from the spec: see `ATTR_UNDEF`; type code of LOCAL_PREF. -/
def ATTR_LOCALPREF : Nat := 5

/-- Modelled from the spec: see `ATTR_UNDEF`; type code of ATOMIC_AGGREGATE. -/
def ATTR_ATOMIC_AGGREGATE : Nat := 6

/-- Modelled from the spec: see `ATTR_UNDEF`; type code of AGGREGATOR. -/
def ATTR_AGGREGATOR : Nat := 7

/-- Modelled from the spec: the "extended-length flag bit" of the attribute flags
octet (rde.h is not among the sources); in BGP-4 it is bit `0x10`. -/
def ATTR_EXTLEN : Nat := 16

/-- Modelled from the spec: `enum origins` of rde.h: IGP, EGP, INCOMPLETE, with
their BGP-4 wire values. -/
def ORIGIN_IGP : Nat := 0

/-- Modelled from the spec: see `ORIGIN_IGP`. -/
def ORIGIN_EGP : Nat := 1

/-- Modelled from the spec: see `ORIGIN_IGP`. -/
def ORIGIN_INCOMPLETE : Nat := 2

/-- Modelled from the spec: the opaque AS-path handle `struct aspath *` that
`aspath_create(p, attr_len)` makes "from the raw bytes"; it is identified with the
bytes it was created from. -/
structure aspath where
  data : List u_char
  deriving DecidableEq, Repr

/-- The fields of `struct attr_flags` that rde.c uses (the declaration is in
rde.h).  `aspath = none` is the `NULL` pointer; `origin` and `aggr_atm` are taken
to be one octet wide (rde.c:444 copies one byte into `origin`), `aggr_as` two,
`med` and `lpref` four. -/
structure attr_flags where
  origin : Nat
  aspath : Option aspath
  nexthop : in_addr
  med : Nat
  lpref : Nat
  aggr_atm : Nat
  aggr_as : Nat
  aggr_ip : in_addr
  deriving DecidableEq, Repr

/-- `init_attr_flags` (rde.c:400-405): `bzero`, then `origin = ORIGIN_INCOMPLETE`. -/
def init_attr_flags : attr_flags :=
  { origin := ORIGIN_INCOMPLETE, aspath := none, nexthop := in_addr.zero, med := 0,
    lpref := 0, aggr_atm := 0, aggr_as := 0, aggr_ip := in_addr.zero }

/-- Priorities handed to `logit`. -/
inductive log_priority where
  | LOG_INFO
  | LOG_CRIT
  deriving DecidableEq, Repr

/-- A call that rde.c makes into the rest of the daemon (RIB, AS-path store,
logging), with its arguments.  A peer is named by the address of its record. -/
inductive call where
  | prefix_remove (peer : Nat) (pfx : in_addr) (prefixlen : Nat)
  | path_update (peer : Nat) (attrs : attr_flags) (pfx : in_addr) (prefixlen : Nat)
  | path_remove (asp : Nat)
  | aspath_verify (data : List u_char) (local_as : Nat)
  | aspath_create (data : List u_char)
  | aspath_destroy (asp : Option aspath)
  | pt_dump (id : Nat)
  | logit (pri : log_priority) (fmt : String) (args : List Int)
  deriving DecidableEq, Repr

/-- The locals `p` (as an offset) and `plen` of `rde_update_get_attr`, with the
accesses made so far. -/
structure attr_vars where
  p : Nat
  plen : Nat
  log : List access
  deriving DecidableEq, Repr

/-- What a run of `rde_update_get_attr` leaves: buffer accesses, calls made, and
on success the returned `plen` with the updated `*a`. -/
structure attr_run where
  log : List access
  calls : List call
  ret : Ret (Nat × attr_flags)
  deriving DecidableEq, Repr

/-- The macro `UPD_READ(t, p, plen, n)`: `memcpy(t, p, n); p += n; plen += n`.
Yields the `n` bytes copied (`none` when they are not all inside the buffer) and
the advanced locals. -/
def UPD_READ (buf : List u_char) (s : attr_vars) (n : Nat) :
    Option (List u_char) × attr_vars :=
  (if s.p + n ≤ buf.length then some ((buf.drop s.p).take n) else none,
   { p := s.p + n, plen := (s.plen + n) % 65536, log := s.log ++ [.memcpy s.p n] })

/-- `case ATTR_ORIGIN:` (rde.c:441-445). -/
def attr_origin (buf : List u_char) (a : attr_flags) (attr_len : Nat) (s : attr_vars) :
    attr_run :=
  if attr_len ≠ 1 then ⟨s.log, [], .err⟩
  else
    match UPD_READ buf s 1 with
    | (some [o], s1) => ⟨s1.log, [], .ok (s1.plen, { a with origin := o.val })⟩
    | (_, s1) => ⟨s1.log, [], .oob⟩

/-- `case ATTR_ASPATH:` (rde.c:446-456).  `aspath_verify data local_as` stands for
the external `aspath_verify(p, attr_len, conf->as)` applied to the `attr_len`
bytes at `p`. -/
def attr_aspath (aspath_verify : List u_char → Nat → Int) (conf_as : Nat)
    (buf : List u_char) (a : attr_flags) (attr_len : Nat) (s : attr_vars) : attr_run :=
  if s.p + attr_len ≤ buf.length then
    if aspath_verify ((buf.drop s.p).take attr_len) conf_as ≠ 0 then
      ⟨s.log ++ [.aspath_verify s.p attr_len],
        [.aspath_verify ((buf.drop s.p).take attr_len) conf_as,
         .logit .LOG_INFO "XXX aspath_verify failed: error %i\n"
            [aspath_verify ((buf.drop s.p).take attr_len) conf_as]],
        .err⟩
    else
      ⟨s.log ++ [.aspath_verify s.p attr_len, .aspath_create s.p attr_len],
        [.aspath_verify ((buf.drop s.p).take attr_len) conf_as,
         .aspath_create ((buf.drop s.p).take attr_len)],
        .ok ((s.plen + attr_len) % 65536,
          { a with aspath := some ⟨(buf.drop s.p).take attr_len⟩ })⟩
  else ⟨s.log ++ [.aspath_verify s.p attr_len], [], .oob⟩

/-- `case ATTR_NEXTHOP:` (rde.c:457-461). -/
def attr_nexthop (buf : List u_char) (a : attr_flags) (attr_len : Nat) (s : attr_vars) :
    attr_run :=
  if attr_len ≠ 4 then ⟨s.log, [], .err⟩
  else
    match UPD_READ buf s 4 with
    | (some [b0, b1, b2, b3], s1) =>
      ⟨s1.log, [], .ok (s1.plen, { a with nexthop := ⟨b0, b1, b2, b3⟩ })⟩
    | (_, s1) => ⟨s1.log, [], .oob⟩

/-- `case ATTR_MED:` (rde.c:462-467). -/
def attr_med (host : byte_order) (buf : List u_char) (a : attr_flags) (attr_len : Nat)
    (s : attr_vars) : attr_run :=
  if attr_len ≠ 4 then ⟨s.log, [], .err⟩
  else
    match UPD_READ buf s 4 with
    | (some [b0, b1, b2, b3], s1) =>
      ⟨s1.log, [], .ok (s1.plen, { a with med := ntohl host (memcpy32 host b0 b1 b2 b3) })⟩
    | (_, s1) => ⟨s1.log, [], .oob⟩

/-- `case ATTR_LOCALPREF:` (rde.c:468-473). -/
def attr_localpref (host : byte_order) (buf : List u_char) (a : attr_flags)
    (attr_len : Nat) (s : attr_vars) : attr_run :=
  if attr_len ≠ 4 then ⟨s.log, [], .err⟩
  else
    match UPD_READ buf s 4 with
    | (some [b0, b1, b2, b3], s1) =>
      ⟨s1.log, [], .ok (s1.plen, { a with lpref := ntohl host (memcpy32 host b0 b1 b2 b3) })⟩
    | (_, s1) => ⟨s1.log, [], .oob⟩

/-- `case ATTR_ATOMIC_AGGREGATE:` (rde.c:474-478). -/
def attr_atomic_aggregate (a : attr_flags) (attr_len : Nat) (s : attr_vars) : attr_run :=
  if attr_len > 0 then ⟨s.log, [], .err⟩
  else ⟨s.log, [], .ok (s.plen, { a with aggr_atm := 1 })⟩

/-- `case ATTR_AGGREGATOR:` (rde.c:479-485). -/
def attr_aggregator (host : byte_order) (buf : List u_char) (a : attr_flags)
    (attr_len : Nat) (s : attr_vars) : attr_run :=
  if attr_len ≠ 6 then ⟨s.log, [], .err⟩
  else
    match UPD_READ buf s 2 with
    | (some [c0, c1], s1) =>
      match UPD_READ buf s1 4 with
      | (some [b0, b1, b2, b3], s2) =>
        ⟨s2.log, [],
          .ok (s2.plen, { a with aggr_as := ntohs host (memcpy16 host c0 c1),
                                 aggr_ip := ⟨b0, b1, b2, b3⟩ })⟩
      | (_, s2) => ⟨s2.log, [], .oob⟩
    | (_, s1) => ⟨s1.log, [], .oob⟩

/-- `default:` (rde.c:486-489): the value is skipped. -/
def attr_default (a : attr_flags) (attr_len : Nat) (s : attr_vars) : attr_run :=
  ⟨s.log, [], .ok ((s.plen + attr_len) % 65536, a)⟩

/-- Lines 434-492 of `rde_update_get_attr`: the check of `attr_len` against what
is left of `len`, and the `switch (type)`. -/
def attr_switch (host : byte_order) (aspath_verify : List u_char → Nat → Int)
    (conf_as : Nat) (buf : List u_char) (len : Nat) (a : attr_flags)
    (type attr_len : Nat) (s : attr_vars) : attr_run :=
  if (len : Int) - (s.plen : Int) < (attr_len : Int) then ⟨s.log, [], .err⟩
  else if type = ATTR_UNDEF then ⟨s.log, [], .err⟩
  else if type = ATTR_ORIGIN then attr_origin buf a attr_len s
  else if type = ATTR_ASPATH then attr_aspath aspath_verify conf_as buf a attr_len s
  else if type = ATTR_NEXTHOP then attr_nexthop buf a attr_len s
  else if type = ATTR_MED then attr_med host buf a attr_len s
  else if type = ATTR_LOCALPREF then attr_localpref host buf a attr_len s
  else if type = ATTR_ATOMIC_AGGREGATE then attr_atomic_aggregate a attr_len s
  else if type = ATTR_AGGREGATOR then attr_aggregator host buf a attr_len s
  else attr_default a attr_len s

/-- `rde_update_get_attr(p, len, a)` with its access log and calls.  `host` is
the byte order of the machine, `aspath_verify` the external checker and `conf_as`
the global `conf->as`. -/
def rde_update_get_attr_traced (host : byte_order)
    (aspath_verify : List u_char → Nat → Int) (conf_as : Nat)
    (buf : List u_char) (len : Nat) (a : attr_flags) : attr_run :=
  if len < 3 then ⟨[], [], .err⟩
  else
    match UPD_READ buf { p := 0, plen := 0, log := [] } 1 with
    | (some [flags], s1) =>
      match UPD_READ buf s1 1 with
      | (some [type], s2) =>
        if flags.val &&& ATTR_EXTLEN ≠ 0 then
          if (len : Int) - (s2.plen : Int) < 2 then ⟨s2.log, [], .err⟩
          else
            match UPD_READ buf s2 2 with
            | (some [l0, l1], s3) =>
              attr_switch host aspath_verify conf_as buf len a type.val
                (memcpy16 host l0 l1) s3
            | (_, s3) => ⟨s3.log, [], .oob⟩
        else
          match UPD_READ buf s2 1 with
          | (some [tmp8], s3) =>
            attr_switch host aspath_verify conf_as buf len a type.val tmp8.val s3
          | (_, s3) => ⟨s3.log, [], .oob⟩
      | (_, s2) => ⟨s2.log, [], .oob⟩
    | (_, s1) => ⟨s1.log, [], .oob⟩

/-- `rde_update_get_attr(p, len, a)`: `ok (plen, a1)` is a return of `plen` with
`*a` updated to `a1`; `err` is `return (-1)`. -/
def rde_update_get_attr (host : byte_order) (aspath_verify : List u_char → Nat → Int)
    (conf_as : Nat) (buf : List u_char) (len : Nat) (a : attr_flags) :
    Ret (Nat × attr_flags) :=
  (rde_update_get_attr_traced host aspath_verify conf_as buf len a).ret

/-! ## Process state -/

/-- `enum peer_state` of rde.h. -/
inductive peer_state where
  | PEER_NONE
  | PEER_DOWN
  | PEER_UP
  deriving DecidableEq, Repr

/-- `enum reconf_action` of bgpd.h. -/
inductive reconf_action where
  | RECONF_NONE
  | RECONF_KEEP
  | RECONF_DELETE
  deriving DecidableEq, Repr

/-- A `struct peer_config`: the two members rde.c reads, the AS number, and
`params` for every other member (they are only ever copied as a block). -/
structure peer_config where
  id : Nat
  reconf_action : reconf_action
  remote_as : Nat
  params : List Nat
  deriving DecidableEq, Repr

/-- A `struct rde_peer`.  `path_h` lists the `struct rde_aspath` records of the
peer (by address), head first. -/
structure rde_peer where
  conf : peer_config
  remote_bgpid : Nat
  state : peer_state
  path_h : List Nat
  deriving DecidableEq, Repr

/-- A `struct bgpd_config`: `as` (named `local_as` here), `flags`, the `peers`
list (each `struct peer` reduced to its `conf`), and `params` for the rest. -/
structure bgpd_config where
  local_as : Nat
  flags : Nat
  peers : List peer_config
  params : List Nat
  deriving DecidableEq, Repr

/-- `enum imsg_type` of bgpd.h, as far as rde.c names its members; `IMSG_OTHER`
stands for any other member. -/
inductive imsg_type where
  | IMSG_RECONF_CONF
  | IMSG_RECONF_PEER
  | IMSG_RECONF_DONE
  | IMSG_UPDATE
  | IMSG_UPDATE_ERR
  | IMSG_SESSION_UP
  | IMSG_SESSION_DOWN
  | IMSG_MRT_REQ
  | IMSG_MRT_END
  | IMSG_KROUTE_CHANGE
  | IMSG_KROUTE_DELETE
  | IMSG_KROUTE_ADD
  | IMSG_SHUTDOWN_REQUEST
  | IMSG_SHUTDOWN_DONE
  | IMSG_OTHER (n : Nat)
  deriving DecidableEq, Repr

/-- A `struct kroute` as filled in by `rde_send_kroute`. -/
structure kroute where
  pfx : in_addr
  prefixlen : Nat
  nexthop : in_addr
  deriving DecidableEq, Repr

/-- The payload `imsg.data` points to, by the type its reader casts it to. -/
inductive imsg_data where
  | empty
  | bytes (l : List u_char)
  | conf (c : bgpd_config)
  | peer (pc : peer_config)
  | kroute (kr : kroute)
  deriving DecidableEq, Repr

/-- A `struct imsg_hdr`. -/
structure imsg_hdr where
  type : imsg_type
  len : Nat
  peerid : Nat
  deriving DecidableEq, Repr

/-- A `struct imsg` as `imsg_get` hands it over. -/
structure imsg where
  hdr : imsg_hdr
  data : imsg_data
  deriving DecidableEq, Repr

/-- A message queued by `imsg_compose(ibuf, type, peerid, data, datalen)`. -/
structure imsg_out where
  type : imsg_type
  peerid : Nat
  data : imsg_data
  deriving DecidableEq, Repr

/-- The `struct peer_table peertable`: each bucket lists the addresses of its
peers, head first. -/
structure peer_table where
  peer_hashtbl : List (List Nat)
  peer_hashmask : Nat
  deriving DecidableEq, Repr

/-- The globals of rde.c and what the process has done so far.

* `heap` maps the address of every live `struct rde_peer` to its content,
  `brk` is the address the next `calloc` returns;
* `ibuf_se`, `ibuf_main` are the messages composed for the session engine and
  the parent, oldest first;
* `calls` are the calls made into the rest of the daemon, oldest first. -/
structure rde_state where
  conf : bgpd_config
  nconf : Option bgpd_config
  heap : Nat → Option rde_peer
  brk : Nat
  peertable : peer_table
  peerlist : List Nat
  ibuf_se : List imsg_out
  ibuf_main : List imsg_out
  calls : List call

/-- How a function of rde.c that touches the process state ends. -/
inductive exec (α : Type) where
  /-- it returned `v`, leaving state `w` -/
  | ret (v : α) (w : rde_state)
  /-- `fatal(msg, ...)` or a failed `ENSURE`: the process terminates in state `w` -/
  | fatal (msg : String) (w : rde_state)
  /-- memory outside an object was accessed (undefined behaviour) -/
  | oob (w : rde_state)
  /-- the model ran out of loop fuel -/
  | nofuel

/-- What the environment of rde.c fixes: the byte order of the host, the values
of the macros `IMSG_HEADER_SIZE` and `BGPD_FLAG_NO_FIB_UPDATE` (bgpd.h) and the
external `aspath_verify`. -/
structure rde_env where
  host : byte_order
  IMSG_HEADER_SIZE : Nat
  BGPD_FLAG_NO_FIB_UPDATE : Nat
  aspath_verify : List u_char → Nat → Int

/-- Index of the parent's pipe in `pfd`. -/
def PFD_PIPE_MAIN : Nat := 0

/-- Index of the session engine's pipe in `pfd`. -/
def PFD_PIPE_SESSION : Nat := 1

/-- Modelled from the spec: `ERR_UPD_ATTRLIST` of `enum suberr_update` (bgpd.h),
"the attribute-list sub-error code"; in BGP-4 it is UPDATE error subcode 1. -/
def ERR_UPD_ATTRLIST : Nat := 1

/-- `x -= y` on a `u_int16_t` (the subtraction is done in `int`, the result
truncated to 16 bits). -/
def u16_sub (x y : Nat) : Nat :=
  (((x : Int) - (y : Int)) % 65536).toNat

/-! ## Peer registry (rde.c:540-680) -/

/-- `PEER_HASH(x)`: the bucket `peer_hashtbl[x & peer_hashmask]`.  The table has
`peer_hashmask + 1` buckets (`peer_init`), so the index is in range; outside of it
the model yields the empty bucket. -/
def PEER_HASH (w : rde_state) (x : Nat) : List Nat :=
  w.peertable.peer_hashtbl.getD (x &&& w.peertable.peer_hashmask) []

/-- The test `peer->conf.id == id` of `peer_get` on the record at `ptr`.  A bucket
entry whose record has been freed does not occur in a consistent registry
(`registry_ok`); the model passes it over. -/
def peer_has_id (w : rde_state) (id : Nat) (ptr : Nat) : Bool :=
  match w.heap ptr with
  | some pr => pr.conf.id == id
  | none => false

/-- `peer_get(id)` (rde.c:578-592): the first peer of the bucket with that id,
`none` for `NULL`. -/
def peer_get (w : rde_state) (id : Nat) : Option Nat :=
  (PEER_HASH w id).find? (peer_has_id w id)

/-- Store `pr` at address `ptr`. -/
def heap_set (heap : Nat → Option rde_peer) (ptr : Nat) (pr : Option rde_peer) :
    Nat → Option rde_peer :=
  fun q => if q = ptr then pr else heap q

/-- `peer_add(id, p_conf)` (rde.c:594-618); `calloc` is taken to succeed and to
return the fresh address `brk`. -/
def peer_add (w : rde_state) (id : Nat) (p_conf : peer_config) : exec Nat :=
  if peer_get w id ≠ none then .fatal "ENSURE(peer_get(id) == NULL)" w
  else
    .ret w.brk
      { w with
        heap := heap_set w.heap w.brk
          (some { conf := p_conf, remote_bgpid := 0, state := .PEER_NONE, path_h := [] })
        brk := w.brk + 1
        peertable :=
          { w.peertable with
            peer_hashtbl :=
              w.peertable.peer_hashtbl.set (id &&& w.peertable.peer_hashmask)
                (w.brk :: PEER_HASH w id) }
        peerlist := w.brk :: w.peerlist }

/-- `peer_remove(peer)` (rde.c:620-639).  `LIST_REMOVE` unlinks the record from
whichever list holds it. -/
def peer_remove (w : rde_state) (ptr : Nat) : exec Unit :=
  match w.heap ptr with
  | none => .oob w
  | some pr =>
    if pr.state = .PEER_UP then
      .ret ()
        { w with
          heap := heap_set w.heap ptr
            (some { pr with conf := { pr.conf with reconf_action := .RECONF_DELETE } }) }
    else if peer_get w pr.conf.id = none then
      .fatal "ENSURE(peer_get(peer->conf.id) != NULL)" w
    else if pr.path_h ≠ [] then
      .fatal "ENSURE(LIST_EMPTY(&peer->path_h))" w
    else
      .ret ()
        { w with
          heap := heap_set w.heap ptr none
          peertable :=
            { w.peertable with
              peer_hashtbl := w.peertable.peer_hashtbl.map (fun b => b.erase ptr) }
          peerlist := w.peerlist.erase ptr }

/-- `peer_up(id, rid)` (rde.c:641-653). -/
def peer_up (w : rde_state) (id rid : Nat) : exec Unit :=
  match peer_get w id with
  | none =>
    .ret () { w with calls := w.calls ++ [.logit .LOG_CRIT "peer_up: unknown peer id %d" [id]] }
  | some ptr =>
    match w.heap ptr with
    | none => .oob w
    | some pr =>
      .ret ()
        { w with
          heap := heap_set w.heap ptr
            (some { pr with remote_bgpid := rid, state := .PEER_UP }) }

/-- `peer_down(id)` (rde.c:655-680). -/
def peer_down (w : rde_state) (id : Nat) : exec Unit :=
  match peer_get w id with
  | none =>
    .ret ()
      { w with calls := w.calls ++ [.logit .LOG_CRIT "peer_down: unknown peer id &d" [id]] }
  | some ptr =>
    match w.heap ptr with
    | none => .oob w
    | some pr =>
      let w1 : rde_state :=
        { w with
          heap := heap_set w.heap ptr
            (some { pr with remote_bgpid := 0, state := .PEER_DOWN, path_h := [] })
          calls := w.calls ++ pr.path_h.map call.path_remove }
      if pr.conf.reconf_action = .RECONF_DELETE then peer_remove w1 ptr
      else .ret () w1

/-- The loop `for (hs = 1; hs < hashsize; hs <<= 1)` of `peer_init`, with fuel;
`u_long` is taken wide enough for `hs` not to wrap. -/
def hash_size : Nat → Nat → Nat → Option Nat
  | 0, _, _ => none
  | fuel + 1, hs, hashsize =>
    if hs < hashsize then hash_size fuel (hs * 2) hashsize else some hs

/-- The loop of `peer_init` over `bgpconf->peers`. -/
def peer_init_loop : List peer_config → rde_state → exec Unit
  | [], w => .ret () w
  | p :: next, w =>
    match peer_add w p.id { p with reconf_action := .RECONF_NONE } with
    | .ret _ w1 => peer_init_loop next w1
    | .fatal msg w1 => .fatal msg w1
    | .oob w1 => .oob w1
    | .nofuel => .nofuel

/-- `peer_init(bgpconf, hashsize)` (rde.c:551-576), where `bgpconf` is the global
`conf` (rde.c:89, 115); `calloc` is taken to succeed. -/
def peer_init (w : rde_state) (hashsize : Nat) : exec Unit :=
  match hash_size (hashsize + 1) 1 hashsize with
  | none => .nofuel
  | some hs =>
    peer_init_loop w.conf.peers
      { w with
        peertable := { peer_hashtbl := List.replicate hs [], peer_hashmask := hs - 1 }
        peerlist := []
        conf := { w.conf with peers := [] } }

/-! ## `rde_update_dispatch` (rde.c:278-357) -/

/-- `rde_update_err(peerid, errorcode)` (rde.c:496-504): one `IMSG_UPDATE_ERR`
with the one-byte error code is composed for the session engine. -/
def rde_update_err (w : rde_state) (peerid errorcode : Nat) : rde_state :=
  { w with
    ibuf_se := w.ibuf_se ++
      [{ type := .IMSG_UPDATE_ERR, peerid := peerid, data := .bytes [Fin.ofNat errorcode] }] }

/-- How one of the decode loops of `rde_update_dispatch` ends. -/
inductive loop_end (σ : Type) where
  /-- the loop condition became false with locals `s` -/
  | done (s : σ)
  /-- a decoder returned a negative value; `calls` are the calls made so far -/
  | failed (calls : List call)
  /-- a decoder stepped outside the message -/
  | oob (calls : List call)
  /-- the model ran out of fuel -/
  | nofuel
  deriving DecidableEq, Repr

/-- Locals of `rde_update_dispatch` around a prefix loop: `p` (offset into
`imsg->data`), the remaining length, and the calls made so far. -/
structure prefix_loop_vars where
  p : Nat
  len : Nat
  calls : List call
  deriving DecidableEq, Repr

/-- The loop `while (withdrawn_len > 0)` (rde.c:308-317). -/
def withdrawn_loop (data : List u_char) (peer : Nat) :
    Nat → prefix_loop_vars → loop_end prefix_loop_vars
  | 0, _ => .nofuel
  | fuel + 1, s =>
    if s.len > 0 then
      match rde_update_get_prefix (data.drop s.p) s.len with
      | .err => .failed s.calls
      | .oob => .oob s.calls
      | .ok r =>
        withdrawn_loop data peer fuel
          { p := s.p + r.plen, len := u16_sub s.len r.plen,
            calls := s.calls ++ [.prefix_remove peer r.pfx r.prefixlen] }
    else .done s

/-- Locals of `rde_update_dispatch` around the attribute loop. -/
structure attr_loop_vars where
  p : Nat
  len : Nat
  attrs : attr_flags
  calls : List call
  deriving DecidableEq, Repr

/-- The loop `while (attrpath_len > 0)` (rde.c:333-340). -/
def attr_loop (env : rde_env) (conf_as : Nat) (data : List u_char) :
    Nat → attr_loop_vars → loop_end attr_loop_vars
  | 0, _ => .nofuel
  | fuel + 1, s =>
    if s.len > 0 then
      match rde_update_get_attr_traced env.host env.aspath_verify conf_as
          (data.drop s.p) s.len s.attrs with
      | ⟨_, calls, .err⟩ => .failed (s.calls ++ calls)
      | ⟨_, calls, .oob⟩ => .oob (s.calls ++ calls)
      | ⟨_, calls, .ok (pos, attrs)⟩ =>
        attr_loop env conf_as data fuel
          { p := s.p + pos, len := u16_sub s.len pos, attrs := attrs,
            calls := s.calls ++ calls }
    else .done s

/-- The loop `while (nlri_len > 0)` (rde.c:342-351). -/
def nlri_loop (data : List u_char) (peer : Nat) (attrs : attr_flags) :
    Nat → prefix_loop_vars → loop_end prefix_loop_vars
  | 0, _ => .nofuel
  | fuel + 1, s =>
    if s.len > 0 then
      match rde_update_get_prefix (data.drop s.p) s.len with
      | .err => .failed s.calls
      | .oob => .oob s.calls
      | .ok r =>
        nlri_loop data peer attrs fuel
          { p := s.p + r.plen, len := u16_sub s.len r.plen,
            calls := s.calls ++ [.path_update peer attrs r.pfx r.prefixlen] }
    else .done s

/-- Lines 319-356 of `rde_update_dispatch`: everything after the withdrawn-routes
loop.  `p` and `withdrawn_len` are the locals as that loop left them, `calls` the
calls made so far. -/
def rde_update_dispatch_tail (env : rde_env) (w : rde_state) (hdr_len : Nat)
    (data : List u_char) (peer peerid : Nat) (p withdrawn_len : Nat)
    (calls : List call) : exec Int :=
  match data[p]?, data[p + 1]? with
  | some b0, some b1 =>
    let attrpath_len := ntohs env.host (memcpy16 env.host b0 b1)
    if hdr_len < env.IMSG_HEADER_SIZE + 2 + withdrawn_len + 2 + attrpath_len then
      .ret (-1) (rde_update_err { w with calls := calls } peerid ERR_UPD_ATTRLIST)
    else
      let nlri_len :=
        (((hdr_len : Int) - (env.IMSG_HEADER_SIZE : Int) - 4 - (withdrawn_len : Int)
            - (attrpath_len : Int)) % 65536).toNat
      if attrpath_len = 0 then .ret 0 { w with calls := calls }
      else
        match attr_loop env w.conf.local_as data (attrpath_len + 1)
            { p := p + 2, len := attrpath_len, attrs := init_attr_flags, calls := calls } with
        | .nofuel => .nofuel
        | .oob calls1 => .oob { w with calls := calls1 }
        | .failed calls1 =>
          .ret (-1) (rde_update_err { w with calls := calls1 } peerid ERR_UPD_ATTRLIST)
        | .done s =>
          match nlri_loop data peer s.attrs (nlri_len + 1)
              { p := s.p, len := nlri_len, calls := s.calls } with
          | .nofuel => .nofuel
          | .oob calls2 => .oob { w with calls := calls2 }
          | .failed calls2 =>
            .ret (-1) (rde_update_err { w with calls := calls2 } peerid ERR_UPD_ATTRLIST)
          | .done s2 =>
            .ret 0 { w with calls := s2.calls ++ [.aspath_destroy s.attrs.aspath] }
  | _, _ => .oob { w with calls := calls }

/-- `rde_update_dispatch(imsg)` (rde.c:278-357).  The payload of an UPDATE is a
byte string; the returned value is the function's `int`. -/
def rde_update_dispatch (env : rde_env) (w : rde_state) (m : imsg) : exec Int :=
  match peer_get w m.hdr.peerid with
  | none => .ret (-1) w
  | some peer =>
    match w.heap peer with
    | none => .oob w
    | some pr =>
      if pr.state ≠ .PEER_UP then .ret (-1) w
      else
        match m.data with
        | .bytes data =>
          match data[0]?, data[1]? with
          | some b0, some b1 =>
            let withdrawn_len := ntohs env.host (memcpy16 env.host b0 b1)
            if m.hdr.len < env.IMSG_HEADER_SIZE + 2 + withdrawn_len + 2 then
              .ret (-1) (rde_update_err w pr.conf.id ERR_UPD_ATTRLIST)
            else
              match withdrawn_loop data peer (withdrawn_len + 1)
                  { p := 2, len := withdrawn_len, calls := w.calls } with
              | .nofuel => .nofuel
              | .oob calls => .oob { w with calls := calls }
              | .failed calls =>
                .ret (-1) (rde_update_err { w with calls := calls } pr.conf.id ERR_UPD_ATTRLIST)
              | .done s =>
                rde_update_dispatch_tail env w m.hdr.len data peer pr.conf.id s.p s.len s.calls
          | _, _ => .oob w
        | _ => .oob w

/-! ## `rde_dispatch_imsg` (rde.c:165-264) -/

/-- The sweep over `peerlist` in the `IMSG_RECONF_DONE` case (rde.c:202-217);
the argument lists the peers still to visit (`np` is read before `p` is
handled). -/
def reconf_sweep : List Nat → rde_state → exec Unit
  | [], w => .ret () w
  | p :: np, w =>
    match w.heap p with
    | none => .oob w
    | some pr =>
      match pr.conf.reconf_action with
      | .RECONF_NONE =>
        match peer_remove w p with
        | .ret _ w1 => reconf_sweep np w1
        | .fatal msg w1 => .fatal msg w1
        | .oob w1 => .oob w1
        | .nofuel => .nofuel
      | .RECONF_KEEP =>
        reconf_sweep np
          { w with
            heap := heap_set w.heap p
              (some { pr with conf := { pr.conf with reconf_action := .RECONF_NONE } }) }
      | .RECONF_DELETE => reconf_sweep np w

/-- The statement `p->conf.reconf_action = RECONF_KEEP` (rde.c:195). -/
def mark_keep (w : rde_state) (p : Nat) : exec Unit :=
  match w.heap p with
  | none => .oob w
  | some pr =>
    .ret ()
      { w with
        heap := heap_set w.heap p
          (some { pr with conf := { pr.conf with reconf_action := .RECONF_KEEP } }) }

/-- The tail shared by `IMSG_MRT_REQ` (falling through) and `IMSG_MRT_END`
(rde.c:248-254). -/
def mrt_end (w : rde_state) (idx : Nat) (m : imsg) : exec Unit :=
  if idx ≠ PFD_PIPE_MAIN then .fatal "mrt request not from parent" w
  else
    .ret ()
      { w with
        ibuf_main := w.ibuf_main ++
          [{ type := .IMSG_MRT_END, peerid := m.hdr.peerid, data := .empty }] }

/-- The body of `rde_dispatch_imsg(ibuf, idx)` for the message `m` that `imsg_get`
returned (rde.c:174-263); `malloc` is taken to succeed. -/
def rde_dispatch_imsg (env : rde_env) (w : rde_state) (idx : Nat) (m : imsg) : exec Unit :=
  match m.hdr.type with
  | .IMSG_RECONF_CONF =>
    if idx ≠ PFD_PIPE_MAIN then .fatal "reconf request not from parent" w
    else
      match m.data with
      | .conf c => .ret () { w with nconf := some { c with peers := [] } }
      | _ => .oob w
  | .IMSG_RECONF_PEER =>
    if idx ≠ PFD_PIPE_MAIN then .fatal "reconf request not from parent" w
    else
      match m.data with
      | .peer pconf =>
        match peer_get w pconf.id with
        | none =>
          match peer_add w pconf.id pconf with
          | .ret p w1 => mark_keep w1 p
          | .fatal msg w1 => .fatal msg w1
          | .oob w1 => .oob w1
          | .nofuel => .nofuel
        | some p =>
          match w.heap p with
          | none => .oob w
          | some pr =>
            mark_keep { w with heap := heap_set w.heap p (some { pr with conf := pconf }) } p
      | _ => .oob w
  | .IMSG_RECONF_DONE =>
    if idx ≠ PFD_PIPE_MAIN then .fatal "reconf request not from parent" w
    else
      match w.nconf with
      | none => .fatal "got IMSG_RECONF_DONE but no config" w
      | some nc =>
        match reconf_sweep w.peerlist w with
        | .ret _ w1 =>
          .ret ()
            { w1 with
              conf := nc
              nconf := none
              calls := w1.calls ++ [.logit .LOG_INFO "RDE reconfigured" []] }
        | .fatal msg w1 => .fatal msg w1
        | .oob w1 => .oob w1
        | .nofuel => .nofuel
  | .IMSG_UPDATE =>
    if idx ≠ PFD_PIPE_SESSION then .fatal "update msg not from session engine" w
    else
      match rde_update_dispatch env w m with
      | .ret _ w1 => .ret () w1
      | .fatal msg w1 => .fatal msg w1
      | .oob w1 => .oob w1
      | .nofuel => .nofuel
  | .IMSG_SESSION_UP =>
    if idx ≠ PFD_PIPE_SESSION then .fatal "session msg not from session engine" w
    else if (m.hdr.len : Int) - (env.IMSG_HEADER_SIZE : Int) ≠ 4 then
      .fatal "incorrect size of session request" w
    else
      match m.data with
      | .bytes (b0 :: b1 :: b2 :: b3 :: _) =>
        peer_up w m.hdr.peerid (memcpy32 env.host b0 b1 b2 b3)
      | _ => .oob w
  | .IMSG_SESSION_DOWN =>
    if idx ≠ PFD_PIPE_SESSION then .fatal "session msg not from session engine" w
    else peer_down w m.hdr.peerid
  | .IMSG_MRT_REQ =>
    if idx ≠ PFD_PIPE_MAIN then .fatal "mrt request not from parent" w
    else mrt_end { w with calls := w.calls ++ [.pt_dump m.hdr.peerid] } idx m
  | .IMSG_MRT_END => mrt_end w idx m
  | .IMSG_SHUTDOWN_REQUEST =>
    .ret ()
      { w with
        ibuf_main := w.ibuf_main ++
          [{ type := .IMSG_SHUTDOWN_DONE, peerid := 0, data := .empty }] }
  | _ => .ret () w

/-- Run `rde_dispatch_imsg` on a sequence of (channel, message) pairs, stopping
at the first one that does not return. -/
def rde_dispatch_all (env : rde_env) : List (Nat × imsg) → rde_state → exec Unit
  | [], w => .ret () w
  | (idx, m) :: ms, w =>
    match rde_dispatch_imsg env w idx m with
    | .ret _ w1 => rde_dispatch_all env ms w1
    | .fatal msg w1 => .fatal msg w1
    | .oob w1 => .oob w1
    | .nofuel => .nofuel

/-! ## `rde_send_kroute` (rde.c:509-538) -/

/-- The `state` of the `struct rde_aspath` a prefix hangs off. -/
inductive nexthop_state where
  | NEXTHOP_LOOKUP
  | NEXTHOP_UNREACH
  | NEXTHOP_REACH
  deriving DecidableEq, Repr

/-- A `struct prefix` with what `rde_send_kroute` reads through it:
`prefix->prefix`, `prefix->prefixlen`, `aspath->state`, `aspath->flags.nexthop`. -/
structure rib_entry where
  pfx : in_addr
  prefixlen : Nat
  state : nexthop_state
  nexthop : in_addr
  deriving DecidableEq, Repr

/-- `rde_send_kroute(new, old)`; `none` is a `NULL` argument. -/
def rde_send_kroute (env : rde_env) (w : rde_state) (new old : Option rib_entry) :
    rde_state :=
  if w.conf.flags &&& env.BGPD_FLAG_NO_FIB_UPDATE ≠ 0 then w
  else
    match old, new with
    | none, none => w
    | none, some n =>
      { w with
        ibuf_main := w.ibuf_main ++
          [{ type := .IMSG_KROUTE_ADD, peerid := 0,
             data := .kroute ⟨n.pfx, n.prefixlen, n.nexthop⟩ }] }
    | some o, none =>
      { w with
        ibuf_main := w.ibuf_main ++
          [{ type := .IMSG_KROUTE_DELETE, peerid := 0,
             data := .kroute ⟨o.pfx, o.prefixlen, o.nexthop⟩ }] }
    | some o, some n =>
      if n.state = .NEXTHOP_UNREACH then
        { w with
          ibuf_main := w.ibuf_main ++
            [{ type := .IMSG_KROUTE_DELETE, peerid := 0,
               data := .kroute ⟨o.pfx, o.prefixlen, o.nexthop⟩ }] }
      else
        { w with
          ibuf_main := w.ibuf_main ++
            [{ type := .IMSG_KROUTE_CHANGE, peerid := 0,
               data := .kroute ⟨n.pfx, n.prefixlen, n.nexthop⟩ }] }

/-! ## Predicates used by the theorems -/

/-- The invariant of a decoder run: every access lies below `len`, and a success
consumed at most `len` bytes; when the buffer holds `len` bytes there is no
access outside it. -/
def attr_run_ok (buf : List u_char) (len : Nat) (r : attr_run) : Prop :=
  (∀ x ∈ r.log, x.upper ≤ len) ∧
  (∀ n a, r.ret = .ok (n, a) → n ≤ len) ∧
  (len ≤ buf.length → r.ret ≠ .oob)


/-! ## Concrete inputs used by the examples -/

/-- An environment for the examples: a little-endian host (the usual Linux
machine), a 12-byte `struct imsg_hdr`, and an `aspath_verify` that accepts
everything. -/
def env_le : rde_env :=
  { host := .LITTLE_ENDIAN, IMSG_HEADER_SIZE := 12, BGPD_FLAG_NO_FIB_UPDATE := 1,
    aspath_verify := fun _ _ => 0 }

/-- The same environment on a big-endian host. -/
def env_be : rde_env :=
  { host := .BIG_ENDIAN, IMSG_HEADER_SIZE := 12, BGPD_FLAG_NO_FIB_UPDATE := 1,
    aspath_verify := fun _ _ => 0 }

/-- A registry of 64 buckets holding peer 7 (at address 1, session up, two paths)
and peer 9 (at address 2, never up). -/
def state_two_peers : rde_state :=
  { conf := { local_as := 65000, flags := 0, peers := [], params := [] }
    nconf := none
    heap := fun q =>
      if q = 1 then
        some { conf := { id := 7, reconf_action := .RECONF_NONE, remote_as := 65001,
                         params := [] },
               remote_bgpid := 3232235777, state := .PEER_UP, path_h := [100, 101] }
      else if q = 2 then
        some { conf := { id := 9, reconf_action := .RECONF_NONE, remote_as := 65002,
                         params := [] },
               remote_bgpid := 0, state := .PEER_NONE, path_h := [] }
      else none
    brk := 3
    peertable :=
      { peer_hashtbl := ((List.replicate 64 []).set 7 [1]).set 9 [2], peer_hashmask := 63 }
    peerlist := [2, 1]
    ibuf_se := []
    ibuf_main := []
    calls := [] }

/-- The value an `exec` returned, if it returned. -/
def exec.value {α : Type} : exec α → Option α
  | .ret v _ => some v
  | _ => none

/-- The state an `exec` ended in (`none` when the model ran out of fuel). -/
def exec.state {α : Type} : exec α → Option rde_state
  | .ret _ w => some w
  | .fatal _ w => some w
  | .oob w => some w
  | .nofuel => none

/-- An UPDATE message for peer `peerid` with payload `data` (its header length is
`IMSG_HEADER_SIZE` plus the payload size, as `imsg_get` guarantees). -/
def update_imsg (env : rde_env) (peerid : Nat) (data : List u_char) : imsg :=
  { hdr := { type := .IMSG_UPDATE, len := env.IMSG_HEADER_SIZE + data.length,
             peerid := peerid },
    data := .bytes data }

/-! ## Registry invariant -/

/-- Consistency of the peer registry: the hash table has `peer_hashmask + 1`
buckets; the peer list and every bucket hold no address twice; every listed peer
is a live record and sits in the bucket of its id; every address in a bucket is a
listed, live record whose id hashes to that bucket; no two listed peers share an
id; listed addresses were handed out by `calloc` (they are below `brk`). -/
structure registry_ok (w : rde_state) : Prop where
  size : w.peertable.peer_hashtbl.length = w.peertable.peer_hashmask + 1
  list_nodup : w.peerlist.Nodup
  list_live : ∀ ptr ∈ w.peerlist, ∃ pr, w.heap ptr = some pr ∧ ptr ∈ PEER_HASH w pr.conf.id
  bucket_sound : ∀ i b, w.peertable.peer_hashtbl[i]? = some b → ∀ ptr ∈ b,
    ptr ∈ w.peerlist ∧ ∃ pr, w.heap ptr = some pr ∧
      pr.conf.id &&& w.peertable.peer_hashmask = i
  bucket_nodup : ∀ b ∈ w.peertable.peer_hashtbl, b.Nodup
  id_unique : ∀ p q pr qr, p ∈ w.peerlist → q ∈ w.peerlist → w.heap p = some pr →
    w.heap q = some qr → pr.conf.id = qr.conf.id → p = q
  below_brk : ∀ ptr ∈ w.peerlist, ptr < w.brk

/-- The record `peer_get(id)` points to, if any. -/
def registered (w : rde_state) (id : Nat) : Option rde_peer :=
  (peer_get w id).bind w.heap

/-- What `peer_add` leaves when the id is fresh. -/
def peer_add_state (w : rde_state) (id : Nat) (p_conf : peer_config) : rde_state :=
  { w with
    heap := heap_set w.heap w.brk
      (some { conf := p_conf, remote_bgpid := 0, state := .PEER_NONE, path_h := [] })
    brk := w.brk + 1
    peertable :=
      { w.peertable with
        peer_hashtbl :=
          w.peertable.peer_hashtbl.set (id &&& w.peertable.peer_hashmask)
            (w.brk :: PEER_HASH w id) }
    peerlist := w.brk :: w.peerlist }


/-! ## Reconfiguration round, stated on records -/

/-- The `IMSG_RECONF_CONF` message carrying snapshot `c` (the header's `len` and
`peerid` are not read for the reconfiguration messages). -/
def reconf_conf_imsg (c : bgpd_config) : imsg :=
  { hdr := { type := .IMSG_RECONF_CONF, len := 0, peerid := 0 }, data := .conf c }

/-- The `IMSG_RECONF_PEER` message carrying peer configuration `pc`. -/
def reconf_peer_imsg (pc : peer_config) : imsg :=
  { hdr := { type := .IMSG_RECONF_PEER, len := 0, peerid := 0 }, data := .peer pc }

/-- The `IMSG_RECONF_DONE` message. -/
def reconf_done_imsg : imsg :=
  { hdr := { type := .IMSG_RECONF_DONE, len := 0, peerid := 0 }, data := .empty }

/-- A reconfiguration round as the parent sends it: Begin with snapshot `c`, one
peer-upsert per element of `pcs`, Commit. -/
def reconf_round (c : bgpd_config) (pcs : List peer_config) : List (Nat × imsg) :=
  (PFD_PIPE_MAIN, reconf_conf_imsg c) ::
    (pcs.map (fun pc => (PFD_PIPE_MAIN, reconf_peer_imsg pc)) ++
      [(PFD_PIPE_MAIN, reconf_done_imsg)])

/-- The last configuration upserted for `id` in `pcs`, if any. -/
def last_upsert (pcs : List peer_config) (id : Nat) : Option peer_config :=
  pcs.reverse.find? (fun pc => pc.id == id)

/-- The record a peer-upsert of `pc` leaves for its id, given the record `old`
registered before (rde.c:188-195). -/
def upsert_peer (old : Option rde_peer) (pc : peer_config) : rde_peer :=
  match old with
  | some pr => { pr with conf := { pc with reconf_action := .RECONF_KEEP } }
  | none =>
    { conf := { pc with reconf_action := .RECONF_KEEP }, remote_bgpid := 0,
      state := .PEER_NONE, path_h := [] }

/-- The record registered for `id` after the upserts `pcs`, starting from `v`. -/
def upsert_all (pcs : List peer_config) (v : Option rde_peer) (id : Nat) :
    Option rde_peer :=
  pcs.foldl (fun acc pc => if pc.id = id then some (upsert_peer acc pc) else acc) v

/-- What the Commit sweep does to one peer record (rde.c:206-216 with
`peer_remove`): `none` when the record is unlinked and freed. -/
def sweep_peer (pr : rde_peer) : Option rde_peer :=
  match pr.conf.reconf_action with
  | .RECONF_NONE =>
    if pr.state = .PEER_UP then
      some { pr with conf := { pr.conf with reconf_action := .RECONF_DELETE } }
    else none
  | .RECONF_KEEP => some { pr with conf := { pr.conf with reconf_action := .RECONF_NONE } }
  | .RECONF_DELETE => some pr

/-- Whether an `exec` ended in an access outside a buffer. -/
def exec.is_oob {α : Type} : exec α → Bool
  | .oob _ => true
  | _ => false

/-! ## Reachable registry states -/

/-- The states of the peer registry that the process can get into: what
`peer_init` leaves, and from there what is left by a returning `peer_add` (called,
as everywhere in rde.c, with the id of the configuration it stores: rde.c:191,
572), `peer_remove`, `peer_up`, `peer_down`, or `rde_dispatch_imsg` on any message
from either channel.  The RIB (outside rde.c) may change the path collection of a
live peer record in between. -/
inductive reachable (env : rde_env) : rde_state → Prop where
  | init (w0 w : rde_state) (hashsize : Nat) :
    peer_init w0 hashsize = .ret () w → reachable env w
  | add (w w1 : rde_state) (id : Nat) (p_conf : peer_config) (p : Nat) :
    reachable env w → p_conf.id = id → peer_add w id p_conf = .ret p w1 → reachable env w1
  | remove (w w1 : rde_state) (ptr : Nat) :
    reachable env w → peer_remove w ptr = .ret () w1 → reachable env w1
  | up (w w1 : rde_state) (id rid : Nat) :
    reachable env w → peer_up w id rid = .ret () w1 → reachable env w1
  | down (w w1 : rde_state) (id : Nat) :
    reachable env w → peer_down w id = .ret () w1 → reachable env w1
  | imsg (w w1 : rde_state) (idx : Nat) (m : imsg) :
    reachable env w → rde_dispatch_imsg env w idx m = .ret () w1 → reachable env w1
  | rib (w : rde_state) (ptr : Nat) (pr : rde_peer) (paths : List Nat) :
    reachable env w → w.heap ptr = some pr →
    reachable env { w with heap := heap_set w.heap ptr (some { pr with path_h := paths }) }

/-- How often the address `ptr` occurs in the hash table, all buckets together. -/
def bucket_occurrences (w : rde_state) (ptr : Nat) : Nat :=
  (w.peertable.peer_hashtbl.map (fun b => b.count ptr)).sum

/-- A process state before `peer_init`: the configuration lists peers 7 and 9, no
record is allocated yet. -/
def state_boot : rde_state :=
  { conf :=
      { local_as := 65000, flags := 0,
        peers := [{ id := 7, reconf_action := .RECONF_KEEP, remote_as := 65001, params := [] },
                  { id := 9, reconf_action := .RECONF_KEEP, remote_as := 65002, params := [] }],
        params := [] }
    nconf := none
    heap := fun _ => none
    brk := 0
    peertable := { peer_hashtbl := [], peer_hashmask := 0 }
    peerlist := []
    ibuf_se := []
    ibuf_main := []
    calls := [] }

/-- What `peer_init(conf, 64)` makes of `state_boot`: peer 7 at address 0, peer 9 at
address 1. -/
def state_booted : rde_state :=
  peer_add_state
    (peer_add_state
      { state_boot with
        peertable := { peer_hashtbl := List.replicate 64 [], peer_hashmask := 63 }
        peerlist := []
        conf := { state_boot.conf with peers := [] } }
      7 { id := 7, reconf_action := .RECONF_NONE, remote_as := 65001, params := [] })
    9 { id := 9, reconf_action := .RECONF_NONE, remote_as := 65002, params := [] }

/-! # Theorems -/

theorem prefix_loop_skip (buf : List u_char) (len pfxlen i : Nat) (is : List Nat)
    (s : prefix_vars) (h : ¬ pfxlen > i * 8) :
    prefix_loop buf len pfxlen (i :: is) s = prefix_loop buf len pfxlen is s := by
  simp only [prefix_loop, if_neg h]

theorem prefix_loop_short (buf : List u_char) (len pfxlen i : Nat) (is : List Nat)
    (s : prefix_vars) (h : pfxlen > i * 8) (hlen : len ≤ s.plen) :
    prefix_loop buf len pfxlen (i :: is) s = ⟨s.log, .err⟩ := by
  have h1 : (len : Int) - (s.plen : Int) < 1 := by omega
  simp only [prefix_loop, if_pos h, if_pos h1]

theorem prefix_loop_read (buf : List u_char) (len pfxlen i : Nat) (is : List Nat)
    (s : prefix_vars) (b : u_char) (h : pfxlen > i * 8) (hlen : s.plen < len)
    (hb : buf[s.p]? = some b) :
    prefix_loop buf len pfxlen (i :: is) s =
      prefix_loop buf len pfxlen is
        { p := s.p + 1, plen := (s.plen + 1) % 65536,
          addr := s.addr.set8 i b, log := s.log ++ [.memcpy s.p 1] } := by
  have h1 : ¬ ((len : Int) - (s.plen : Int) < 1) := by omega
  simp only [prefix_loop, if_pos h, if_neg h1, hb]

theorem prefix_loop_err (buf : List u_char) (len pfxlen : Nat) :
    ∀ (is : List Nat) (s : prefix_vars), s.p = s.plen → s.plen ≤ len →
      s.plen + is.length < 65536 → len ≤ buf.length →
      len < s.plen + prefix_wanted pfxlen is →
      (prefix_loop buf len pfxlen is s).ret = .err := by
  intro is
  induction is with
  | nil => intro s _ h2 _ _ h5; simp [prefix_wanted] at h5; omega
  | cons i is ih =>
    intro s h1 h2 h3 h4 h5
    by_cases hc : pfxlen > i * 8
    · by_cases hl : len ≤ s.plen
      · rw [prefix_loop_short buf len pfxlen i is s hc hl]
      · have hp : s.p < buf.length := by omega
        rw [prefix_loop_read buf len pfxlen i is s buf[s.p] hc (by omega) (by simp [hp])]
        simp only [List.length_cons] at h3
        have hm : (s.plen + 1) % 65536 = s.plen + 1 := Nat.mod_eq_of_lt (by omega)
        apply ih
        · simp only [hm, h1]
        · simp only [hm]; omega
        · simp only [hm]; omega
        · exact h4
        · simp only [hm]
          simp only [prefix_wanted, List.filter_cons, hc, decide_True, if_true,
            List.length_cons] at h5
          simp only [prefix_wanted]; omega
    · rw [prefix_loop_skip buf len pfxlen i is s hc]
      simp only [List.length_cons] at h3
      apply ih s h1 h2 (by omega) h4
      simp only [prefix_wanted, List.filter_cons, hc, decide_False] at h5
      simpa [prefix_wanted] using h5


theorem get_prefix_cons (b0 : u_char) (rest : List u_char) (len : Nat) (h : 1 ≤ len) :
    rde_update_get_prefix (b0 :: rest) len =
      match (prefix_loop (b0 :: rest) len b0.val [0, 1, 2, 3]
          { p := 1, plen := 1, addr := in_addr.zero, log := [.memcpy 0 1] }).ret with
      | .ok s => .ok { plen := s.plen, pfx := s.addr, prefixlen := b0.val }
      | .err => .err
      | .oob => .oob := by
  have h1 : ¬ len < 1 := by omega
  simp only [ rde_update_get_prefix, rde_update_get_prefix_traced, if_neg h1,
    List.getElem?_cons_zero]
  split <;> simp_all

theorem prefix_loop_nil (buf : List u_char) (len pfxlen : Nat) (s : prefix_vars) :
    prefix_loop buf len pfxlen [] s = ⟨s.log, .ok s⟩ := by
  simp only [prefix_loop]

theorem get_prefix_wire (n : Nat) (a : in_addr) (tail : List u_char) (len : Nat)
    (hn : n ≤ 32) (hz : ∀ i, (n + 7) / 8 ≤ i → i ≤ 3 → a.get8 i = 0)
    (hlen : 1 + (n + 7) / 8 ≤ len) :
    rde_update_get_prefix (prefix_wire a n ++ tail) len
      = .ok { plen := 1 + (n + 7) / 8, pfx := a, prefixlen := n } := by
  obtain ⟨a0, a1, a2, a3⟩ := a
  have h0 := hz 0
  have h1 := hz 1
  have h2 := hz 2
  have h3 := hz 3
  simp only [in_addr.get8] at h0 h1 h2 h3
  have hv : (Fin.ofNat n : Fin 256).val = n := by
    simp only [Fin.ofNat, Nat.reduceAdd]; omega
  simp only [prefix_wire, List.cons_append]
  rw [get_prefix_cons _ _ _ (by omega)]
  simp only [hv]
  have hk : (n + 7) / 8 = 0 ∨ (n + 7) / 8 = 1 ∨ (n + 7) / 8 = 2 ∨ (n + 7) / 8 = 3
      ∨ (n + 7) / 8 = 4 := by omega
  rcases hk with hk | hk | hk | hk | hk
  · have e0 := h0 (by omega) (by omega)
    have e1 := h1 (by omega) (by omega)
    have e2 := h2 (by omega) (by omega)
    have e3 := h3 (by omega) (by omega)
    subst e0 e1 e2 e3
    rw [prefix_loop_skip _ _ _ _ _ _ (by omega), prefix_loop_skip _ _ _ _ _ _ (by omega),
      prefix_loop_skip _ _ _ _ _ _ (by omega), prefix_loop_skip _ _ _ _ _ _ (by omega),
      prefix_loop_nil]
    simp [hk, in_addr.zero]
  · have e1 := h1 (by omega) (by omega)
    have e2 := h2 (by omega) (by omega)
    have e3 := h3 (by omega) (by omega)
    subst e1 e2 e3
    rw [prefix_loop_read _ _ _ _ _ _ a0 (by omega) (by simp only; omega) (by simp [hk]),
      prefix_loop_skip _ _ _ _ _ _ (by omega),
      prefix_loop_skip _ _ _ _ _ _ (by omega), prefix_loop_skip _ _ _ _ _ _ (by omega),
      prefix_loop_nil]
    simp [hk, in_addr.zero, in_addr.set8]
  · have e2 := h2 (by omega) (by omega)
    have e3 := h3 (by omega) (by omega)
    subst e2 e3
    rw [prefix_loop_read _ _ _ _ _ _ a0 (by omega) (by simp only; omega) (by simp [hk]),
      prefix_loop_read _ _ _ _ _ _ a1 (by omega) (by simp only [Nat.reduceAdd, Nat.reduceMod]; omega) (by simp [hk]),
      prefix_loop_skip _ _ _ _ _ _ (by omega), prefix_loop_skip _ _ _ _ _ _ (by omega),
      prefix_loop_nil]
    simp [hk, in_addr.zero, in_addr.set8]
  · have e3 := h3 (by omega) (by omega)
    subst e3
    rw [prefix_loop_read _ _ _ _ _ _ a0 (by omega) (by simp only; omega) (by simp [hk]),
      prefix_loop_read _ _ _ _ _ _ a1 (by omega) (by simp only [Nat.reduceAdd, Nat.reduceMod]; omega) (by simp [hk]),
      prefix_loop_read _ _ _ _ _ _ a2 (by omega) (by simp only [Nat.reduceAdd, Nat.reduceMod]; omega) (by simp [hk]),
      prefix_loop_skip _ _ _ _ _ _ (by omega),
      prefix_loop_nil]
    simp [hk, in_addr.zero, in_addr.set8]
  · rw [prefix_loop_read _ _ _ _ _ _ a0 (by omega) (by simp only; omega) (by simp [hk]),
      prefix_loop_read _ _ _ _ _ _ a1 (by omega) (by simp only [Nat.reduceAdd, Nat.reduceMod]; omega) (by simp [hk]),
      prefix_loop_read _ _ _ _ _ _ a2 (by omega) (by simp only [Nat.reduceAdd, Nat.reduceMod]; omega) (by simp [hk]),
      prefix_loop_read _ _ _ _ _ _ a3 (by omega) (by simp only [Nat.reduceAdd, Nat.reduceMod]; omega) (by simp [hk]),
      prefix_loop_nil]
    simp [hk, in_addr.zero, in_addr.set8]

theorem prefix_wire_length (a : in_addr) (n : Nat) (hn : n ≤ 32) :
    (prefix_wire a n).length = 1 + (n + 7) / 8 := by
  have : (n + 7) / 8 ≤ 4 := by omega
  simp [prefix_wire]; omega

/-- C1 (prefix round trip).  For every prefix length `n` in `0..32` and every
address `a` whose octets beyond the first `ceil(n/8)` are zero, the wire encoding
`prefix_wire a n` has `1 + ceil(n/8)` bytes, and `rde_update_get_prefix` run on it
with that declared length succeeds, returns `1 + ceil(n/8)` as the number of bytes
consumed, and yields exactly the address `a` and the prefix length `n`. -/
theorem prefix_round_trip (n : Nat) (a : in_addr) (hn : n ≤ 32)
    (hz : ∀ i, (n + 7) / 8 ≤ i → i ≤ 3 → a.get8 i = 0) :
    (prefix_wire a n).length = 1 + (n + 7) / 8 ∧
    rde_update_get_prefix (prefix_wire a n) (prefix_wire a n).length
      = .ok { plen := 1 + (n + 7) / 8, pfx := a, prefixlen := n } := by
  refine ⟨prefix_wire_length a n hn, ?_⟩
  have h := get_prefix_wire n a [] (prefix_wire a n).length hn hz
    (by rw [prefix_wire_length a n hn])
  simpa using h

/-- C2 (truncated prefix is rejected).  For every buffer whose first byte is a
prefix length `n` in `0..32` and every declared length `len < 1 + ceil(n/8)`
(`len = 0` included), `rde_update_get_prefix` returns `-1`.  The buffer is one the
caller may pass with that length: it holds at least `len` bytes. -/
theorem prefix_truncated (buf : List u_char) (n : u_char) (len : Nat)
    (hfirst : buf[0]? = some n) (hn : n.val ≤ 32) (hbuf : len ≤ buf.length)
    (hlen : len < 1 + (n.val + 7) / 8) :
    rde_update_get_prefix buf len = .err := by
  match buf, hfirst with
  | b0 :: rest, h =>
    simp only [List.getElem?_cons_zero, Option.some.injEq] at h
    subst h
    by_cases h0 : len < 1
    · simp [ rde_update_get_prefix, rde_update_get_prefix_traced, h0]
    · rw [get_prefix_cons _ _ _ (by omega)]
      have hw : prefix_wanted b0.val [0, 1, 2, 3] = (b0.val + 7) / 8 := by
        simp only [prefix_wanted, List.filter_cons, List.filter_nil]
        repeat' split
        all_goals simp_all
        all_goals omega
      rw [prefix_loop_err (b0 :: rest) len b0.val [0, 1, 2, 3] _ rfl (by simp only; omega)
        (by simp) hbuf (by simp only [hw]; omega)]

theorem UPD_READ_snd (buf : List u_char) (s : attr_vars) (n : Nat) :
    (UPD_READ buf s n).2 =
      { p := s.p + n, plen := (s.plen + n) % 65536, log := s.log ++ [.memcpy s.p n] } := rfl

theorem take_drop_one (buf : List u_char) (p : Nat) (h : p + 1 ≤ buf.length) :
    (buf.drop p).take 1 = [buf[p]] := by
  rw [List.drop_eq_getElem_cons (by omega)]
  simp only [List.take_succ_cons, List.take_zero]

theorem take_drop_two (buf : List u_char) (p : Nat) (h : p + 2 ≤ buf.length) :
    (buf.drop p).take 2 = [buf[p], buf[p + 1]] := by
  rw [List.drop_eq_getElem_cons (by omega), List.drop_eq_getElem_cons (by omega)]
  simp only [List.take_succ_cons, List.take_zero]

theorem take_drop_four (buf : List u_char) (p : Nat) (h : p + 4 ≤ buf.length) :
    (buf.drop p).take 4 = [buf[p], buf[p + 1], buf[p + 2], buf[p + 3]] := by
  rw [List.drop_eq_getElem_cons (by omega), List.drop_eq_getElem_cons (by omega),
    List.drop_eq_getElem_cons (by omega), List.drop_eq_getElem_cons (by omega)]
  simp only [List.take_succ_cons, List.take_zero]

theorem UPD_READ_one (buf : List u_char) (s : attr_vars) (h : s.p + 1 ≤ buf.length) :
    UPD_READ buf s 1 = (some [buf[s.p]],
      { p := s.p + 1, plen := (s.plen + 1) % 65536, log := s.log ++ [.memcpy s.p 1] }) := by
  simp only [UPD_READ, if_pos h, take_drop_one buf s.p h]

theorem UPD_READ_two (buf : List u_char) (s : attr_vars) (h : s.p + 2 ≤ buf.length) :
    UPD_READ buf s 2 = (some [buf[s.p], buf[s.p + 1]],
      { p := s.p + 2, plen := (s.plen + 2) % 65536, log := s.log ++ [.memcpy s.p 2] }) := by
  simp only [UPD_READ, if_pos h, take_drop_two buf s.p h]

theorem UPD_READ_four (buf : List u_char) (s : attr_vars) (h : s.p + 4 ≤ buf.length) :
    UPD_READ buf s 4 = (some [buf[s.p], buf[s.p + 1], buf[s.p + 2], buf[s.p + 3]],
      { p := s.p + 4, plen := (s.plen + 4) % 65536, log := s.log ++ [.memcpy s.p 4] }) := by
  simp only [UPD_READ, if_pos h, take_drop_four buf s.p h]

theorem UPD_READ_out (buf : List u_char) (s : attr_vars) (n : Nat)
    (h : ¬ s.p + n ≤ buf.length) :
    UPD_READ buf s n = (none,
      { p := s.p + n, plen := (s.plen + n) % 65536, log := s.log ++ [.memcpy s.p n] }) := by
  simp only [UPD_READ, if_neg h]

theorem log_snoc_ok (len : Nat) (log : List access) (x : access)
    (hlog : ∀ y ∈ log, y.upper ≤ len) (hx : x.upper ≤ len) :
    ∀ y ∈ log ++ [x], y.upper ≤ len := by
  intro y hy
  simp only [List.mem_append, List.mem_singleton] at hy
  rcases hy with hy | hy
  · exact hlog y hy
  · subst hy; exact hx

theorem attr_run_ok_err (buf : List u_char) (len : Nat) (log : List access)
    (calls : List call) (hlog : ∀ y ∈ log, y.upper ≤ len) :
    attr_run_ok buf len ⟨log, calls, .err⟩ :=
  ⟨hlog, by simp, by simp⟩

theorem attr_run_ok_ok (buf : List u_char) (len : Nat) (log : List access)
    (calls : List call) (n : Nat) (a : attr_flags)
    (hlog : ∀ y ∈ log, y.upper ≤ len) (hn : n ≤ len) :
    attr_run_ok buf len ⟨log, calls, .ok (n, a)⟩ := by
  refine ⟨hlog, ?_, by simp⟩
  intro m b h
  simp only [Ret.ok.injEq, Prod.mk.injEq] at h
  omega

theorem attr_run_ok_oob (buf : List u_char) (len : Nat) (log : List access)
    (calls : List call) (hlog : ∀ y ∈ log, y.upper ≤ len) (hb : ¬ len ≤ buf.length) :
    attr_run_ok buf len ⟨log, calls, .oob⟩ :=
  ⟨hlog, by simp, fun h => absurd h hb⟩

theorem attr_origin_ok (buf : List u_char) (len : Nat) (a : attr_flags)
    (attr_len : Nat) (s : attr_vars)
    (hp : s.p = s.plen) (hle : s.plen + attr_len ≤ len)
    (hlog : ∀ x ∈ s.log, x.upper ≤ len) :
    attr_run_ok buf len (attr_origin buf a attr_len s) := by
  unfold attr_origin
  by_cases h1 : attr_len ≠ 1
  · rw [if_pos h1]; exact attr_run_ok_err _ _ _ _ hlog
  · rw [if_neg h1]
    have hm := Nat.mod_le (s.plen + 1) 65536
    have hx : (access.memcpy s.p 1).upper ≤ len := by simp only [access.upper]; omega
    by_cases hin : s.p + 1 ≤ buf.length
    · rw [UPD_READ_one buf s hin]
      exact attr_run_ok_ok _ _ _ _ _ _ (log_snoc_ok _ _ _ hlog hx)
        (by show (s.plen + 1) % 65536 ≤ len; omega)
    · rw [UPD_READ_out buf s 1 hin]
      exact attr_run_ok_oob _ _ _ _ (log_snoc_ok _ _ _ hlog hx) (by omega)

theorem attr_nexthop_ok (buf : List u_char) (len : Nat) (a : attr_flags)
    (attr_len : Nat) (s : attr_vars)
    (hp : s.p = s.plen) (hle : s.plen + attr_len ≤ len)
    (hlog : ∀ x ∈ s.log, x.upper ≤ len) :
    attr_run_ok buf len (attr_nexthop buf a attr_len s) := by
  unfold attr_nexthop
  by_cases h1 : attr_len ≠ 4
  · rw [if_pos h1]; exact attr_run_ok_err _ _ _ _ hlog
  · rw [if_neg h1]
    have hm := Nat.mod_le (s.plen + 4) 65536
    have hx : (access.memcpy s.p 4).upper ≤ len := by simp only [access.upper]; omega
    by_cases hin : s.p + 4 ≤ buf.length
    · rw [UPD_READ_four buf s hin]
      exact attr_run_ok_ok _ _ _ _ _ _ (log_snoc_ok _ _ _ hlog hx)
        (by show (s.plen + 4) % 65536 ≤ len; omega)
    · rw [UPD_READ_out buf s 4 hin]
      exact attr_run_ok_oob _ _ _ _ (log_snoc_ok _ _ _ hlog hx) (by omega)

theorem attr_med_ok (host : byte_order) (buf : List u_char) (len : Nat) (a : attr_flags)
    (attr_len : Nat) (s : attr_vars)
    (hp : s.p = s.plen) (hle : s.plen + attr_len ≤ len)
    (hlog : ∀ x ∈ s.log, x.upper ≤ len) :
    attr_run_ok buf len (attr_med host buf a attr_len s) := by
  unfold attr_med
  by_cases h1 : attr_len ≠ 4
  · rw [if_pos h1]; exact attr_run_ok_err _ _ _ _ hlog
  · rw [if_neg h1]
    have hm := Nat.mod_le (s.plen + 4) 65536
    have hx : (access.memcpy s.p 4).upper ≤ len := by simp only [access.upper]; omega
    by_cases hin : s.p + 4 ≤ buf.length
    · rw [UPD_READ_four buf s hin]
      exact attr_run_ok_ok _ _ _ _ _ _ (log_snoc_ok _ _ _ hlog hx)
        (by show (s.plen + 4) % 65536 ≤ len; omega)
    · rw [UPD_READ_out buf s 4 hin]
      exact attr_run_ok_oob _ _ _ _ (log_snoc_ok _ _ _ hlog hx) (by omega)

theorem attr_localpref_ok (host : byte_order) (buf : List u_char) (len : Nat)
    (a : attr_flags) (attr_len : Nat) (s : attr_vars)
    (hp : s.p = s.plen) (hle : s.plen + attr_len ≤ len)
    (hlog : ∀ x ∈ s.log, x.upper ≤ len) :
    attr_run_ok buf len (attr_localpref host buf a attr_len s) := by
  unfold attr_localpref
  by_cases h1 : attr_len ≠ 4
  · rw [if_pos h1]; exact attr_run_ok_err _ _ _ _ hlog
  · rw [if_neg h1]
    have hm := Nat.mod_le (s.plen + 4) 65536
    have hx : (access.memcpy s.p 4).upper ≤ len := by simp only [access.upper]; omega
    by_cases hin : s.p + 4 ≤ buf.length
    · rw [UPD_READ_four buf s hin]
      exact attr_run_ok_ok _ _ _ _ _ _ (log_snoc_ok _ _ _ hlog hx)
        (by show (s.plen + 4) % 65536 ≤ len; omega)
    · rw [UPD_READ_out buf s 4 hin]
      exact attr_run_ok_oob _ _ _ _ (log_snoc_ok _ _ _ hlog hx) (by omega)

theorem attr_aggregator_ok (host : byte_order) (buf : List u_char) (len : Nat)
    (a : attr_flags) (attr_len : Nat) (s : attr_vars)
    (hp : s.p = s.plen) (hs : s.plen ≤ 4) (hle : s.plen + attr_len ≤ len)
    (hlog : ∀ x ∈ s.log, x.upper ≤ len) :
    attr_run_ok buf len (attr_aggregator host buf a attr_len s) := by
  unfold attr_aggregator
  by_cases h1 : attr_len ≠ 6
  · rw [if_pos h1]; exact attr_run_ok_err _ _ _ _ hlog
  · rw [if_neg h1]
    have hm2 : (s.plen + 2) % 65536 = s.plen + 2 := Nat.mod_eq_of_lt (by omega)
    have hm4 : (s.plen + 2 + 4) % 65536 = s.plen + 6 := Nat.mod_eq_of_lt (by omega)
    have hx : (access.memcpy s.p 2).upper ≤ len := by simp only [access.upper]; omega
    have hy : (access.memcpy (s.p + 2) 4).upper ≤ len := by simp only [access.upper]; omega
    by_cases hin : s.p + 2 ≤ buf.length
    · rw [UPD_READ_two buf s hin]
      simp only []
      by_cases hin4 : s.p + 2 + 4 ≤ buf.length
      · rw [UPD_READ_four buf _ hin4]
        simp only [hm2, hm4]
        exact attr_run_ok_ok _ _ _ _ _ _
          (log_snoc_ok _ _ _ (log_snoc_ok _ _ _ hlog hx) hy) (by omega)
      · rw [UPD_READ_out buf _ 4 hin4]
        exact attr_run_ok_oob _ _ _ _
          (log_snoc_ok _ _ _ (log_snoc_ok _ _ _ hlog hx) hy) (by omega)
    · rw [UPD_READ_out buf s 2 hin]
      exact attr_run_ok_oob _ _ _ _ (log_snoc_ok _ _ _ hlog hx) (by omega)

theorem attr_aspath_ok (aspath_verify : List u_char → Nat → Int) (conf_as : Nat)
    (buf : List u_char) (len : Nat) (a : attr_flags) (attr_len : Nat) (s : attr_vars)
    (hp : s.p = s.plen) (hle : s.plen + attr_len ≤ len)
    (hlog : ∀ x ∈ s.log, x.upper ≤ len) :
    attr_run_ok buf len (attr_aspath aspath_verify conf_as buf a attr_len s) := by
  unfold attr_aspath
  have hm := Nat.mod_le (s.plen + attr_len) 65536
  have hx : (access.aspath_verify s.p attr_len).upper ≤ len := by
    simp only [access.upper]; omega
  have hy : (access.aspath_create s.p attr_len).upper ≤ len := by
    simp only [access.upper]; omega
  split_ifs with h1 h2
  · exact attr_run_ok_err _ _ _ _ (log_snoc_ok _ _ _ hlog hx)
  · refine attr_run_ok_ok _ _ _ _ _ _ ?_ (by omega)
    intro y hy'
    simp only [List.mem_append, List.mem_cons, List.mem_singleton, List.not_mem_nil,
      or_false] at hy'
    rcases hy' with hy' | hy' | hy'
    · exact hlog y hy'
    · subst hy'; exact hx
    · subst hy'; exact hy
  · exact attr_run_ok_oob _ _ _ _ (log_snoc_ok _ _ _ hlog hx) (by omega)

theorem attr_switch_ok (host : byte_order) (aspath_verify : List u_char → Nat → Int)
    (conf_as : Nat) (buf : List u_char) (len : Nat) (a : attr_flags)
    (type attr_len : Nat) (s : attr_vars)
    (hp : s.p = s.plen) (hs : s.plen ≤ 4) (hlog : ∀ x ∈ s.log, x.upper ≤ len) :
    attr_run_ok buf len (attr_switch host aspath_verify conf_as buf len a type attr_len s) := by
  unfold attr_switch
  split_ifs with hlen
  · exact attr_run_ok_err _ _ _ _ hlog
  · exact attr_run_ok_err _ _ _ _ hlog
  · exact attr_origin_ok _ _ _ _ _ hp (by omega) hlog
  · exact attr_aspath_ok _ _ _ _ _ _ _ hp (by omega) hlog
  · exact attr_nexthop_ok _ _ _ _ _ hp (by omega) hlog
  · exact attr_med_ok _ _ _ _ _ _ hp (by omega) hlog
  · exact attr_localpref_ok _ _ _ _ _ _ hp (by omega) hlog
  · unfold attr_atomic_aggregate
    split_ifs
    · exact attr_run_ok_err _ _ _ _ hlog
    · exact attr_run_ok_ok _ _ _ _ _ _ hlog (by omega)
  · exact attr_aggregator_ok _ _ _ _ _ _ hp hs (by omega) hlog
  · unfold attr_default
    have hm := Nat.mod_le (s.plen + attr_len) 65536
    exact attr_run_ok_ok _ _ _ _ _ _ hlog (by omega)

theorem get_attr_ok (host : byte_order) (aspath_verify : List u_char → Nat → Int)
    (conf_as : Nat) (buf : List u_char) (len : Nat) (a : attr_flags) :
    attr_run_ok buf len (rde_update_get_attr_traced host aspath_verify conf_as buf len a) := by
  unfold rde_update_get_attr_traced
  by_cases h3 : len < 3
  · rw [if_pos h3]; exact attr_run_ok_err _ _ _ _ (by simp)
  · rw [if_neg h3]
    have hl0 : ∀ x ∈ ([] : List access), x.upper ≤ len := by simp
    have hx0 : (access.memcpy 0 1).upper ≤ len := by simp only [access.upper]; omega
    have hx1 : (access.memcpy (0 + 1) 1).upper ≤ len := by simp only [access.upper]; omega
    have hl1 := log_snoc_ok _ _ _ hl0 hx0
    have hl2 := log_snoc_ok _ _ _ hl1 hx1
    by_cases hin0 : (0 : Nat) + 1 ≤ buf.length
    · rw [UPD_READ_one buf ⟨0, 0, []⟩ hin0]
      simp only []
      by_cases hin1 : (0 : Nat) + 1 + 1 ≤ buf.length
      · rw [UPD_READ_one buf ⟨0 + 1, _, _⟩ hin1]
        simp only []
        split_ifs with hext hlen2
        · exact attr_run_ok_err _ _ _ _ hl2
        · have hx2 : (access.memcpy (0 + 1 + 1) 2).upper ≤ len := by
            simp only [access.upper]; omega
          by_cases hin2 : (0 : Nat) + 1 + 1 + 2 ≤ buf.length
          · rw [UPD_READ_two buf ⟨0 + 1 + 1, _, _⟩ hin2]
            exact attr_switch_ok _ _ _ _ _ _ _ _ _ (by simp) (by simp)
              (log_snoc_ok _ _ _ hl2 hx2)
          · rw [UPD_READ_out buf ⟨0 + 1 + 1, _, _⟩ 2 hin2]
            exact attr_run_ok_oob _ _ _ _ (log_snoc_ok _ _ _ hl2 hx2) (by omega)
        · have hx2 : (access.memcpy (0 + 1 + 1) 1).upper ≤ len := by
            simp only [access.upper]; omega
          by_cases hin2 : (0 : Nat) + 1 + 1 + 1 ≤ buf.length
          · rw [UPD_READ_one buf ⟨0 + 1 + 1, _, _⟩ hin2]
            exact attr_switch_ok _ _ _ _ _ _ _ _ _ (by simp) (by simp)
              (log_snoc_ok _ _ _ hl2 hx2)
          · rw [UPD_READ_out buf ⟨0 + 1 + 1, _, _⟩ 1 hin2]
            exact attr_run_ok_oob _ _ _ _ (log_snoc_ok _ _ _ hl2 hx2) (by omega)
      · rw [UPD_READ_out buf ⟨0 + 1, _, _⟩ 1 hin1]
        exact attr_run_ok_oob _ _ _ _ hl2 (by omega)
    · rw [UPD_READ_out buf ⟨0, 0, []⟩ 1 hin0]
      exact attr_run_ok_oob _ _ _ _ hl1 (by omega)

theorem prefix_loop_ok (buf : List u_char) (len pfxlen : Nat) :
    ∀ (is : List Nat) (s : prefix_vars), s.p = s.plen → s.plen ≤ len →
      s.plen + is.length < 65536 → (∀ x ∈ s.log, x.upper ≤ len) →
      (∀ x ∈ (prefix_loop buf len pfxlen is s).log, x.upper ≤ len) ∧
      (∀ s1, (prefix_loop buf len pfxlen is s).ret = .ok s1 →
        s1.plen ≤ len ∧ s.plen ≤ s1.plen ∧ s1.plen ≤ s.plen + is.length) ∧
      (len ≤ buf.length → (prefix_loop buf len pfxlen is s).ret ≠ .oob) := by
  intro is
  induction is with
  | nil =>
    intro s _ h2 _ h4
    rw [prefix_loop_nil]
    refine ⟨h4, ?_, by simp⟩
    intro s1 h
    simp only [Ret.ok.injEq] at h
    subst h
    simp only [List.length_nil]; omega
  | cons i is ih =>
    intro s h1 h2 h3 h4
    simp only [List.length_cons] at h3
    by_cases hc : pfxlen > i * 8
    · by_cases hl : len ≤ s.plen
      · rw [prefix_loop_short buf len pfxlen i is s hc hl]
        exact ⟨h4, by simp, by simp⟩
      · have hx : (access.memcpy s.p 1).upper ≤ len := by simp only [access.upper]; omega
        by_cases hp : s.p < buf.length
        · rw [prefix_loop_read buf len pfxlen i is s buf[s.p] hc (by omega) (by simp [hp])]
          have hm : (s.plen + 1) % 65536 = s.plen + 1 := Nat.mod_eq_of_lt (by omega)
          have := ih { p := s.p + 1, plen := (s.plen + 1) % 65536,
                       addr := s.addr.set8 i buf[s.p], log := s.log ++ [.memcpy s.p 1] }
            (by simp only [hm, h1]) (by simp only [hm]; omega) (by simp only [hm]; omega)
            (log_snoc_ok _ _ _ h4 hx)
          refine ⟨this.1, ?_, this.2.2⟩
          intro s1 hs1
          have := this.2.1 s1 hs1
          simp only [hm, List.length_cons] at this ⊢
          omega
        · have hnone : buf[s.p]? = none := by simp; omega
          have h1' : ¬ ((len : Int) - (s.plen : Int) < 1) := by omega
          simp only [prefix_loop, if_pos hc, if_neg h1', hnone]
          exact ⟨log_snoc_ok _ _ _ h4 hx, by simp, fun hb => by omega⟩
    · rw [prefix_loop_skip buf len pfxlen i is s hc]
      have := ih s h1 h2 (by omega) h4
      refine ⟨this.1, ?_, this.2.2⟩
      intro s1 hs1
      have := this.2.1 s1 hs1
      simp only [List.length_cons]
      omega

theorem get_prefix_traced_ok (buf : List u_char) (len : Nat) :
    (∀ x ∈ (rde_update_get_prefix_traced buf len).log, x.upper ≤ len) ∧
    (∀ r, (rde_update_get_prefix_traced buf len).ret = .ok r →
      1 ≤ r.plen ∧ r.plen ≤ len ∧ r.plen ≤ 5) ∧
    (len ≤ buf.length → (rde_update_get_prefix_traced buf len).ret ≠ .oob) := by
  unfold rde_update_get_prefix_traced
  by_cases h0 : len < 1
  · rw [if_pos h0]; exact ⟨by simp, by simp, by simp⟩
  · rw [if_neg h0]
    have hx : ∀ x ∈ [access.memcpy 0 1], x.upper ≤ len := by
      intro x hx
      simp only [List.mem_singleton] at hx
      subst hx; simp only [access.upper]; omega
    cases hb : buf[0]? with
    | none =>
      simp only []
      refine ⟨hx, by simp, ?_⟩
      intro hlen
      have : buf.length ≤ 0 := by simpa using hb
      omega
    | some pfxlen =>
      simp only []
      have := prefix_loop_ok buf len pfxlen.val [0, 1, 2, 3]
        { p := 1, plen := 1, addr := in_addr.zero, log := [.memcpy 0 1] }
        rfl (by simp only; omega) (by simp) hx
      generalize prefix_loop buf len pfxlen.val [0, 1, 2, 3]
        { p := 1, plen := 1, addr := in_addr.zero, log := [.memcpy 0 1] } = r at this
      obtain ⟨log, ret⟩ := r
      cases ret with
      | ok s =>
        refine ⟨this.1, ?_, by simp⟩
        intro r hr
        simp only [Ret.ok.injEq] at hr
        subst hr
        have := this.2.1 s rfl
        simp only [List.length_cons, List.length_nil] at this ⊢
        omega
      | err => exact ⟨this.1, by simp, by simp⟩
      | oob => exact ⟨this.1, by simp, fun hb => by simpa using this.2.2 hb⟩

/-- C3 (the decoders never read past the declared length).  For every buffer
holding at least `len` bytes, every access of `rde_update_get_prefix` and of
`rde_update_get_attr` (each `memcpy`, and for AS_PATH the range handed to
`aspath_verify` and `aspath_create`) ends at an offset `≤ len`, so only bytes at
offsets below `len` are touched; no byte outside the buffer is accessed; and a
successful call returns a consumed count of at most `len`. -/
theorem decoders_stay_below_len (host : byte_order)
    (aspath_verify : List u_char → Nat → Int) (conf_as : Nat)
    (buf : List u_char) (len : Nat) (a : attr_flags) (hbuf : len ≤ buf.length) :
    ((∀ x ∈ ( rde_update_get_prefix_traced buf len).log, x.upper ≤ len) ∧
      rde_update_get_prefix buf len ≠ .oob ∧
      (∀ r, rde_update_get_prefix buf len = .ok r → r.plen ≤ len)) ∧
    ((∀ x ∈ (rde_update_get_attr_traced host aspath_verify conf_as buf len a).log,
        x.upper ≤ len) ∧
      rde_update_get_attr host aspath_verify conf_as buf len a ≠ .oob ∧
      (∀ n a1, rde_update_get_attr host aspath_verify conf_as buf len a = .ok (n, a1) →
        n ≤ len)) := by
  have hp := get_prefix_traced_ok buf len
  have ha := get_attr_ok host aspath_verify conf_as buf len a
  refine ⟨⟨hp.1, hp.2.2 hbuf, fun r hr => (hp.2.1 r hr).2.1⟩, ha.1, ha.2.2 hbuf, ha.2.1⟩

/-- Witness for `prefix_round_trip`: the prefix 10.1.2.0/24. -/
theorem prefix_round_trip_witness :
    (24 ≤ 32) ∧ ( rde_update_get_prefix (prefix_wire ⟨10, 1, 2, 0⟩ 24)
        (prefix_wire ⟨10, 1, 2, 0⟩ 24).length
      = .ok { plen := 4, pfx := ⟨10, 1, 2, 0⟩, prefixlen := 24 }) :=
  ⟨by decide, (prefix_round_trip 24 ⟨10, 1, 2, 0⟩ (by decide)
    (by intro i h1 h2
        have : i = 3 := by omega
        subst this; rfl)).2⟩

/-- Witness for `prefix_truncated`: a /24 whose third address octet is cut off. -/
theorem prefix_truncated_witness :
    rde_update_get_prefix [24, 10, 1, 2] 3 = .err :=
  prefix_truncated [24, 10, 1, 2] 24 3 (by decide) (by decide) (by decide) (by decide)

/-- Witness for `decoders_stay_below_len`: a four-byte ORIGIN attribute. -/
theorem decoders_stay_below_len_witness :
    (4 ≤ [(64 : u_char), 1, 1, 0].length) ∧
    (∀ x ∈ (rde_update_get_attr_traced .LITTLE_ENDIAN (fun _ _ => 0) 65000
        [64, 1, 1, 0] 4 init_attr_flags).log, x.upper ≤ 4) :=
  ⟨by decide,
   (decoders_stay_below_len .LITTLE_ENDIAN (fun _ _ => 0) 65000 [64, 1, 1, 0] 4
      init_attr_flags (by decide)).2.1⟩

set_option maxRecDepth 16384 in
/-- C4, the code at a failing input.  On a little-endian host an ORIGIN attribute
with the extended-length flag and the length bytes `01 00` (value length 256 in
network byte order), followed by its 256 value bytes, is accepted:
`rde_update_get_attr` reads the length as 1, stores the first value byte as the
origin and returns 5, where the claim demands failure for an ORIGIN whose value
length is not 1. -/
theorem get_attr_extlen_origin_little_endian :
    rde_update_get_attr .LITTLE_ENDIAN (fun _ _ => 0) 65000
      ([80, 1, 1, 0] ++ List.replicate 256 0) 260 init_attr_flags
      = .ok (5, { init_attr_flags with origin := 0 }) := by
  decide

set_option maxRecDepth 16384 in
/-- C5, the code at a failing input.  On a little-endian host an attribute of
unrecognised type 8 with the extended-length flag, length bytes `01 00` (value
length 256 in network byte order) and its 256 value bytes, in a declared length of
260, is not skipped as a whole: `rde_update_get_attr` reads the length as 1 and
returns 5, where the claim demands 4 + 256 = 260 bytes consumed. -/
theorem get_attr_extlen_unknown_little_endian :
    rde_update_get_attr .LITTLE_ENDIAN (fun _ _ => 0) 65000
      ([208, 8, 1, 0] ++ List.replicate 256 0) 260 init_attr_flags
      = .ok (5, init_attr_flags) := by
  decide

set_option maxRecDepth 16384 in
/-- The same attribute on a big-endian host is skipped as a whole. -/
theorem get_attr_extlen_unknown_big_endian :
    rde_update_get_attr .BIG_ENDIAN (fun _ _ => 0) 65000
      ([208, 8, 1, 0] ++ List.replicate 256 0) 260 init_attr_flags
      = .ok (260, init_attr_flags) := by
  decide

/-- An extended length below 256 on a little-endian host: the attribute (type 99,
length bytes `00 05`, 5 value bytes, declared length 9) is rejected, the length
being read as `0x0500`; on a big-endian host it is skipped. -/
theorem get_attr_extlen_short_value :
    rde_update_get_attr .LITTLE_ENDIAN (fun _ _ => 0) 65000
      [80, 99, 0, 5, 1, 2, 3, 4, 5] 9 init_attr_flags = .err ∧
    rde_update_get_attr .BIG_ENDIAN (fun _ _ => 0) 65000
      [80, 99, 0, 5, 1, 2, 3, 4, 5] 9 init_attr_flags = .ok (9, init_attr_flags) := by
  decide

/-! ## Peer registry -/

theorem hash_index_lt (w : rde_state) (hok : registry_ok w) (id : Nat) :
    id &&& w.peertable.peer_hashmask < w.peertable.peer_hashtbl.length := by
  have := @Nat.and_le_right id w.peertable.peer_hashmask
  rw [hok.size]; omega

theorem PEER_HASH_getElem (w : rde_state) (hok : registry_ok w) (id : Nat) :
    w.peertable.peer_hashtbl[id &&& w.peertable.peer_hashmask]? = some (PEER_HASH w id) := by
  have h := hash_index_lt w hok id
  simp only [PEER_HASH, List.getD_eq_getElem?_getD, List.getElem?_eq_getElem h,
    Option.getD_some]

theorem peer_has_id_iff (w : rde_state) (id ptr : Nat) :
    peer_has_id w id ptr = true ↔ ∃ pr, w.heap ptr = some pr ∧ pr.conf.id = id := by
  unfold peer_has_id
  cases h : w.heap ptr with
  | none => simp
  | some pr => simp

theorem peer_get_some_iff (w : rde_state) (hok : registry_ok w) (id ptr : Nat) :
    peer_get w id = some ptr ↔
      ptr ∈ w.peerlist ∧ ∃ pr, w.heap ptr = some pr ∧ pr.conf.id = id := by
  constructor
  · intro h
    have hmem := List.mem_of_find?_eq_some h
    have hp := List.find?_some h
    have hb := hok.bucket_sound _ _ (PEER_HASH_getElem w hok id) ptr hmem
    exact ⟨hb.1, (peer_has_id_iff w id ptr).1 hp⟩
  · rintro ⟨hl, pr, hh, hid⟩
    obtain ⟨pr1, hh1, hb⟩ := hok.list_live ptr hl
    rw [hh] at hh1
    simp only [Option.some.injEq] at hh1
    subst hh1
    rw [hid] at hb
    have hex : ∃ q, peer_get w id = some q := by
      cases hf : peer_get w id with
      | some q => exact ⟨q, rfl⟩
      | none =>
        have := List.find?_eq_none.1 hf ptr hb
        exact absurd ((peer_has_id_iff w id ptr).2 ⟨pr, hh, hid⟩) this
    obtain ⟨q, hq⟩ := hex
    have hqm := List.mem_of_find?_eq_some hq
    have hqp := (peer_has_id_iff w id q).1 (List.find?_some hq)
    obtain ⟨qr, hqh, hqid⟩ := hqp
    have hql := (hok.bucket_sound _ _ (PEER_HASH_getElem w hok id) q hqm).1
    have := hok.id_unique q ptr qr pr hql hl hqh hh (by rw [hqid, hid])
    rw [hq, this]

theorem peer_get_none_iff (w : rde_state) (hok : registry_ok w) (id : Nat) :
    peer_get w id = none ↔
      ∀ ptr ∈ w.peerlist, ∀ pr, w.heap ptr = some pr → pr.conf.id ≠ id := by
  constructor
  · intro h ptr hl pr hh hid
    have := (peer_get_some_iff w hok id ptr).2 ⟨hl, pr, hh, hid⟩
    rw [h] at this
    exact Option.noConfusion this
  · intro h
    cases hf : peer_get w id with
    | none => rfl
    | some q =>
      obtain ⟨hl, pr, hh, hid⟩ := (peer_get_some_iff w hok id q).1 hf
      exact absurd hid (h q hl pr hh)

theorem registered_some_iff (w : rde_state) (hok : registry_ok w) (id : Nat) (pr : rde_peer) :
    registered w id = some pr ↔
      ∃ ptr ∈ w.peerlist, w.heap ptr = some pr ∧ pr.conf.id = id := by
  unfold registered
  constructor
  · intro h
    cases hg : peer_get w id with
    | none => rw [hg] at h; simp at h
    | some ptr =>
      rw [hg] at h
      simp only [Option.some_bind] at h
      obtain ⟨hl, pr1, hh, hid⟩ := (peer_get_some_iff w hok id ptr).1 hg
      rw [h] at hh
      simp only [Option.some.injEq] at hh
      subst hh
      exact ⟨ptr, hl, h, hid⟩
  · rintro ⟨ptr, hl, hh, hid⟩
    rw [(peer_get_some_iff w hok id ptr).2 ⟨hl, pr, hh, hid⟩]
    simpa using hh

theorem heap_set_same (heap : Nat → Option rde_peer) (ptr : Nat) (v : Option rde_peer) :
    heap_set heap ptr v ptr = v := by
  simp only [heap_set, if_true]

theorem heap_set_other (heap : Nat → Option rde_peer) (ptr q : Nat) (v : Option rde_peer)
    (h : q ≠ ptr) : heap_set heap ptr v q = heap q := by
  simp only [heap_set, if_neg h]

/-- Overwriting a live record by one with the same id keeps the registry
consistent. -/
theorem registry_ok_heap_set (w : rde_state) (hok : registry_ok w) (ptr : Nat)
    (pr pr1 : rde_peer) (hh : w.heap ptr = some pr) (hid : pr1.conf.id = pr.conf.id) :
    registry_ok { w with heap := heap_set w.heap ptr (some pr1) } := by
  have key : ∀ q qr, w.heap q = some qr →
      ∃ qr1, heap_set w.heap ptr (some pr1) q = some qr1 ∧ qr1.conf.id = qr.conf.id := by
    intro q qr hq
    by_cases hqp : q = ptr
    · subst hqp
      rw [hh] at hq
      simp only [Option.some.injEq] at hq
      subst hq
      exact ⟨pr1, heap_set_same _ _ _, hid⟩
    · exact ⟨qr, by rw [heap_set_other _ _ _ _ hqp]; exact hq, rfl⟩
  have key2 : ∀ q qr1, heap_set w.heap ptr (some pr1) q = some qr1 →
      ∃ qr, w.heap q = some qr ∧ qr1.conf.id = qr.conf.id := by
    intro q qr1 hq
    by_cases hqp : q = ptr
    · subst hqp
      rw [heap_set_same] at hq
      simp only [Option.some.injEq] at hq
      subst hq
      exact ⟨pr, hh, hid⟩
    · rw [heap_set_other _ _ _ _ hqp] at hq
      exact ⟨qr1, hq, rfl⟩
  refine ⟨hok.size, hok.list_nodup, ?_, ?_, hok.bucket_nodup, ?_, hok.below_brk⟩
  · intro q hq
    obtain ⟨qr, hqh, hqb⟩ := hok.list_live q hq
    obtain ⟨qr1, h1, h2⟩ := key q qr hqh
    refine ⟨qr1, h1, ?_⟩
    show q ∈ PEER_HASH w qr1.conf.id
    rw [h2]; exact hqb
  · intro i b hb q hq
    obtain ⟨hl, qr, hqh, hqi⟩ := hok.bucket_sound i b hb q hq
    obtain ⟨qr1, h1, h2⟩ := key q qr hqh
    exact ⟨hl, qr1, h1, by rw [h2]; exact hqi⟩
  · intro p q pr2 qr2 hp hq hph hqh hidpq
    obtain ⟨pr0, hp0, hpi⟩ := key2 p pr2 hph
    obtain ⟨qr0, hq0, hqi⟩ := key2 q qr2 hqh
    exact hok.id_unique p q pr0 qr0 hp hq hp0 hq0 (by rw [← hpi, ← hqi]; exact hidpq)

theorem getD_map_erase (tbl : List (List Nat)) (i ptr : Nat) :
    (tbl.map (fun b => b.erase ptr)).getD i [] = (tbl.getD i []).erase ptr := by
  simp only [List.getD_eq_getElem?_getD, List.getElem?_map]
  cases tbl[i]? with
  | none => simp
  | some b => simp

/-- Unlinking and freeing a listed peer keeps the registry consistent. -/
theorem registry_ok_unlink (w : rde_state) (hok : registry_ok w) (ptr : Nat) :
    registry_ok
      { w with
        heap := heap_set w.heap ptr none
        peertable :=
          { w.peertable with
            peer_hashtbl := w.peertable.peer_hashtbl.map (fun b => b.erase ptr) }
        peerlist := w.peerlist.erase ptr } := by
  refine ⟨?_, ?_, ?_, ?_, ?_, ?_, ?_⟩
  · simp only [List.length_map]; exact hok.size
  · exact hok.list_nodup.erase ptr
  · intro q hq
    have hq2 := (hok.list_nodup.mem_erase_iff).1 hq
    obtain ⟨qr, hqh, hqb⟩ := hok.list_live q hq2.2
    refine ⟨qr, by simp only [heap_set_other _ _ _ _ hq2.1, hqh], ?_⟩
    have hg := PEER_HASH_getElem w hok qr.conf.id
    have hbn := hok.bucket_nodup _ (List.getElem?_mem hg)
    show q ∈ (w.peertable.peer_hashtbl.map (fun b => b.erase ptr)).getD
      (qr.conf.id &&& w.peertable.peer_hashmask) []
    rw [getD_map_erase]
    exact (hbn.mem_erase_iff).2 ⟨hq2.1, hqb⟩
  · intro i b hb q hq
    simp only [List.getElem?_map] at hb
    cases hb0 : w.peertable.peer_hashtbl[i]? with
    | none => rw [hb0] at hb; simp at hb
    | some b0 =>
      rw [hb0] at hb
      simp only [Option.map_some', Option.some.injEq] at hb
      subst hb
      have hbn := hok.bucket_nodup _ (List.getElem?_mem hb0)
      have hq2 := (hbn.mem_erase_iff).1 hq
      obtain ⟨hl, qr, hqh, hqi⟩ := hok.bucket_sound i b0 hb0 q hq2.2
      exact ⟨(hok.list_nodup.mem_erase_iff).2 ⟨hq2.1, hl⟩, qr,
        by simp only [heap_set_other _ _ _ _ hq2.1, hqh], hqi⟩
  · intro b hb
    simp only [List.mem_map] at hb
    obtain ⟨b0, hb0, rfl⟩ := hb
    exact (hok.bucket_nodup b0 hb0).erase ptr
  · intro p q pr qr hp hq hph hqh hid
    have hp2 := (hok.list_nodup.mem_erase_iff).1 hp
    have hq2 := (hok.list_nodup.mem_erase_iff).1 hq
    simp only [heap_set_other _ _ _ _ hp2.1] at hph
    simp only [heap_set_other _ _ _ _ hq2.1] at hqh
    exact hok.id_unique p q pr qr hp2.2 hq2.2 hph hqh hid
  · intro q hq
    exact hok.below_brk q ((hok.list_nodup.mem_erase_iff).1 hq).2

theorem peer_add_fresh (w : rde_state) (id : Nat) (p_conf : peer_config)
    (h : peer_get w id = none) :
    peer_add w id p_conf = .ret w.brk (peer_add_state w id p_conf) := by
  simp only [peer_add, h, ne_eq, not_true_eq_false, if_false, peer_add_state]

theorem registry_ok_peer_add (w : rde_state) (hok : registry_ok w) (id : Nat)
    (p_conf : peer_config) (h : peer_get w id = none) (hid : p_conf.id = id) :
    registry_ok (peer_add_state w id p_conf) := by
  have hfresh : w.brk ∉ w.peerlist := fun hm => by
    have := hok.below_brk _ hm; omega
  have hidx := hash_index_lt w hok id
  have hnone := (peer_get_none_iff w hok id).1 h
  have hbucket : ∀ i b, (peer_add_state w id p_conf).peertable.peer_hashtbl[i]? = some b →
      (i = id &&& w.peertable.peer_hashmask ∧ b = w.brk :: PEER_HASH w id) ∨
      (i ≠ id &&& w.peertable.peer_hashmask ∧ w.peertable.peer_hashtbl[i]? = some b) := by
    intro i b hb
    simp only [peer_add_state] at hb
    by_cases hi : i = id &&& w.peertable.peer_hashmask
    · subst hi
      rw [List.getElem?_set_self hidx] at hb
      simp only [Option.some.injEq] at hb
      exact Or.inl ⟨rfl, hb.symm⟩
    · rw [List.getElem?_set_ne (Ne.symm hi)] at hb
      exact Or.inr ⟨hi, hb⟩
  have hheap : ∀ q, q ∈ w.peerlist → (peer_add_state w id p_conf).heap q = w.heap q := by
    intro q hq
    have : q ≠ w.brk := fun e => hfresh (e ▸ hq)
    simp only [peer_add_state, heap_set_other _ _ _ _ this]
  have hhash : ∀ x q, q ∈ PEER_HASH w x → q ∈ PEER_HASH (peer_add_state w id p_conf) x := by
    intro x q hq
    simp only [PEER_HASH, peer_add_state, List.getD_eq_getElem?_getD]
    by_cases hi : x &&& w.peertable.peer_hashmask = id &&& w.peertable.peer_hashmask
    · rw [hi, List.getElem?_set_self hidx]
      simp only [Option.getD_some, List.mem_cons]
      right
      simpa only [PEER_HASH, List.getD_eq_getElem?_getD, hi] using hq
    · rw [List.getElem?_set_ne (Ne.symm hi)]
      simpa only [PEER_HASH, List.getD_eq_getElem?_getD] using hq
  refine ⟨?_, ?_, ?_, ?_, ?_, ?_, ?_⟩
  · simp only [peer_add_state, List.length_set]; exact hok.size
  · simp only [peer_add_state]
    exact List.nodup_cons.2 ⟨hfresh, hok.list_nodup⟩
  · intro q hq
    simp only [peer_add_state, List.mem_cons] at hq
    rcases hq with hq | hq
    · subst hq
      refine ⟨{ conf := p_conf, remote_bgpid := 0, state := .PEER_NONE, path_h := [] },
        by simp only [peer_add_state, heap_set_same], ?_⟩
      simp only [PEER_HASH, peer_add_state, hid, List.getD_eq_getElem?_getD,
        List.getElem?_set_self hidx, Option.getD_some, List.mem_cons, true_or]
    · obtain ⟨qr, hqh, hqb⟩ := hok.list_live q hq
      exact ⟨qr, by rw [hheap q hq]; exact hqh, hhash _ _ hqb⟩
  · intro i b hb q hq
    rcases hbucket i b hb with ⟨hi, hbe⟩ | ⟨hi, hbo⟩
    · subst hbe
      simp only [List.mem_cons] at hq
      rcases hq with hq | hq
      · subst hq
        refine ⟨by simp only [peer_add_state, List.mem_cons, true_or],
          { conf := p_conf, remote_bgpid := 0, state := .PEER_NONE, path_h := [] },
          by simp only [peer_add_state, heap_set_same], ?_⟩
        simp only [peer_add_state, hid, hi]
      · obtain ⟨hl, qr, hqh, hqi⟩ :=
          hok.bucket_sound _ _ (PEER_HASH_getElem w hok id) q hq
        exact ⟨by simp only [peer_add_state, List.mem_cons, hl, or_true], qr,
          by rw [hheap q hl]; exact hqh, by simp only [peer_add_state, hi]; exact hqi⟩
    · obtain ⟨hl, qr, hqh, hqi⟩ := hok.bucket_sound i b hbo q hq
      exact ⟨by simp only [peer_add_state, List.mem_cons, hl, or_true], qr,
        by rw [hheap q hl]; exact hqh, by simp only [peer_add_state]; exact hqi⟩
  · intro b hb
    obtain ⟨i, hi, hbi⟩ := List.getElem_of_mem hb
    have hb2 : (peer_add_state w id p_conf).peertable.peer_hashtbl[i]? = some b := by
      rw [List.getElem?_eq_getElem hi, hbi]
    rcases hbucket i b hb2 with ⟨_, hbe⟩ | ⟨_, hbo⟩
    · subst hbe
      refine List.nodup_cons.2 ⟨?_, hok.bucket_nodup _
        (List.getElem?_mem (PEER_HASH_getElem w hok id))⟩
      intro hm
      exact hfresh (hok.bucket_sound _ _ (PEER_HASH_getElem w hok id) _ hm).1
    · exact hok.bucket_nodup _ (List.getElem?_mem hbo)
  · intro p q pr qr hp hq hph hqh hpq
    simp only [peer_add_state, List.mem_cons] at hp hq
    rcases hp with hp | hp <;> rcases hq with hq | hq
    · rw [hp, hq]
    · exfalso
      subst hp
      rw [hheap q hq] at hqh
      simp only [peer_add_state, heap_set_same, Option.some.injEq] at hph
      subst hph
      exact hnone q hq qr hqh (by rw [← hpq]; exact hid)
    · exfalso
      subst hq
      rw [hheap p hp] at hph
      simp only [peer_add_state, heap_set_same, Option.some.injEq] at hqh
      subst hqh
      exact hnone p hp pr hph (by rw [hpq]; exact hid)
    · rw [hheap p hp] at hph
      rw [hheap q hq] at hqh
      exact hok.id_unique p q pr qr hp hq hph hqh hpq
  · intro q hq
    simp only [peer_add_state, List.mem_cons] at hq
    rcases hq with hq | hq
    · subst hq; simp only [peer_add_state]; omega
    · have := hok.below_brk q hq
      simp only [peer_add_state]; omega

theorem peer_remove_up (w : rde_state) (ptr : Nat) (pr : rde_peer)
    (hh : w.heap ptr = some pr) (hup : pr.state = .PEER_UP) :
    peer_remove w ptr = .ret ()
      { w with
        heap := heap_set w.heap ptr
          (some { pr with conf := { pr.conf with reconf_action := .RECONF_DELETE } }) } := by
  simp only [peer_remove, hh, hup, if_true]

theorem peer_remove_not_up (w : rde_state) (hok : registry_ok w) (ptr : Nat) (pr : rde_peer)
    (hl : ptr ∈ w.peerlist) (hh : w.heap ptr = some pr) (hup : pr.state ≠ .PEER_UP)
    (hpath : pr.path_h = []) :
    peer_remove w ptr = .ret ()
      { w with
        heap := heap_set w.heap ptr none
        peertable :=
          { w.peertable with
            peer_hashtbl := w.peertable.peer_hashtbl.map (fun b => b.erase ptr) }
        peerlist := w.peerlist.erase ptr } := by
  have hg : peer_get w pr.conf.id = some ptr :=
    (peer_get_some_iff w hok pr.conf.id ptr).2 ⟨hl, pr, hh, rfl⟩
  simp only [peer_remove, hh, hup, if_false, hg, hpath, ne_eq, not_true_eq_false,
    reduceCtorEq]

/-- After unlinking, the peer is in neither structure and its id is unknown. -/
theorem unlink_gone (w : rde_state) (hok : registry_ok w) (ptr : Nat) (pr : rde_peer)
    (hl : ptr ∈ w.peerlist) (hh : w.heap ptr = some pr) (w2 : rde_state)
    (hw2 : w2 = { w with
        heap := heap_set w.heap ptr none
        peertable :=
          { w.peertable with
            peer_hashtbl := w.peertable.peer_hashtbl.map (fun b => b.erase ptr) }
        peerlist := w.peerlist.erase ptr }) :
    registry_ok w2 ∧ ptr ∉ w2.peerlist ∧ (∀ b ∈ w2.peertable.peer_hashtbl, ptr ∉ b) ∧
      w2.heap ptr = none ∧ peer_get w2 pr.conf.id = none := by
  have hok2 : registry_ok w2 := by rw [hw2]; exact registry_ok_unlink w hok ptr
  refine ⟨hok2, ?_, ?_, ?_, ?_⟩
  · rw [hw2]; exact fun hm => ((hok.list_nodup.mem_erase_iff).1 hm).1 rfl
  · intro b hb
    rw [hw2] at hb
    simp only [List.mem_map] at hb
    obtain ⟨b0, hb0, rfl⟩ := hb
    exact fun hm => (((hok.bucket_nodup b0 hb0).mem_erase_iff).1 hm).1 rfl
  · rw [hw2]; exact heap_set_same _ _ _
  · rw [peer_get_none_iff w2 hok2]
    intro q hq qr hqh hid
    rw [hw2] at hq hqh
    have hq2 := (hok.list_nodup.mem_erase_iff).1 hq
    simp only [heap_set_other _ _ _ _ hq2.1] at hqh
    exact hq2.1 (hok.id_unique q ptr qr pr hq2.2 hl hqh hh hid)

theorem peer_down_known (w : rde_state) (id ptr : Nat) (pr : rde_peer)
    (hg : peer_get w id = some ptr) (hh : w.heap ptr = some pr) :
    peer_down w id =
      if pr.conf.reconf_action = .RECONF_DELETE then
        peer_remove
          { w with
            heap := heap_set w.heap ptr
              (some { pr with remote_bgpid := 0, state := .PEER_DOWN, path_h := [] })
            calls := w.calls ++ pr.path_h.map call.path_remove } ptr
      else
        .ret ()
          { w with
            heap := heap_set w.heap ptr
              (some { pr with remote_bgpid := 0, state := .PEER_DOWN, path_h := [] })
            calls := w.calls ++ pr.path_h.map call.path_remove } := by
  simp only [peer_down, hg, hh]

theorem registry_ok_calls (w : rde_state) (hok : registry_ok w) (calls : List call) :
    registry_ok { w with calls := calls } :=
  ⟨hok.size, hok.list_nodup, hok.list_live, hok.bucket_sound, hok.bucket_nodup,
    hok.id_unique, hok.below_brk⟩

/-- C10 (deferred deletion).  For a registered peer at `ptr` in state UP,
`peer_remove` returns without unlinking or freeing it: peer list and hash table
are unchanged, `peer_get` still finds it, and its record is the old one with
`reconf_action = RECONF_DELETE` (state and path collection unchanged).  The
following `peer_down` records `path_remove` for every entry of the path
collection, in order, and then runs `peer_remove` on a state `wd` in which the
peer is DOWN with an empty path collection; that call returns, after which the
peer is in neither the list nor any bucket, its record is freed, and `peer_get`
reports absence. -/
theorem deferred_deletion (w : rde_state) (ptr : Nat) (pr : rde_peer)
    (hok : registry_ok w) (hl : ptr ∈ w.peerlist) (hh : w.heap ptr = some pr)
    (hup : pr.state = .PEER_UP) :
    ∃ w1, peer_remove w ptr = .ret () w1 ∧
      w1.peerlist = w.peerlist ∧ w1.peertable = w.peertable ∧
      peer_get w1 pr.conf.id = some ptr ∧
      w1.heap ptr =
        some { pr with conf := { pr.conf with reconf_action := .RECONF_DELETE } } ∧
      ∃ wd w2, peer_down w1 pr.conf.id = peer_remove wd ptr ∧
        wd.heap ptr = some { conf := { pr.conf with reconf_action := .RECONF_DELETE },
                             remote_bgpid := 0, state := .PEER_DOWN, path_h := [] } ∧
        wd.calls = w1.calls ++ pr.path_h.map call.path_remove ∧
        peer_remove wd ptr = .ret () w2 ∧
        w2.calls = wd.calls ∧
        ptr ∉ w2.peerlist ∧ (∀ b ∈ w2.peertable.peer_hashtbl, ptr ∉ b) ∧
        w2.heap ptr = none ∧ peer_get w2 pr.conf.id = none := by
  obtain ⟨pr1, hpr1⟩ : ∃ pr1 : rde_peer,
      pr1 = { pr with conf := { pr.conf with reconf_action := .RECONF_DELETE } } := ⟨_, rfl⟩
  obtain ⟨w1, hw1⟩ : ∃ w1 : rde_state,
      w1 = { w with heap := heap_set w.heap ptr (some pr1) } := ⟨_, rfl⟩
  have hok1 : registry_ok w1 := by
    rw [hw1]; exact registry_ok_heap_set w hok ptr pr pr1 hh (by rw [hpr1])
  have hh1 : w1.heap ptr = some pr1 := by rw [hw1]; exact heap_set_same _ _ _
  have hl1 : ptr ∈ w1.peerlist := by rw [hw1]; exact hl
  have hid1 : pr1.conf.id = pr.conf.id := by rw [hpr1]
  have hg1 : peer_get w1 pr.conf.id = some ptr :=
    (peer_get_some_iff w1 hok1 pr.conf.id ptr).2 ⟨hl1, pr1, hh1, hid1⟩
  obtain ⟨prd, hprd⟩ : ∃ prd : rde_peer,
      prd = { pr1 with remote_bgpid := 0, state := .PEER_DOWN, path_h := [] } := ⟨_, rfl⟩
  obtain ⟨wd, hwd⟩ : ∃ wd : rde_state,
      wd = { w1 with
             heap := heap_set w1.heap ptr (some prd)
             calls := w1.calls ++ pr1.path_h.map call.path_remove } := ⟨_, rfl⟩
  have hokd : registry_ok wd := by
    rw [hwd]
    exact registry_ok_calls _
      (registry_ok_heap_set w1 hok1 ptr pr1 prd hh1 (by rw [hprd])) _
  have hhd : wd.heap ptr = some prd := by rw [hwd]; exact heap_set_same _ _ _
  have hld : ptr ∈ wd.peerlist := by rw [hwd]; exact hl1
  have hdel : pr1.conf.reconf_action = .RECONF_DELETE := by rw [hpr1]
  have hdown : peer_down w1 pr.conf.id = peer_remove wd ptr := by
    rw [peer_down_known w1 pr.conf.id ptr pr1 hg1 hh1, if_pos hdel, hwd, hprd]
  have hrem := peer_remove_not_up wd hokd ptr prd hld hhd (by rw [hprd]; simp)
    (by rw [hprd])
  have hgone := unlink_gone wd hokd ptr prd hld hhd _ rfl
  have hidd : prd.conf.id = pr.conf.id := by rw [hprd, hpr1]
  rw [hidd] at hgone
  refine ⟨w1, ?_, by rw [hw1], by rw [hw1], hg1, by rw [hh1, hpr1], wd, _, hdown, ?_, ?_,
    hrem, rfl, hgone.2.1, hgone.2.2.1, hgone.2.2.2.1, hgone.2.2.2.2⟩
  · rw [hw1, hpr1]; exact peer_remove_up w ptr pr hh hup
  · rw [hhd, hprd, hpr1]
  · rw [hwd, hpr1]

theorem registry_ok_two_peers : registry_ok state_two_peers := by
  refine ⟨rfl, by decide, ?_, ?_, by decide, ?_, by decide⟩
  · intro ptr hp
    simp only [state_two_peers, List.mem_cons, List.mem_singleton, List.not_mem_nil,
      or_false] at hp
    rcases hp with rfl | rfl
    · exact ⟨_, rfl, by decide⟩
    · exact ⟨_, rfl, by decide⟩
  · intro i b hb ptr hp
    simp only [state_two_peers] at hb
    by_cases h9 : i = 9
    · subst h9
      rw [List.getElem?_set_self (by decide)] at hb
      simp only [Option.some.injEq] at hb
      subst hb
      simp only [List.mem_singleton] at hp
      subst hp
      exact ⟨by decide, _, rfl, by decide⟩
    · rw [List.getElem?_set_ne (Ne.symm h9)] at hb
      by_cases h7 : i = 7
      · subst h7
        rw [List.getElem?_set_self (by decide)] at hb
        simp only [Option.some.injEq] at hb
        subst hb
        simp only [List.mem_singleton] at hp
        subst hp
        exact ⟨by decide, _, rfl, by decide⟩
      · rw [List.getElem?_set_ne (Ne.symm h7)] at hb
        have := List.getElem?_mem hb
        simp only [List.mem_replicate] at this
        rw [this.2] at hp
        simp at hp
  · intro p q pr qr hp hq hph hqh hid
    simp only [state_two_peers, List.mem_cons, List.mem_singleton, List.not_mem_nil,
      or_false] at hp hq
    rcases hp with rfl | rfl <;> rcases hq with rfl | rfl
    · rfl
    · simp only [state_two_peers] at hph hqh
      simp only [OfNat.ofNat_ne_one, if_false, if_true, Option.some.injEq] at hph hqh
      subst hph hqh
      simp at hid
    · simp only [state_two_peers] at hph hqh
      simp only [OfNat.ofNat_ne_one, if_false, if_true, Option.some.injEq] at hph hqh
      subst hph hqh
      simp at hid
    · rfl

/-- Witness for `deferred_deletion`: peer 7 of `state_two_peers`. -/
theorem deferred_deletion_witness :
    (state_two_peers.heap 1).map (fun pr => pr.state) = some .PEER_UP ∧
    ∃ w1, peer_remove state_two_peers 1 = .ret () w1 ∧ peer_get w1 7 = some 1 ∧
      ∃ wd w2, peer_down w1 7 = peer_remove wd 1 ∧ peer_remove wd 1 = .ret () w2 ∧
        peer_get w2 7 = none := by
  refine ⟨rfl, ?_⟩
  obtain ⟨w1, h1, _, _, h4, _, wd, w2, h6, _, _, h9, _, _, _, _, h14⟩ :=
    deferred_deletion state_two_peers 1
      { conf := { id := 7, reconf_action := .RECONF_NONE, remote_as := 65001, params := [] },
        remote_bgpid := 3232235777, state := .PEER_UP, path_h := [100, 101] }
      registry_ok_two_peers (by decide) rfl rfl
  exact ⟨w1, h1, h4, wd, w2, h6, h9, h14⟩

/-! ## Update dispatcher -/

/-- C6 (an UPDATE for an unknown or not-UP peer is fully ignored).  When the peer
id of the message is not found by `peer_get`, or the peer found is not in state
UP, `rde_update_dispatch` returns `-1` and leaves the whole process state as it
was, whatever the payload: no `prefix_remove`, `path_update` or AS-path call is
recorded, no `UPDATE_ERR` is queued, the registry is unchanged.  The same holds
for `rde_dispatch_imsg` receiving that UPDATE on the session pipe. -/
theorem update_ignored_without_up_peer (env : rde_env) (w : rde_state) (m : imsg)
    (h : peer_get w m.hdr.peerid = none ∨
      ∃ ptr pr, peer_get w m.hdr.peerid = some ptr ∧ w.heap ptr = some pr ∧
        pr.state ≠ .PEER_UP) :
    rde_update_dispatch env w m = .ret (-1) w ∧
    (m.hdr.type = .IMSG_UPDATE → rde_dispatch_imsg env w PFD_PIPE_SESSION m = .ret () w) := by
  have h1 : rde_update_dispatch env w m = .ret (-1) w := by
    rcases h with h | ⟨ptr, pr, hg, hh, hs⟩
    · simp only [rde_update_dispatch, h]
    · simp only [rde_update_dispatch, hg, hh, hs, ne_eq, not_false_eq_true, if_true]
  refine ⟨h1, ?_⟩
  intro ht
  simp only [rde_dispatch_imsg, ht, h1, ne_eq, not_true_eq_false, if_false]

/-- Witness for `update_ignored_without_up_peer`: an unknown peer id (8) and a
registered peer that never came up (9). -/
theorem update_ignored_without_up_peer_witness :
    (peer_get state_two_peers 8 = none ∧
      rde_update_dispatch env_le state_two_peers
        (update_imsg env_le 8 [0, 0, 0, 0, 24, 10, 0, 0]) = .ret (-1) state_two_peers) ∧
    ((state_two_peers.heap 2).map (fun pr => pr.state) = some .PEER_NONE ∧
      rde_update_dispatch env_le state_two_peers
        (update_imsg env_le 9 [0, 0, 0, 0, 24, 10, 0, 0]) = .ret (-1) state_two_peers) :=
  ⟨⟨by decide,
    (update_ignored_without_up_peer env_le state_two_peers
      (update_imsg env_le 8 [0, 0, 0, 0, 24, 10, 0, 0]) (Or.inl (by decide))).1⟩,
   ⟨rfl,
    (update_ignored_without_up_peer env_le state_two_peers
      (update_imsg env_le 9 [0, 0, 0, 0, 24, 10, 0, 0])
      (Or.inr ⟨2, _, by decide, rfl, by decide⟩)).1⟩⟩

/-- C7, the code at a failing input.  UP peer 7; payload of 8 bytes:
withdrawn-routes length 1, the withdrawn prefix `0.0.0.0/0`, path-attribute length
4, and only 3 bytes left (the header of an attribute of unrecognised type 99 that
declares one value byte).  The declared attribute length exceeds what remains, yet
`rde_update_dispatch` returns 0 and queues no `UPDATE_ERR`: the check at
rde.c:322 uses `withdrawn_len`, which the withdrawn-routes loop has counted down
to 0. -/
theorem attr_overrun_after_withdrawn_accepted :
    (rde_update_dispatch env_le state_two_peers
        (update_imsg env_le 7 [0, 1, 0, 0, 4, 0, 99, 1])).value = some 0 ∧
    ((rde_update_dispatch env_le state_two_peers
        (update_imsg env_le 7 [0, 1, 0, 0, 4, 0, 99, 1])).state.map (fun w => w.ibuf_se))
      = some [] ∧
    ((rde_update_dispatch env_le state_two_peers
        (update_imsg env_le 7 [0, 1, 0, 0, 4, 0, 99, 1])).state.map (fun w => w.calls))
      = some [.prefix_remove 1 ⟨0, 0, 0, 0⟩ 0, .aspath_destroy none] := by
  decide

/-- The same message is accepted on a big-endian host as well. -/
theorem attr_overrun_after_withdrawn_accepted_be :
    (rde_update_dispatch env_be state_two_peers
        (update_imsg env_be 7 [0, 1, 0, 0, 4, 0, 99, 1])).value = some 0 := by
  decide

/-- With an empty withdrawn-routes section the overrun is caught: failure and
exactly one `UPDATE_ERR` with the peer id and `ERR_UPD_ATTRLIST`. -/
theorem attr_overrun_no_withdrawn_rejected :
    (rde_update_dispatch env_le state_two_peers
        (update_imsg env_le 7 [0, 0, 0, 4, 0, 99, 1])).value = some (-1) ∧
    ((rde_update_dispatch env_le state_two_peers
        (update_imsg env_le 7 [0, 0, 0, 4, 0, 99, 1])).state.map (fun w => w.ibuf_se))
      = some [{ type := .IMSG_UPDATE_ERR, peerid := 7, data := .bytes [1] }] := by
  decide

set_option maxRecDepth 16384 in
/-- C8, the code at a failing input.  UP peer 7, little-endian host; UPDATE with
withdrawn-routes length 0, path-attribute length 260 holding one well-formed
attribute (unrecognised type 8, extended-length flag, length bytes `01 00`, 256
value bytes) and the NLRI 10.0.0.0/24.  `rde_update_get_attr` takes the value
length to be 1, the rest of the value is then decoded as further attributes and
fails: `rde_update_dispatch` returns `-1`, queues an `UPDATE_ERR` and makes no
`path_update` call, where the claim demands success and one `path_update`. -/
theorem announce_extlen_little_endian :
    (rde_update_dispatch env_le state_two_peers
        (update_imsg env_le 7
          ([0, 0, 1, 4, 208, 8, 1, 0] ++ List.replicate 256 0 ++ [24, 10, 0, 0]))).value
      = some (-1) ∧
    ((rde_update_dispatch env_le state_two_peers
        (update_imsg env_le 7
          ([0, 0, 1, 4, 208, 8, 1, 0] ++ List.replicate 256 0 ++ [24, 10, 0, 0]))).state.map
          (fun w => w.ibuf_se))
      = some [{ type := .IMSG_UPDATE_ERR, peerid := 7, data := .bytes [1] }] ∧
    ((rde_update_dispatch env_le state_two_peers
        (update_imsg env_le 7
          ([0, 0, 1, 4, 208, 8, 1, 0] ++ List.replicate 256 0 ++ [24, 10, 0, 0]))).state.map
          (fun w => w.calls))
      = some [] := by
  decide

set_option maxRecDepth 16384 in
/-- The same UPDATE on a big-endian host succeeds with one `path_update`. -/
theorem announce_extlen_big_endian :
    (rde_update_dispatch env_be state_two_peers
        (update_imsg env_be 7
          ([0, 0, 1, 4, 208, 8, 1, 0] ++ List.replicate 256 0 ++ [24, 10, 0, 0]))).value
      = some 0 ∧
    ((rde_update_dispatch env_be state_two_peers
        (update_imsg env_be 7
          ([0, 0, 1, 4, 208, 8, 1, 0] ++ List.replicate 256 0 ++ [24, 10, 0, 0]))).state.map
          (fun w => w.ibuf_se))
      = some [] ∧
    ((rde_update_dispatch env_be state_two_peers
        (update_imsg env_be 7
          ([0, 0, 1, 4, 208, 8, 1, 0] ++ List.replicate 256 0 ++ [24, 10, 0, 0]))).state.map
          (fun w => w.calls))
      = some [.path_update 1 init_attr_flags ⟨10, 0, 0, 0⟩ 24, .aspath_destroy none] := by
  decide

/-- The end-to-end scenario of the specification: ORIGIN = IGP, AS_PATH = (65001), NEXT_HOP = 192.0.2.1 (all
with one-byte lengths), NLRI = [10.0.0.0/24] gives exactly one `path_update`, for
10.0.0.0/24 with next hop 192.0.2.1, and the AS-path handle is destroyed once. -/
theorem announce_example :
    ((rde_update_dispatch env_le state_two_peers
        (update_imsg env_le 7
          [0, 0, 0, 18, 64, 1, 1, 0, 64, 2, 4, 2, 1, 253, 233, 64, 3, 4, 192, 0, 2, 1,
           24, 10, 0, 0])).value = some 0) ∧
    ((rde_update_dispatch env_le state_two_peers
        (update_imsg env_le 7
          [0, 0, 0, 18, 64, 1, 1, 0, 64, 2, 4, 2, 1, 253, 233, 64, 3, 4, 192, 0, 2, 1,
           24, 10, 0, 0])).state.map (fun w => w.ibuf_se) = some []) ∧
    ((rde_update_dispatch env_le state_two_peers
        (update_imsg env_le 7
          [0, 0, 0, 18, 64, 1, 1, 0, 64, 2, 4, 2, 1, 253, 233, 64, 3, 4, 192, 0, 2, 1,
           24, 10, 0, 0])).state.map (fun w => w.calls)
      = some [.aspath_verify [2, 1, 253, 233] 65000, .aspath_create [2, 1, 253, 233],
              .path_update 1
                { init_attr_flags with
                  origin := ORIGIN_IGP, aspath := some ⟨[2, 1, 253, 233]⟩,
                  nexthop := ⟨192, 0, 2, 1⟩ } ⟨10, 0, 0, 0⟩ 24,
              .aspath_destroy (some ⟨[2, 1, 253, 233]⟩)]) := by
  decide

/-! ## Reconfiguration -/

theorem dispatch_all_cons (env : rde_env) (w w1 : rde_state) (idx : Nat) (m : imsg)
    (ms : List (Nat × imsg)) (h : rde_dispatch_imsg env w idx m = .ret () w1) :
    rde_dispatch_all env ((idx, m) :: ms) w = rde_dispatch_all env ms w1 := by
  simp only [rde_dispatch_all, h]

theorem registry_ok_of_eq (w w1 : rde_state) (hok : registry_ok w)
    (hheap : w1.heap = w.heap) (hbrk : w1.brk = w.brk) (htbl : w1.peertable = w.peertable)
    (hlist : w1.peerlist = w.peerlist) : registry_ok w1 := by
  refine ⟨?_, ?_, ?_, ?_, ?_, ?_, ?_⟩
  · rw [htbl]; exact hok.size
  · rw [hlist]; exact hok.list_nodup
  · intro ptr hp
    rw [hlist] at hp
    obtain ⟨pr, h1, h2⟩ := hok.list_live ptr hp
    exact ⟨pr, by rw [hheap]; exact h1, by simpa only [PEER_HASH, htbl] using h2⟩
  · intro i b hb ptr hp
    rw [htbl] at hb
    obtain ⟨h1, pr, h2, h3⟩ := hok.bucket_sound i b hb ptr hp
    exact ⟨by rw [hlist]; exact h1, pr, by rw [hheap]; exact h2, by rw [htbl]; exact h3⟩
  · rw [htbl]; exact hok.bucket_nodup
  · intro p q pr qr hp hq hph hqh
    rw [hlist] at hp hq
    rw [hheap] at hph hqh
    exact hok.id_unique p q pr qr hp hq hph hqh
  · intro ptr hp
    rw [hlist] at hp
    rw [hbrk]; exact hok.below_brk ptr hp

theorem registered_eq_of_forall (w1 : rde_state)
    (hok1 : registry_ok w1) (id : Nat) (f : Option rde_peer)
    (h : ∀ pr, (∃ ptr ∈ w1.peerlist, w1.heap ptr = some pr ∧ pr.conf.id = id) ↔ f = some pr) :
    registered w1 id = f := by
  apply Option.ext
  intro pr
  simp only [Option.mem_def]
  rw [registered_some_iff w1 hok1 id pr]
  exact h pr

/-- One peer-upsert from the parent, on a consistent registry. -/
theorem upsert_step (env : rde_env) (w : rde_state) (pc : peer_config)
    (hok : registry_ok w) :
    ∃ w1, rde_dispatch_imsg env w PFD_PIPE_MAIN (reconf_peer_imsg pc) = .ret () w1 ∧
      registry_ok w1 ∧ w1.nconf = w.nconf ∧ w1.conf = w.conf ∧ w1.calls = w.calls ∧
      w1.ibuf_se = w.ibuf_se ∧ w1.ibuf_main = w.ibuf_main ∧
      ∀ id, registered w1 id =
        if pc.id = id then some (upsert_peer (registered w id) pc) else registered w id := by
  cases hg : peer_get w pc.id with
  | none =>
    have hadd := peer_add_fresh w pc.id pc hg
    have hok1 := registry_ok_peer_add w hok pc.id pc hg rfl
    obtain ⟨wa, hwa⟩ : ∃ wa, wa = peer_add_state w pc.id pc := ⟨_, rfl⟩
    rw [← hwa] at hadd hok1
    have hha : wa.heap w.brk =
        some { conf := pc, remote_bgpid := 0, state := .PEER_NONE, path_h := [] } := by
      rw [hwa]; exact heap_set_same _ _ _
    obtain ⟨new, hnew⟩ : ∃ new : rde_peer,
        new = { conf := { pc with reconf_action := .RECONF_KEEP }, remote_bgpid := 0,
                state := .PEER_NONE, path_h := [] } := ⟨_, rfl⟩
    obtain ⟨w1, hw1⟩ : ∃ w1 : rde_state,
        w1 = { wa with heap := heap_set wa.heap w.brk (some new) } := ⟨_, rfl⟩
    have hok2 : registry_ok w1 := by
      rw [hw1]; exact registry_ok_heap_set wa hok1 w.brk _ new hha (by rw [hnew])
    have hrun : rde_dispatch_imsg env w PFD_PIPE_MAIN (reconf_peer_imsg pc) = .ret () w1 := by
      simp only [rde_dispatch_imsg, reconf_peer_imsg, hg, hadd, mark_keep, hha, ne_eq,
        not_true_eq_false, if_false]
      rw [hw1, hnew]
    have hreg0 : registered w pc.id = none := by simp only [registered, hg, Option.none_bind]
    have hfresh : w.brk ∉ w.peerlist := fun hm => by
      have := hok.below_brk _ hm; omega
    have hlist1 : w1.peerlist = w.brk :: w.peerlist := by rw [hw1, hwa]; rfl
    have hheap1 : ∀ q, q ≠ w.brk → w1.heap q = w.heap q := by
      intro q hq
      rw [hw1, hwa]
      simp only [peer_add_state, heap_set_other _ _ _ _ hq]
    have hheapb : w1.heap w.brk = some new := by rw [hw1]; exact heap_set_same _ _ _
    refine ⟨w1, hrun, hok2, by rw [hw1, hwa]; rfl, by rw [hw1, hwa]; rfl,
      by rw [hw1, hwa]; rfl, by rw [hw1, hwa]; rfl, by rw [hw1, hwa]; rfl, ?_⟩
    intro id
    apply registered_eq_of_forall w1 hok2
    intro pr
    by_cases hid : pc.id = id
    · rw [if_pos hid, ← hid, hreg0]
      simp only [upsert_peer, Option.some.injEq]
      constructor
      · rintro ⟨ptr, hp, hh, hi⟩
        rw [hlist1, List.mem_cons] at hp
        rcases hp with hp | hp
        · subst hp
          rw [hheapb] at hh
          simp only [Option.some.injEq] at hh
          rw [← hh, hnew]
        · exfalso
          have hne : ptr ≠ w.brk := fun e => hfresh (e ▸ hp)
          rw [hheap1 ptr hne] at hh
          exact (peer_get_none_iff w hok pc.id).1 hg ptr hp pr hh hi
      · intro h
        refine ⟨w.brk, by rw [hlist1]; exact List.mem_cons_self _ _, ?_, ?_⟩
        · rw [hheapb, hnew, h]
        · rw [← h]
    · rw [if_neg hid, registered_some_iff w hok id pr]
      constructor
      · rintro ⟨ptr, hp, hh, hi⟩
        rw [hlist1, List.mem_cons] at hp
        rcases hp with hp | hp
        · exfalso
          subst hp
          rw [hheapb] at hh
          simp only [Option.some.injEq] at hh
          rw [← hh, hnew] at hi
          exact hid hi
        · have hne : ptr ≠ w.brk := fun e => hfresh (e ▸ hp)
          rw [hheap1 ptr hne] at hh
          exact ⟨ptr, hp, hh, hi⟩
      · rintro ⟨ptr, hp, hh, hi⟩
        have hne : ptr ≠ w.brk := fun e => hfresh (e ▸ hp)
        exact ⟨ptr, by rw [hlist1]; exact List.mem_cons_of_mem _ hp,
          by rw [hheap1 ptr hne]; exact hh, hi⟩
  | some p =>
    obtain ⟨hl, pr0, hh0, hid0⟩ := (peer_get_some_iff w hok pc.id p).1 hg
    obtain ⟨new, hnew⟩ : ∃ new : rde_peer,
        new = { pr0 with conf := { pc with reconf_action := .RECONF_KEEP } } := ⟨_, rfl⟩
    obtain ⟨wa, hwa⟩ : ∃ wa : rde_state,
        wa = { w with heap := heap_set w.heap p (some { pr0 with conf := pc }) } := ⟨_, rfl⟩
    have hoka : registry_ok wa := by
      rw [hwa]; exact registry_ok_heap_set w hok p pr0 _ hh0 (by simp only [hid0])
    have hha : wa.heap p = some { pr0 with conf := pc } := by
      rw [hwa]; exact heap_set_same _ _ _
    obtain ⟨w1, hw1⟩ : ∃ w1 : rde_state,
        w1 = { wa with heap := heap_set wa.heap p (some new) } := ⟨_, rfl⟩
    have hok1 : registry_ok w1 := by
      rw [hw1]; exact registry_ok_heap_set wa hoka p _ new hha (by rw [hnew])
    have hrun : rde_dispatch_imsg env w PFD_PIPE_MAIN (reconf_peer_imsg pc) = .ret () w1 := by
      simp only [rde_dispatch_imsg, reconf_peer_imsg, hg, hh0, ne_eq, not_true_eq_false,
        if_false]
      rw [← hwa]
      simp only [mark_keep, hha]
      rw [hw1, hnew]
    have hreg0 : registered w pc.id = some pr0 := by
      simp only [registered, hg, Option.some_bind, hh0]
    have hlist1 : w1.peerlist = w.peerlist := by rw [hw1, hwa]
    have hheap1 : ∀ q, q ≠ p → w1.heap q = w.heap q := by
      intro q hq
      rw [hw1, hwa]
      simp only [heap_set_other _ _ _ _ hq]
    have hheapb : w1.heap p = some new := by rw [hw1]; exact heap_set_same _ _ _
    refine ⟨w1, hrun, hok1, by rw [hw1, hwa], by rw [hw1, hwa], by rw [hw1, hwa],
      by rw [hw1, hwa], by rw [hw1, hwa], ?_⟩
    intro id
    apply registered_eq_of_forall w1 hok1
    intro pr
    by_cases hid : pc.id = id
    · rw [if_pos hid, ← hid, hreg0]
      simp only [upsert_peer, Option.some.injEq]
      constructor
      · rintro ⟨ptr, hp, hh, hi⟩
        rw [hlist1] at hp
        by_cases hpp : ptr = p
        · subst hpp
          rw [hheapb] at hh
          simp only [Option.some.injEq] at hh
          rw [← hh, hnew]
        · exfalso
          rw [hheap1 ptr hpp] at hh
          exact hpp (hok.id_unique ptr p pr pr0 hp hl hh hh0 (by rw [hi, hid0]))
      · intro h
        refine ⟨p, by rw [hlist1]; exact hl, ?_, ?_⟩
        · rw [hheapb, hnew, h]
        · rw [← h]
    · rw [if_neg hid, registered_some_iff w hok id pr]
      constructor
      · rintro ⟨ptr, hp, hh, hi⟩
        rw [hlist1] at hp
        by_cases hpp : ptr = p
        · exfalso
          subst hpp
          rw [hheapb] at hh
          simp only [Option.some.injEq] at hh
          rw [← hh, hnew] at hi
          exact hid hi
        · rw [hheap1 ptr hpp] at hh
          exact ⟨ptr, hp, hh, hi⟩
      · rintro ⟨ptr, hp, hh, hi⟩
        have hpp : ptr ≠ p := by
          intro e
          subst e
          rw [hh0] at hh
          simp only [Option.some.injEq] at hh
          rw [← hh] at hi
          exact hid (by rw [← hid0, hi])
        exact ⟨ptr, by rw [hlist1]; exact hp, by rw [hheap1 ptr hpp]; exact hh, hi⟩

theorem upsert_all_cons (pc : peer_config) (pcs : List peer_config) (v : Option rde_peer)
    (id : Nat) :
    upsert_all (pc :: pcs) v id =
      upsert_all pcs (if pc.id = id then some (upsert_peer v pc) else v) id := by
  simp only [upsert_all, List.foldl_cons]

/-- All peer-upserts of a round, followed by further messages `tail`. -/
theorem upsert_steps (env : rde_env) (tail : List (Nat × imsg)) :
    ∀ (pcs : List peer_config) (w : rde_state), registry_ok w →
      ∃ w1, rde_dispatch_all env
          (pcs.map (fun pc => (PFD_PIPE_MAIN, reconf_peer_imsg pc)) ++ tail) w
          = rde_dispatch_all env tail w1 ∧
        registry_ok w1 ∧ w1.nconf = w.nconf ∧ w1.conf = w.conf ∧ w1.calls = w.calls ∧
        w1.ibuf_se = w.ibuf_se ∧ w1.ibuf_main = w.ibuf_main ∧
        ∀ id, registered w1 id = upsert_all pcs (registered w id) id := by
  intro pcs
  induction pcs with
  | nil =>
    intro w hok
    exact ⟨w, by simp, hok, rfl, rfl, rfl, rfl, rfl, fun id => by simp [upsert_all]⟩
  | cons pc pcs ih =>
    intro w hok
    obtain ⟨w1, hrun, hok1, hn1, hc1, hk1, hs1, hm1, hreg1⟩ := upsert_step env w pc hok
    obtain ⟨w2, hrun2, hok2, hn2, hc2, hk2, hs2, hm2, hreg2⟩ := ih w1 hok1
    refine ⟨w2, ?_, hok2, by rw [hn2, hn1], by rw [hc2, hc1], by rw [hk2, hk1],
      by rw [hs2, hs1], by rw [hm2, hm1], ?_⟩
    · simp only [List.map_cons, List.cons_append]
      rw [dispatch_all_cons env w w1 _ _ _ hrun, hrun2]
    · intro id
      rw [hreg2 id, hreg1 id, upsert_all_cons]

theorem sweep_peer_id (pr pr1 : rde_peer) (h : sweep_peer pr = some pr1) :
    pr1.conf.id = pr.conf.id := by
  unfold sweep_peer at h
  split at h
  · split_ifs at h
    simp only [Option.some.injEq] at h
    rw [← h]
  · simp only [Option.some.injEq] at h
    rw [← h]
  · simp only [Option.some.injEq] at h
    rw [← h]

/-- One round of the Commit sweep, at peer `p`. -/
theorem sweep_step (w : rde_state) (hok : registry_ok w) (p : Nat) (np : List Nat)
    (pr : rde_peer) (hl : p ∈ w.peerlist) (hh : w.heap p = some pr)
    (hpath : pr.conf.reconf_action = .RECONF_NONE → pr.state ≠ .PEER_UP → pr.path_h = []) :
    ∃ w1, reconf_sweep (p :: np) w = reconf_sweep np w1 ∧ registry_ok w1 ∧
      (∀ q, q ∈ w1.peerlist ↔ q ∈ w.peerlist ∧ (q = p → (sweep_peer pr).isSome)) ∧
      (∀ q, w1.heap q = if q = p then sweep_peer pr else w.heap q) ∧
      w1.nconf = w.nconf ∧ w1.conf = w.conf ∧ w1.calls = w.calls ∧
      w1.ibuf_se = w.ibuf_se ∧ w1.ibuf_main = w.ibuf_main := by
  cases hact : pr.conf.reconf_action with
  | RECONF_NONE =>
    by_cases hup : pr.state = .PEER_UP
    · refine ⟨_, ?_, registry_ok_heap_set w hok p pr
          { pr with conf := { pr.conf with reconf_action := .RECONF_DELETE } } hh rfl,
        ?_, ?_, rfl, rfl, rfl, rfl, rfl⟩
      · simp only [reconf_sweep, hh, hact, peer_remove_up w p pr hh hup]
      · intro q
        simp only [sweep_peer, hact, hup, if_true, Option.isSome_some, implies_true, and_true]
      · intro q
        by_cases hq : q = p
        · subst hq
          simp only [heap_set_same, sweep_peer, hact, hup, if_true]
        · simp only [heap_set_other _ _ _ _ hq, if_neg hq]
    · refine ⟨_, ?_, registry_ok_unlink w hok p, ?_, ?_, rfl, rfl, rfl, rfl, rfl⟩
      · simp only [reconf_sweep, hh, hact,
          peer_remove_not_up w hok p pr hl hh hup (hpath hact hup)]
      · intro q
        simp only [sweep_peer, hact, hup, if_false, Option.isSome_none, Bool.false_eq_true,
          imp_false]
        rw [hok.list_nodup.mem_erase_iff]
        exact And.comm
      · intro q
        by_cases hq : q = p
        · subst hq
          simp only [heap_set_same, sweep_peer, hact, hup, if_true, if_false]
        · simp only [heap_set_other _ _ _ _ hq, if_neg hq]
  | RECONF_KEEP =>
    refine ⟨_, ?_, registry_ok_heap_set w hok p pr
        { pr with conf := { pr.conf with reconf_action := .RECONF_NONE } } hh rfl,
      ?_, ?_, rfl, rfl, rfl, rfl, rfl⟩
    · simp only [reconf_sweep, hh, hact]
    · intro q
      simp only [sweep_peer, hact, Option.isSome_some, implies_true, and_true]
    · intro q
      by_cases hq : q = p
      · subst hq
        simp only [heap_set_same, sweep_peer, hact, if_true]
      · simp only [heap_set_other _ _ _ _ hq, if_neg hq]
  | RECONF_DELETE =>
    refine ⟨w, ?_, hok, ?_, ?_, rfl, rfl, rfl, rfl, rfl⟩
    · simp only [reconf_sweep, hh, hact]
    · intro q
      simp only [sweep_peer, hact, Option.isSome_some, implies_true, and_true]
    · intro q
      by_cases hq : q = p
      · subst hq
        simp only [sweep_peer, hact, if_true, hh]
      · simp only [if_neg hq]

/-- The Commit sweep over the peers `rest` still to visit. -/
theorem sweep_steps :
    ∀ (rest : List Nat) (w : rde_state), registry_ok w → rest.Nodup →
      (∀ p ∈ rest, p ∈ w.peerlist) →
      (∀ p ∈ rest, ∀ pr, w.heap p = some pr → pr.conf.reconf_action = .RECONF_NONE →
        pr.state ≠ .PEER_UP → pr.path_h = []) →
      ∃ w1, reconf_sweep rest w = .ret () w1 ∧ registry_ok w1 ∧
        (∀ q, q ∈ w1.peerlist ↔
          q ∈ w.peerlist ∧ (q ∈ rest → ((w.heap q).bind sweep_peer).isSome)) ∧
        (∀ q, w1.heap q = if q ∈ rest then (w.heap q).bind sweep_peer else w.heap q) ∧
        w1.nconf = w.nconf ∧ w1.conf = w.conf ∧ w1.calls = w.calls ∧
        w1.ibuf_se = w.ibuf_se ∧ w1.ibuf_main = w.ibuf_main := by
  intro rest
  induction rest with
  | nil =>
    intro w hok _ _ _
    exact ⟨w, by simp only [reconf_sweep], hok, by simp, by simp, rfl, rfl, rfl, rfl, rfl⟩
  | cons p np ih =>
    intro w hok hnd hsub hpath
    have hpl : p ∈ w.peerlist := hsub p (List.mem_cons_self _ _)
    obtain ⟨pr, hh, _⟩ := hok.list_live p hpl
    have hpnp : p ∉ np := (List.nodup_cons.1 hnd).1
    obtain ⟨w1, hrun1, hok1, hlist1, hheap1, hn1, hc1, hk1, hs1, hm1⟩ :=
      sweep_step w hok p np pr hpl hh (hpath p (List.mem_cons_self _ _) pr hh)
    have hother : ∀ q ∈ np, w1.heap q = w.heap q := by
      intro q hq
      have : q ≠ p := fun e => hpnp (e ▸ hq)
      rw [hheap1 q, if_neg this]
    obtain ⟨w2, hrun2, hok2, hlist2, hheap2, hn2, hc2, hk2, hs2, hm2⟩ :=
      ih w1 hok1 (List.nodup_cons.1 hnd).2
        (by
          intro q hq
          have : q ≠ p := fun e => hpnp (e ▸ hq)
          exact (hlist1 q).2 ⟨hsub q (List.mem_cons_of_mem _ hq), fun e => absurd e this⟩)
        (by
          intro q hq qr hqh
          rw [hother q hq] at hqh
          exact hpath q (List.mem_cons_of_mem _ hq) qr hqh)
    refine ⟨w2, by rw [hrun1, hrun2], hok2, ?_, ?_, by rw [hn2, hn1], by rw [hc2, hc1],
      by rw [hk2, hk1], by rw [hs2, hs1], by rw [hm2, hm1]⟩
    · intro q
      rw [hlist2 q, hlist1 q]
      by_cases hqp : q = p
      · subst hqp
        simp only [hpnp, false_implies, and_true, List.mem_cons, true_or, true_implies,
          hh, Option.some_bind, true_implies]
      · have : (q ∈ np → ((w1.heap q).bind sweep_peer).isSome) ↔
            (q ∈ p :: np → ((w.heap q).bind sweep_peer).isSome) := by
          simp only [List.mem_cons, hqp, false_or]
          constructor
          · intro h hq; rw [← hother q hq]; exact h hq
          · intro h hq; rw [hother q hq]; exact h hq
        rw [this]
        simp only [hqp, false_implies, and_true]
    · intro q
      rw [hheap2 q]
      by_cases hqp : q = p
      · subst hqp
        simp only [hpnp, if_false, List.mem_cons, true_or, if_true, hheap1, hh,
          Option.some_bind]
      · by_cases hq : q ∈ np
        · simp only [hq, if_true, List.mem_cons, or_true, hother q hq]
        · simp only [hq, if_false, List.mem_cons, hqp, false_or, hheap1]

theorem registered_sweep (w w1 : rde_state) (hok : registry_ok w) (hok1 : registry_ok w1)
    (hlist : ∀ q, q ∈ w1.peerlist ↔
      q ∈ w.peerlist ∧ (q ∈ w.peerlist → ((w.heap q).bind sweep_peer).isSome))
    (hheap : ∀ q, w1.heap q = if q ∈ w.peerlist then (w.heap q).bind sweep_peer else w.heap q)
    (id : Nat) :
    registered w1 id = (registered w id).bind sweep_peer := by
  apply registered_eq_of_forall w1 hok1
  intro pr1
  constructor
  · rintro ⟨q, hq, hqh, hid⟩
    have hq0 := ((hlist q).1 hq).1
    rw [hheap q, if_pos hq0] at hqh
    obtain ⟨pr, hpr, hsw⟩ := Option.bind_eq_some.1 hqh
    have hid0 : pr.conf.id = id := by rw [← sweep_peer_id pr pr1 hsw, hid]
    rw [(registered_some_iff w hok id pr).2 ⟨q, hq0, hpr, hid0⟩]
    exact hsw
  · intro h
    obtain ⟨pr, hpr, hsw⟩ := Option.bind_eq_some.1 h
    obtain ⟨q, hq0, hqh, hid0⟩ := (registered_some_iff w hok id pr).1 hpr
    have hb : (w.heap q).bind sweep_peer = some pr1 := by rw [hqh]; exact hsw
    refine ⟨q, (hlist q).2 ⟨hq0, fun _ => by rw [hb]; rfl⟩, ?_, ?_⟩
    · rw [hheap q, if_pos hq0, hb]
    · rw [sweep_peer_id pr pr1 hsw, hid0]

/-- The Commit message from the parent, on a consistent registry with a staged
snapshot. -/
theorem commit_step (env : rde_env) (w : rde_state) (nc : bgpd_config)
    (hok : registry_ok w) (hn : w.nconf = some nc)
    (hpaths : ∀ p ∈ w.peerlist, ∀ pr, w.heap p = some pr →
      pr.conf.reconf_action = .RECONF_NONE → pr.state ≠ .PEER_UP → pr.path_h = []) :
    ∃ w1, rde_dispatch_imsg env w PFD_PIPE_MAIN reconf_done_imsg = .ret () w1 ∧
      registry_ok w1 ∧ w1.nconf = none ∧ w1.conf = nc ∧
      w1.ibuf_se = w.ibuf_se ∧ w1.ibuf_main = w.ibuf_main ∧
      ∀ id, registered w1 id = (registered w id).bind sweep_peer := by
  obtain ⟨w1, hrun, hok1, hlist, hheap, _, _, _, hs, hm⟩ :=
    sweep_steps w.peerlist w hok hok.list_nodup (fun p hp => hp) hpaths
  obtain ⟨w2, hw2⟩ : ∃ w2 : rde_state,
      w2 = { w1 with conf := nc, nconf := none,
                     calls := w1.calls ++ [.logit .LOG_INFO "RDE reconfigured" []] } :=
    ⟨_, rfl⟩
  have hok2 : registry_ok w2 :=
    registry_ok_of_eq w1 w2 hok1 (by rw [hw2]) (by rw [hw2]) (by rw [hw2]) (by rw [hw2])
  refine ⟨w2, ?_, hok2, by rw [hw2], by rw [hw2], by rw [hw2]; exact hs,
    by rw [hw2]; exact hm, ?_⟩
  · simp only [rde_dispatch_imsg, reconf_done_imsg, hn, hrun, ne_eq, not_true_eq_false,
      if_false]
    rw [hw2]
  · intro id
    apply registered_sweep w w2 hok hok2
    · intro q; rw [hw2]; exact hlist q
    · intro q; rw [hw2]; exact hheap q

theorem upsert_peer_twice (v : Option rde_peer) (pc pc1 : peer_config) :
    upsert_peer (some (upsert_peer v pc)) pc1 = upsert_peer v pc1 := by
  cases v <;> rfl

theorem last_upsert_cons (pc : peer_config) (pcs : List peer_config) (id : Nat) :
    last_upsert (pc :: pcs) id =
      match last_upsert pcs id with
      | some x => some x
      | none => if pc.id = id then some pc else none := by
  simp only [last_upsert, List.reverse_cons, List.find?_append]
  cases h : List.find? (fun pc => pc.id == id) pcs.reverse with
  | some x => simp
  | none =>
    by_cases hid : pc.id = id
    · simp [hid]
    · simp [hid]

theorem upsert_all_eq (pcs : List peer_config) (id : Nat) :
    ∀ v, upsert_all pcs v id =
      match last_upsert pcs id with
      | none => v
      | some pc => some (upsert_peer v pc) := by
  induction pcs with
  | nil => intro v; simp [upsert_all, last_upsert]
  | cons pc pcs ih =>
    intro v
    rw [upsert_all_cons, ih, last_upsert_cons]
    cases h : last_upsert pcs id with
    | some x =>
      by_cases hid : pc.id = id
      · simp only [hid, if_true, upsert_peer_twice]
      · simp only [hid, if_false]
    | none =>
      by_cases hid : pc.id = id
      · simp only [hid, if_true]
      · simp only [hid, if_false]

theorem last_upsert_none_iff (pcs : List peer_config) (id : Nat) :
    last_upsert pcs id = none ↔ id ∉ pcs.map (fun pc => pc.id) := by
  simp only [last_upsert, List.find?_eq_none, List.mem_reverse, beq_iff_eq, List.mem_map,
    not_exists, not_and]

theorem last_upsert_some_id (pcs : List peer_config) (id : Nat) (pc : peer_config)
    (h : last_upsert pcs id = some pc) : pc.id = id := by
  have := List.find?_some h
  simpa using this

/-- C9 (reconfiguration sweep).  Start from a consistent registry in which every
peer has `reconf_action = RECONF_NONE` and every peer not in state UP has an empty
path collection.  A Begin, the peer-upserts `pcs` (their ids are the set `U`) and
a Commit, all from the parent, return with a consistent registry in which

* an id is registered exactly when it is in `U` or belonged to a peer in state UP;
* every id in `U` carries the configuration last upserted for it, with
  `reconf_action = RECONF_NONE` (state, remote id and paths are those of the old
  record, or those of a fresh record);
* a peer outside `U` that is UP is still registered, unchanged but for
  `reconf_action = RECONF_DELETE`;
* a peer outside `U` that is not UP is no longer registered.

With `pcs = []` the last two items cover every existing peer. -/
theorem reconf_round_sweeps (env : rde_env) (w : rde_state) (c : bgpd_config)
    (pcs : List peer_config) (hok : registry_ok w)
    (hnone : ∀ p ∈ w.peerlist, ∀ pr, w.heap p = some pr →
      pr.conf.reconf_action = .RECONF_NONE)
    (hpaths : ∀ p ∈ w.peerlist, ∀ pr, w.heap p = some pr →
      pr.state ≠ .PEER_UP → pr.path_h = []) :
    ∃ w1, rde_dispatch_all env (reconf_round c pcs) w = .ret () w1 ∧ registry_ok w1 ∧
      (∀ id, (registered w1 id).isSome ↔
        (id ∈ pcs.map (fun pc => pc.id) ∨
          ∃ pr, registered w id = some pr ∧ pr.state = .PEER_UP)) ∧
      (∀ id ∈ pcs.map (fun pc => pc.id), ∃ pc, last_upsert pcs id = some pc ∧
        registered w1 id =
          some { upsert_peer (registered w id) pc with
                 conf := { pc with reconf_action := .RECONF_NONE } }) ∧
      (∀ id pr, id ∉ pcs.map (fun pc => pc.id) → registered w id = some pr →
        pr.state = .PEER_UP →
        registered w1 id =
          some { pr with conf := { pr.conf with reconf_action := .RECONF_DELETE } }) ∧
      (∀ id pr, id ∉ pcs.map (fun pc => pc.id) → registered w id = some pr →
        pr.state ≠ .PEER_UP → registered w1 id = none) := by
  -- Begin
  obtain ⟨w0, hw0⟩ : ∃ w0 : rde_state, w0 = { w with nconf := some { c with peers := [] } } :=
    ⟨_, rfl⟩
  have hbegin : rde_dispatch_imsg env w PFD_PIPE_MAIN (reconf_conf_imsg c) = .ret () w0 := by
    simp only [rde_dispatch_imsg, reconf_conf_imsg, ne_eq, not_true_eq_false, if_false]
    rw [hw0]
  have hok0 : registry_ok w0 :=
    registry_ok_of_eq w w0 hok (by rw [hw0]) (by rw [hw0]) (by rw [hw0]) (by rw [hw0])
  have hreg0 : ∀ id, registered w0 id = registered w id := by
    intro id; rw [hw0]; rfl
  -- upserts
  obtain ⟨wu, hrunu, hoku, hnu, _, _, _, _, hregu⟩ :=
    upsert_steps env [(PFD_PIPE_MAIN, reconf_done_imsg)] pcs w0 hok0
  -- what is registered before the sweep
  have hview : ∀ id, registered wu id =
      match last_upsert pcs id with
      | none => registered w id
      | some pc => some (upsert_peer (registered w id) pc) := by
    intro id
    rw [hregu id, hreg0 id, upsert_all_eq]
  have hold : ∀ id pr, registered w id = some pr →
      pr.conf.reconf_action = .RECONF_NONE ∧ (pr.state ≠ .PEER_UP → pr.path_h = []) := by
    intro id pr h
    obtain ⟨q, hq, hqh, _⟩ := (registered_some_iff w hok id pr).1 h
    exact ⟨hnone q hq pr hqh, hpaths q hq pr hqh⟩
  -- Commit
  obtain ⟨w1, hrun1, hok1, _, _, _, _, hreg1⟩ :=
    commit_step env wu { c with peers := [] } hoku (by rw [hnu, hw0])
      (by
        intro p hp pr hph hact hup
        have hr := (registered_some_iff wu hoku pr.conf.id pr).2 ⟨p, hp, hph, rfl⟩
        rw [hview] at hr
        cases hlu : last_upsert pcs pr.conf.id with
        | none =>
          rw [hlu] at hr
          exact (hold _ pr hr).2 hup
        | some pc =>
          rw [hlu] at hr
          simp only [Option.some.injEq] at hr
          rw [← hr] at hact
          cases hv : registered w pr.conf.id <;> rw [hv] at hact <;>
            simp [upsert_peer] at hact)
  have hfinal : ∀ id, registered w1 id =
      match last_upsert pcs id with
      | none => (registered w id).bind sweep_peer
      | some pc =>
        some { upsert_peer (registered w id) pc with
               conf := { pc with reconf_action := .RECONF_NONE } } := by
    intro id
    rw [hreg1 id, hview id]
    cases hlu : last_upsert pcs id with
    | none => rfl
    | some pc =>
      simp only [Option.some_bind]
      cases hv : registered w id <;> rfl
  have hsweep_old : ∀ id pr, registered w id = some pr →
      (registered w id).bind sweep_peer =
        if pr.state = .PEER_UP then
          some { pr with conf := { pr.conf with reconf_action := .RECONF_DELETE } }
        else none := by
    intro id pr h
    rw [h]
    simp only [Option.some_bind, sweep_peer, (hold id pr h).1]
  refine ⟨w1, ?_, hok1, ?_, ?_, ?_, ?_⟩
  · simp only [reconf_round]
    rw [dispatch_all_cons env w w0 _ _ _ hbegin, hrunu]
    simp only [rde_dispatch_all, hrun1]
  · intro id
    rw [hfinal id]
    cases hlu : last_upsert pcs id with
    | some pc =>
      have : id ∈ pcs.map (fun pc => pc.id) := by
        by_contra hc
        rw [(last_upsert_none_iff pcs id).2 hc] at hlu
        exact Option.noConfusion hlu
      simp only [Option.isSome_some, this, true_or]
    | none =>
      have hni := (last_upsert_none_iff pcs id).1 hlu
      simp only [hni, false_or]
      cases hv : registered w id with
      | none => simp
      | some pr =>
        rw [← hv, hsweep_old id pr hv]
        by_cases hup : pr.state = .PEER_UP
        · simp only [hup, if_true, Option.isSome_some, true_iff]
          exact ⟨pr, hv, hup⟩
        · simp only [hup, if_false, Option.isSome_none, Bool.false_eq_true, false_iff,
            not_exists, not_and]
          intro pr1 h1
          rw [hv] at h1
          simp only [Option.some.injEq] at h1
          rw [← h1]; exact hup
  · intro id hid
    cases hlu : last_upsert pcs id with
    | none => exact absurd hid ((last_upsert_none_iff pcs id).1 hlu)
    | some pc =>
      refine ⟨pc, rfl, ?_⟩
      rw [hfinal id, hlu]
  · intro id pr hid hv hup
    rw [hfinal id, (last_upsert_none_iff pcs id).2 hid]
    simp only []
    rw [hsweep_old id pr hv, if_pos hup]
  · intro id pr hid hv hup
    rw [hfinal id, (last_upsert_none_iff pcs id).2 hid]
    simp only []
    rw [hsweep_old id pr hv, if_neg hup]

theorem two_peers_all_none : ∀ p ∈ state_two_peers.peerlist, ∀ pr,
    state_two_peers.heap p = some pr → pr.conf.reconf_action = .RECONF_NONE := by
  intro p hp pr hh
  simp only [state_two_peers, List.mem_cons, List.mem_singleton, List.not_mem_nil,
    or_false] at hp
  rcases hp with rfl | rfl
  · simp only [state_two_peers, OfNat.ofNat_ne_one, if_false, if_true,
      Option.some.injEq] at hh
    rw [← hh]
  · simp only [state_two_peers, if_true, Option.some.injEq] at hh
    rw [← hh]

theorem two_peers_paths : ∀ p ∈ state_two_peers.peerlist, ∀ pr,
    state_two_peers.heap p = some pr → pr.state ≠ .PEER_UP → pr.path_h = [] := by
  intro p hp pr hh hup
  simp only [state_two_peers, List.mem_cons, List.mem_singleton, List.not_mem_nil,
    or_false] at hp
  rcases hp with rfl | rfl
  · simp only [state_two_peers, OfNat.ofNat_ne_one, if_false, if_true,
      Option.some.injEq] at hh
    rw [← hh]
  · simp only [state_two_peers, if_true, Option.some.injEq] at hh
    rw [← hh] at hup
    exact absurd rfl hup

/-- Witness for `reconf_round_sweeps`: `state_two_peers` with one upsert, for the
new id 11.  Peer 11 is
registered, peer 7 (UP) stays with `RECONF_DELETE`, peer 9 (never up) is gone. -/
theorem reconf_round_sweeps_witness :
    registry_ok state_two_peers ∧
    ∃ w1, rde_dispatch_all env_le
        (reconf_round { local_as := 65000, flags := 0, peers := [], params := [] }
          [{ id := 11, reconf_action := .RECONF_NONE, remote_as := 65003, params := [] }])
        state_two_peers = .ret () w1 ∧
      (registered w1 11).isSome = true ∧
      registered w1 7 =
        some { conf := { id := 7, reconf_action := .RECONF_DELETE, remote_as := 65001,
                         params := [] },
               remote_bgpid := 3232235777, state := .PEER_UP, path_h := [100, 101] } ∧
      registered w1 9 = none := by
  refine ⟨registry_ok_two_peers, ?_⟩
  obtain ⟨w1, h1, _, h3, _, h5, h6⟩ :=
    reconf_round_sweeps env_le state_two_peers
      { local_as := 65000, flags := 0, peers := [], params := [] }
      [{ id := 11, reconf_action := .RECONF_NONE, remote_as := 65003, params := [] }]
      registry_ok_two_peers two_peers_all_none two_peers_paths
  refine ⟨w1, h1, (h3 11).2 (Or.inl (by decide)), ?_, ?_⟩
  · exact h5 7
      { conf := { id := 7, reconf_action := .RECONF_NONE, remote_as := 65001, params := [] },
        remote_bgpid := 3232235777, state := .PEER_UP, path_h := [100, 101] }
      (by decide) (by decide) rfl
  · exact h6 9
      { conf := { id := 9, reconf_action := .RECONF_NONE, remote_as := 65002, params := [] },
        remote_bgpid := 0, state := .PEER_NONE, path_h := [] }
      (by decide) (by decide) (by decide)

/-- The length checks of the `switch` in `rde_update_get_attr`, on the length
`attr_len` the function has decoded. -/
theorem attr_switch_fixed_length (host : byte_order)
    (aspath_verify : List u_char → Nat → Int) (conf_as : Nat) (buf : List u_char)
    (len : Nat) (a : attr_flags) (type attr_len : Nat) (s : attr_vars)
    (h : type = ATTR_UNDEF ∨ (type = ATTR_ORIGIN ∧ attr_len ≠ 1) ∨
      (type = ATTR_NEXTHOP ∧ attr_len ≠ 4) ∨ (type = ATTR_MED ∧ attr_len ≠ 4) ∨
      (type = ATTR_LOCALPREF ∧ attr_len ≠ 4) ∨
      (type = ATTR_ATOMIC_AGGREGATE ∧ attr_len ≠ 0) ∨
      (type = ATTR_AGGREGATOR ∧ attr_len ≠ 6)) :
    (attr_switch host aspath_verify conf_as buf len a type attr_len s).ret = .err := by
  unfold attr_switch
  by_cases h0 : (len : Int) - (s.plen : Int) < (attr_len : Int)
  · rw [if_pos h0]
  · rw [if_neg h0]
    rcases h with h | ⟨h, hl⟩ | ⟨h, hl⟩ | ⟨h, hl⟩ | ⟨h, hl⟩ | ⟨h, hl⟩ | ⟨h, hl⟩
    · simp only [h, if_true]
    · subst h
      simp [ATTR_UNDEF, ATTR_ORIGIN, attr_origin, hl]
    · subst h
      simp [ATTR_NEXTHOP, ATTR_UNDEF, ATTR_ORIGIN, ATTR_ASPATH, attr_nexthop, hl]
    · subst h
      simp [ATTR_MED, ATTR_NEXTHOP, ATTR_UNDEF, ATTR_ORIGIN, ATTR_ASPATH, attr_med, hl]
    · subst h
      simp [ATTR_LOCALPREF, ATTR_MED, ATTR_NEXTHOP, ATTR_UNDEF, ATTR_ORIGIN, ATTR_ASPATH,
        attr_localpref, hl]
    · subst h
      have : attr_len > 0 := by omega
      simp [ATTR_ATOMIC_AGGREGATE, ATTR_LOCALPREF, ATTR_MED, ATTR_NEXTHOP, ATTR_UNDEF,
        ATTR_ORIGIN, ATTR_ASPATH, attr_atomic_aggregate, this]
    · subst h
      simp [ATTR_AGGREGATOR, ATTR_ATOMIC_AGGREGATE, ATTR_LOCALPREF, ATTR_MED,
        ATTR_NEXTHOP, ATTR_UNDEF, ATTR_ORIGIN, ATTR_ASPATH, attr_aggregator, hl]

/-- Header of an attribute with a one-byte length field. -/
theorem get_attr_short_header (host : byte_order)
    (aspath_verify : List u_char → Nat → Int) (conf_as : Nat)
    (flags type l : u_char) (rest : List u_char) (len : Nat) (a : attr_flags)
    (h3 : 3 ≤ len) (hext : flags.val &&& ATTR_EXTLEN = 0) :
    rde_update_get_attr_traced host aspath_verify conf_as (flags :: type :: l :: rest) len a =
      attr_switch host aspath_verify conf_as (flags :: type :: l :: rest) len a type.val l.val
        { p := 3, plen := 3, log := [.memcpy 0 1, .memcpy 1 1, .memcpy 2 1] } := by
  have h3' : ¬ len < 3 := by omega
  simp [rde_update_get_attr_traced, h3', UPD_READ, hext]

/-- Header of an attribute with the extended-length flag set. -/
theorem get_attr_ext_header (host : byte_order)
    (aspath_verify : List u_char → Nat → Int) (conf_as : Nat)
    (flags type l0 l1 : u_char) (rest : List u_char) (len : Nat) (a : attr_flags)
    (h4 : 4 ≤ len) (hext : flags.val &&& ATTR_EXTLEN ≠ 0) :
    rde_update_get_attr_traced host aspath_verify conf_as
        (flags :: type :: l0 :: l1 :: rest) len a =
      attr_switch host aspath_verify conf_as (flags :: type :: l0 :: l1 :: rest) len a
        type.val (memcpy16 host l0 l1)
        { p := 4, plen := 4, log := [.memcpy 0 1, .memcpy 1 1, .memcpy 2 2] } := by
  have h3' : ¬ len < 3 := by omega
  have h2 : ¬ ((len : Int) - 2 < 2) := by omega
  simp [rde_update_get_attr_traced, h3', UPD_READ, hext, h2]

/-- An attribute of unrecognised type is skipped: with a one-byte length field on
any host, and with the extended length on a big-endian host. -/
theorem get_attr_unknown_skipped (host : byte_order)
    (aspath_verify : List u_char → Nat → Int) (conf_as : Nat)
    (flags type l0 l1 : u_char) (rest : List u_char) (len : Nat) (a : attr_flags)
    (hlen : len < 65536)
    (htype : 7 < type.val) :
    (flags.val &&& ATTR_EXTLEN = 0 → 3 + l0.val ≤ len →
      rde_update_get_attr host aspath_verify conf_as (flags :: type :: l0 :: rest) len a
        = .ok (3 + l0.val, a)) ∧
    (flags.val &&& ATTR_EXTLEN ≠ 0 → host = .BIG_ENDIAN →
      4 + (l0.val * 256 + l1.val) ≤ len →
      rde_update_get_attr host aspath_verify conf_as (flags :: type :: l0 :: l1 :: rest) len a
        = .ok (4 + (l0.val * 256 + l1.val), a)) := by
  have hsw : ∀ (buf : List u_char) (attr_len : Nat) (s : attr_vars),
      s.plen + attr_len ≤ len →
      attr_switch host aspath_verify conf_as buf len a type.val attr_len s =
        attr_default a attr_len s := by
    intro buf attr_len s hle
    have h0 : ¬ ((len : Int) - (s.plen : Int) < (attr_len : Int)) := by omega
    unfold attr_switch
    rw [if_neg h0]
    simp only [ATTR_UNDEF, ATTR_ORIGIN, ATTR_ASPATH, ATTR_NEXTHOP, ATTR_MED, ATTR_LOCALPREF,
      ATTR_ATOMIC_AGGREGATE, ATTR_AGGREGATOR]
    split_ifs <;> first | rfl | (exfalso; omega)
  constructor
  · intro hext hfit
    unfold rde_update_get_attr
    rw [get_attr_short_header _ _ _ _ _ _ _ _ _ (by omega) hext, hsw _ _ _ (by show 3 + l0.val ≤ len; omega)]
    simp only [attr_default]
    rw [Nat.mod_eq_of_lt (by omega)]
  · intro hext hbe hfit
    subst hbe
    unfold rde_update_get_attr
    rw [get_attr_ext_header _ _ _ _ _ _ _ _ _ _ (by omega) hext,
      hsw _ _ _ (by show 4 + (l0.val * 256 + l1.val) ≤ len; omega)]
    simp only [attr_default, memcpy16]
    rw [Nat.mod_eq_of_lt (by omega)]

/-! ## Message origin and the reconfiguration messages -/

/-- A Begin whose snapshot carries a peer (id 11) returns normally and stages the
snapshot, with the embedded peer list dropped. -/
theorem begin_with_peers_is_staged :
    (rde_dispatch_imsg env_le state_two_peers PFD_PIPE_MAIN
        (reconf_conf_imsg
          { local_as := 65010, flags := 0,
            peers := [{ id := 11, reconf_action := .RECONF_NONE, remote_as := 65003,
                        params := [] }],
            params := [] })).value = some () ∧
    (rde_dispatch_imsg env_le state_two_peers PFD_PIPE_MAIN
        (reconf_conf_imsg
          { local_as := 65010, flags := 0,
            peers := [{ id := 11, reconf_action := .RECONF_NONE, remote_as := 65003,
                        params := [] }],
            params := [] })).state.map (fun w => w.nconf)
      = some (some { local_as := 65010, flags := 0, peers := [], params := [] }) := by
  decide

/-- C12, amended (Begin stages any snapshot, dropping its embedded peer list).
For every `IMSG_RECONF_CONF` message from the parent whose payload is a
configuration snapshot `c`, with an empty or a non-empty embedded peer list,
`rde_dispatch_imsg` returns normally and stages `c` with its peer list set to
empty (rde.c:176-184); nothing else of the state changes. -/
theorem begin_stages_without_peers (env : rde_env) (w : rde_state) (len peerid : Nat)
    (c : bgpd_config) :
    rde_dispatch_imsg env w PFD_PIPE_MAIN
        { hdr := { type := .IMSG_RECONF_CONF, len := len, peerid := peerid },
          data := .conf c }
      = .ret () { w with nconf := some { c with peers := [] } } := by
  simp only [rde_dispatch_imsg, ne_eq, not_true_eq_false, if_false]

/-- With no snapshot staged, a peer-upsert for the new id 11 from the parent
returns normally and the registry has a third peer, at the fresh address 3. -/
theorem upsert_without_begin_accepted :
    state_two_peers.nconf = none ∧
    (rde_dispatch_imsg env_le state_two_peers PFD_PIPE_MAIN
        (reconf_peer_imsg { id := 11, reconf_action := .RECONF_NONE, remote_as := 65003,
                            params := [] })).value = some () ∧
    (rde_dispatch_imsg env_le state_two_peers PFD_PIPE_MAIN
        (reconf_peer_imsg { id := 11, reconf_action := .RECONF_NONE, remote_as := 65003,
                            params := [] })).state.map (fun w => w.peerlist)
      = some [3, 2, 1] := by
  decide

/-- C13, amended (a peer-upsert is processed whether or not a snapshot is
staged).  In a consistent registry, for every `IMSG_RECONF_PEER` message from the
parent, with or without a staged snapshot, `rde_dispatch_imsg` returns normally:
the staged snapshot is left as it was, the registry stays consistent, the record
registered for the id of the message is the upserted one (configuration
overwritten and marked KEEP, or a new record in state NONE marked KEEP), and the
records of all other ids are unchanged. -/
theorem upsert_needs_no_begin (env : rde_env) (w : rde_state) (pc : peer_config)
    (hok : registry_ok w) :
    ∃ w1, rde_dispatch_imsg env w PFD_PIPE_MAIN (reconf_peer_imsg pc) = .ret () w1 ∧
      registry_ok w1 ∧ w1.nconf = w.nconf ∧
      registered w1 pc.id = some (upsert_peer (registered w pc.id) pc) ∧
      ∀ id, id ≠ pc.id → registered w1 id = registered w id := by
  obtain ⟨w1, h1, h2, h3, _, _, _, _, h8⟩ := upsert_step env w pc hok
  refine ⟨w1, h1, h2, h3, ?_, ?_⟩
  · rw [h8 pc.id, if_pos rfl]
  · intro id hid
    rw [h8 id, if_neg (Ne.symm hid)]

/-- Witness for `upsert_needs_no_begin`: `state_two_peers` has nothing staged and
takes the upsert of peer 11. -/
theorem upsert_needs_no_begin_witness :
    registry_ok state_two_peers ∧ state_two_peers.nconf = none ∧
    ∃ w1, rde_dispatch_imsg env_le state_two_peers PFD_PIPE_MAIN
        (reconf_peer_imsg { id := 11, reconf_action := .RECONF_NONE, remote_as := 65003,
                            params := [] }) = .ret () w1 ∧
      w1.nconf = none ∧ (registered w1 11).isSome = true := by
  refine ⟨registry_ok_two_peers, rfl, ?_⟩
  obtain ⟨w1, h1, _, h3, h4, _⟩ :=
    upsert_needs_no_begin env_le state_two_peers
      { id := 11, reconf_action := .RECONF_NONE, remote_as := 65003, params := [] }
      registry_ok_two_peers
  exact ⟨w1, h1, h3, by rw [h4]; rfl⟩

/-- C14 (channel trust boundary).  `rde_dispatch_imsg` ends in `fatal` with the
state exactly as it was (registry, staged configuration and outbound queues
included) for every `RECONF_CONF`, `RECONF_PEER`, `RECONF_DONE`, `MRT_REQ` or
`MRT_END` message arriving on the session channel, and for every `UPDATE`,
`SESSION_UP` or `SESSION_DOWN` message arriving on the parent channel; a
`RECONF_DONE` from the parent with no staged snapshot is fatal in the same way. -/
theorem channel_trust_boundary (env : rde_env) (w : rde_state) (m : imsg) :
    ((m.hdr.type = .IMSG_RECONF_CONF ∨ m.hdr.type = .IMSG_RECONF_PEER ∨
        m.hdr.type = .IMSG_RECONF_DONE) →
      rde_dispatch_imsg env w PFD_PIPE_SESSION m
        = .fatal "reconf request not from parent" w) ∧
    ((m.hdr.type = .IMSG_MRT_REQ ∨ m.hdr.type = .IMSG_MRT_END) →
      rde_dispatch_imsg env w PFD_PIPE_SESSION m = .fatal "mrt request not from parent" w) ∧
    (m.hdr.type = .IMSG_UPDATE →
      rde_dispatch_imsg env w PFD_PIPE_MAIN m
        = .fatal "update msg not from session engine" w) ∧
    ((m.hdr.type = .IMSG_SESSION_UP ∨ m.hdr.type = .IMSG_SESSION_DOWN) →
      rde_dispatch_imsg env w PFD_PIPE_MAIN m
        = .fatal "session msg not from session engine" w) ∧
    (m.hdr.type = .IMSG_RECONF_DONE → w.nconf = none →
      rde_dispatch_imsg env w PFD_PIPE_MAIN m
        = .fatal "got IMSG_RECONF_DONE but no config" w) := by
  have hs : PFD_PIPE_SESSION ≠ PFD_PIPE_MAIN := by decide
  have hm : PFD_PIPE_MAIN ≠ PFD_PIPE_SESSION := by decide
  refine ⟨?_, ?_, ?_, ?_, ?_⟩
  · rintro (h | h | h) <;>
      simp only [rde_dispatch_imsg, h, hs, ne_eq, not_false_eq_true, if_true]
  · rintro (h | h) <;>
      simp only [rde_dispatch_imsg, h, hs, mrt_end, ne_eq, not_false_eq_true, if_true]
  · intro h
    simp only [rde_dispatch_imsg, h, hm, ne_eq, not_false_eq_true, if_true]
  · rintro (h | h) <;>
      simp only [rde_dispatch_imsg, h, hm, ne_eq, not_false_eq_true, if_true]
  · intro h hn
    simp only [rde_dispatch_imsg, h, hn, ne_eq, not_true_eq_false, if_false]

/-- Instances of `channel_trust_boundary` on `state_two_peers`: a Commit from the
session channel and an UPDATE from the parent do not return, and a Commit from
the parent with nothing staged is fatal. -/
theorem channel_trust_boundary_example :
    (rde_dispatch_imsg env_le state_two_peers PFD_PIPE_SESSION reconf_done_imsg).value = none ∧
    (rde_dispatch_imsg env_le state_two_peers PFD_PIPE_MAIN
        (update_imsg env_le 7 [0, 0, 0, 0])).value = none ∧
    rde_dispatch_imsg env_le state_two_peers PFD_PIPE_MAIN reconf_done_imsg
      = .fatal "got IMSG_RECONF_DONE but no config" state_two_peers :=
  ⟨by decide, by decide,
   (channel_trust_boundary env_le state_two_peers reconf_done_imsg).2.2.2.2 rfl rfl⟩

/-! ## Route export -/

/-- C15 (route export classification).  With `BGPD_FLAG_NO_FIB_UPDATE` set,
`rde_send_kroute` leaves the state as it is (nothing is queued) for all inputs.
With the flag clear it appends exactly one message to the parent queue:
`KROUTE_ADD` for the new record when old is absent; `KROUTE_DELETE` for the old
record when old is present and new is absent or has an unreachable next hop;
`KROUTE_CHANGE` for the new record when both are present and the new next hop is
not unreachable.  The message carries prefix address, prefix length and next-hop
address of the record it describes. -/
theorem route_export_classification (env : rde_env) (w : rde_state)
    (new old : Option rib_entry) :
    (w.conf.flags &&& env.BGPD_FLAG_NO_FIB_UPDATE ≠ 0 →
      rde_send_kroute env w new old = w) ∧
    (w.conf.flags &&& env.BGPD_FLAG_NO_FIB_UPDATE = 0 →
      (∀ n, old = none → new = some n →
        rde_send_kroute env w new old =
          { w with
            ibuf_main := w.ibuf_main ++
              [{ type := .IMSG_KROUTE_ADD, peerid := 0,
                 data := .kroute ⟨n.pfx, n.prefixlen, n.nexthop⟩ }] }) ∧
      (∀ o, old = some o →
        (new = none ∨ ∃ n, new = some n ∧ n.state = .NEXTHOP_UNREACH) →
        rde_send_kroute env w new old =
          { w with
            ibuf_main := w.ibuf_main ++
              [{ type := .IMSG_KROUTE_DELETE, peerid := 0,
                 data := .kroute ⟨o.pfx, o.prefixlen, o.nexthop⟩ }] }) ∧
      (∀ o n, old = some o → new = some n → n.state ≠ .NEXTHOP_UNREACH →
        rde_send_kroute env w new old =
          { w with
            ibuf_main := w.ibuf_main ++
              [{ type := .IMSG_KROUTE_CHANGE, peerid := 0,
                 data := .kroute ⟨n.pfx, n.prefixlen, n.nexthop⟩ }] })) := by
  refine ⟨?_, ?_⟩
  · intro h
    simp only [rde_send_kroute, h, ne_eq, not_false_eq_true, if_true]
  · intro h
    refine ⟨?_, ?_, ?_⟩
    · intro n ho hn
      subst ho hn
      simp only [rde_send_kroute, h, ne_eq, not_true_eq_false, if_false]
    · rintro o ho (hn | ⟨n, hn, hu⟩)
      · subst ho hn
        simp only [rde_send_kroute, h, ne_eq, not_true_eq_false, if_false]
      · subst ho hn
        simp only [rde_send_kroute, h, ne_eq, not_true_eq_false, if_false, hu, if_true]
    · intro o n ho hn hu
      subst ho hn
      simp only [rde_send_kroute, h, ne_eq, not_true_eq_false, if_false, hu]

/-! ## `peer_down` on a peer that never came up -/

/-- Peer 9 of `state_two_peers` never came up (state NONE); after `peer_down(9)`
its state is DOWN, so the record did change. -/
theorem peer_down_none_becomes_down :
    (state_two_peers.heap 2).map (fun pr => pr.state) = some .PEER_NONE ∧
    peer_get state_two_peers 9 = some 2 ∧
    (peer_down state_two_peers 9).state.map (fun w => (w.heap 2).map (fun pr => pr.state))
      = some (some .PEER_DOWN) := by
  decide

/-- C11, amended (`peer_down` on a registered peer, a peer in state NONE
included).  For every registered peer whose `reconf_action` is not DELETE,
`peer_down(id)` returns and leaves the peer list, the hash table, all other
records and the peer's configuration (its `reconf_action` with it) unchanged and
the peer registered; the peer's state becomes DOWN, its `remote_bgpid` 0 and its
path collection empty, with one `path_remove` per former entry. -/
theorem peer_down_registered (w : rde_state) (ptr : Nat) (pr : rde_peer)
    (hok : registry_ok w) (hl : ptr ∈ w.peerlist) (hh : w.heap ptr = some pr)
    (hact : pr.conf.reconf_action ≠ .RECONF_DELETE) :
    ∃ w1, peer_down w pr.conf.id = .ret () w1 ∧
      w1.peerlist = w.peerlist ∧ w1.peertable = w.peertable ∧
      (∀ q, q ≠ ptr → w1.heap q = w.heap q) ∧
      peer_get w1 pr.conf.id = some ptr ∧
      w1.heap ptr =
        some { conf := pr.conf, remote_bgpid := 0, state := .PEER_DOWN, path_h := [] } ∧
      w1.calls = w.calls ++ pr.path_h.map call.path_remove := by
  have hg : peer_get w pr.conf.id = some ptr :=
    (peer_get_some_iff w hok pr.conf.id ptr).2 ⟨hl, pr, hh, rfl⟩
  obtain ⟨w1, hw1⟩ : ∃ w1 : rde_state,
      w1 = { w with
             heap := heap_set w.heap ptr
               (some { pr with remote_bgpid := 0, state := .PEER_DOWN, path_h := [] })
             calls := w.calls ++ pr.path_h.map call.path_remove } := ⟨_, rfl⟩
  have hok1 : registry_ok w1 := by
    rw [hw1]
    exact registry_ok_calls _
      (registry_ok_heap_set w hok ptr pr
        { pr with remote_bgpid := 0, state := .PEER_DOWN, path_h := [] } hh rfl) _
  have hh1 : w1.heap ptr =
      some { conf := pr.conf, remote_bgpid := 0, state := .PEER_DOWN, path_h := [] } := by
    rw [hw1]; exact heap_set_same _ _ _
  refine ⟨w1, ?_, by rw [hw1], by rw [hw1], ?_, ?_, hh1, by rw [hw1]⟩
  · rw [peer_down_known w pr.conf.id ptr pr hg hh, if_neg hact, hw1]
  · intro q hq
    rw [hw1]; exact heap_set_other _ _ _ _ hq
  · exact (peer_get_some_iff w1 hok1 pr.conf.id ptr).2
      ⟨by rw [hw1]; exact hl, _, hh1, rfl⟩

/-- Witness for `peer_down_registered`: peer 9 of `state_two_peers`, in state
NONE. -/
theorem peer_down_registered_witness :
    registry_ok state_two_peers ∧
    (state_two_peers.heap 2).map (fun pr => pr.state) = some .PEER_NONE ∧
    ∃ w1, peer_down state_two_peers 9 = .ret () w1 ∧
      w1.peerlist = state_two_peers.peerlist ∧ peer_get w1 9 = some 2 ∧
      w1.heap 2 =
        some { conf := { id := 9, reconf_action := .RECONF_NONE, remote_as := 65002,
                         params := [] },
               remote_bgpid := 0, state := .PEER_DOWN, path_h := [] } := by
  refine ⟨registry_ok_two_peers, rfl, ?_⟩
  obtain ⟨w1, h1, h2, _, _, h5, h6, _⟩ :=
    peer_down_registered state_two_peers 2
      { conf := { id := 9, reconf_action := .RECONF_NONE, remote_as := 65002, params := [] },
        remote_bgpid := 0, state := .PEER_NONE, path_h := [] }
      registry_ok_two_peers (by decide) rfl (by decide)
  exact ⟨w1, h1, h2, h5, h6⟩

/-! ## Prefix lengths -/

/-- A length byte of 200 followed by four address octets is accepted, with prefix
length 200. -/
theorem prefix_length_200_accepted :
    rde_update_get_prefix [200, 10, 0, 0, 1] 5
      = .ok { plen := 5, pfx := ⟨10, 0, 0, 1⟩, prefixlen := 200 } := by
  decide

/-- A length byte above 24 with four address octets inside `len` decodes to those
octets and that length. -/
theorem get_prefix_five_octets (b a0 a1 a2 a3 : u_char) (tail : List u_char) (len : Nat)
    (hb : 24 < b.val) (hlen : 5 ≤ len) :
    rde_update_get_prefix (b :: a0 :: a1 :: a2 :: a3 :: tail) len
      = .ok { plen := 5, pfx := ⟨a0, a1, a2, a3⟩, prefixlen := b.val } := by
  rw [get_prefix_cons _ _ _ (by omega)]
  rw [prefix_loop_read _ _ _ _ _ _ a0 (by omega) (by simp only; omega) (by simp),
    prefix_loop_read _ _ _ _ _ _ a1 (by omega)
      (by simp only [Nat.reduceAdd, Nat.reduceMod]; omega) (by simp),
    prefix_loop_read _ _ _ _ _ _ a2 (by omega)
      (by simp only [Nat.reduceAdd, Nat.reduceMod]; omega) (by simp),
    prefix_loop_read _ _ _ _ _ _ a3 (by omega)
      (by simp only [Nat.reduceAdd, Nat.reduceMod]; omega) (by simp),
    prefix_loop_nil]
  simp [in_addr.zero, in_addr.set8]

/-- The prefix length of a successful decode is the first byte of the buffer. -/
theorem get_prefix_ok_first (buf : List u_char) (len : Nat) (r : prefix_result)
    (h : rde_update_get_prefix buf len = .ok r) :
    ∃ b : u_char, buf[0]? = some b ∧ r.prefixlen = b.val := by
  unfold rde_update_get_prefix rde_update_get_prefix_traced at h
  by_cases h0 : len < 1
  · rw [if_pos h0] at h
    exact Ret.noConfusion h
  · rw [if_neg h0] at h
    cases hb : buf[0]? with
    | none =>
      rw [hb] at h
      exact Ret.noConfusion h
    | some b =>
      rw [hb] at h
      simp only [] at h
      generalize prefix_loop buf len b.val [0, 1, 2, 3]
        { p := 1, plen := 1, addr := in_addr.zero, log := [.memcpy 0 1] } = res at h
      obtain ⟨log, ret⟩ := res
      cases ret with
      | ok s =>
        simp only [Ret.ok.injEq] at h
        exact ⟨b, rfl, by rw [← h]⟩
      | err => exact Ret.noConfusion h
      | oob => exact Ret.noConfusion h

/-- C19, amended (the decoded prefix length is the length byte, unchecked).  For
every buffer and declared length, whenever `rde_update_get_prefix` succeeds the
prefix length it returns is the value of the first byte, so between 0 and 255,
and it is at most 32 exactly when that byte is; a length byte greater than 32 is
accepted whenever four address octets follow within the declared length. -/
theorem prefix_length_is_length_byte (buf : List u_char) (len : Nat) :
    (∀ r, rde_update_get_prefix buf len = .ok r →
      ∃ b : u_char, buf[0]? = some b ∧ r.prefixlen = b.val ∧ r.prefixlen ≤ 255 ∧
        (r.prefixlen ≤ 32 ↔ b.val ≤ 32)) ∧
    (∀ (b a0 a1 a2 a3 : u_char) (tail : List u_char),
      buf = b :: a0 :: a1 :: a2 :: a3 :: tail → 32 < b.val → 5 ≤ len →
      rde_update_get_prefix buf len
        = .ok { plen := 5, pfx := ⟨a0, a1, a2, a3⟩, prefixlen := b.val }) := by
  constructor
  · intro r h
    obtain ⟨b, h1, h2⟩ := get_prefix_ok_first buf len r h
    refine ⟨b, h1, h2, ?_, by rw [h2]⟩
    rw [h2]; omega
  · intro b a0 a1 a2 a3 tail hbuf hb hlen
    subst hbuf
    exact get_prefix_five_octets b a0 a1 a2 a3 tail len (by omega) hlen

/-- An instance of `prefix_length_is_length_byte`: the buffer `200 10 0 0 1`. -/
theorem prefix_length_is_length_byte_example :
    ∃ b : u_char, [(200 : u_char), 10, 0, 0, 1][0]? = some b ∧ 200 = b.val :=
  by
    obtain ⟨b, h1, h2, _, _⟩ :=
      (prefix_length_is_length_byte [200, 10, 0, 0, 1] 5).1
        { plen := 5, pfx := ⟨10, 0, 0, 1⟩, prefixlen := 200 } (by decide)
    exact ⟨b, h1, h2⟩

/-! ## NLRI length and AS-path handles -/

/-- C16, the code at a failing input.  UP peer 7; payload of 12 bytes:
withdrawn-routes length 1, the withdrawn prefix 0.0.0.0/0, path-attribute length
3, an attribute of unrecognised type 99 without value, and the four NLRI bytes of
10.0.0.0/24.  The NLRI section is 4 bytes long, but after decoding it the NLRI
loop goes on one byte past the end of the message. -/
theorem nlri_overruns_after_withdrawn :
    (rde_update_dispatch env_le state_two_peers
        (update_imsg env_le 7 [0, 1, 0, 0, 3, 0, 99, 0, 24, 10, 0, 0])).is_oob = true ∧
    (rde_update_dispatch env_le state_two_peers
        (update_imsg env_le 7 [0, 1, 0, 0, 3, 0, 99, 0, 24, 10, 0, 0])).state.map
          (fun w => w.calls)
      = some [.prefix_remove 1 ⟨0, 0, 0, 0⟩ 0,
              .path_update 1 init_attr_flags ⟨10, 0, 0, 0⟩ 24] := by
  decide

/-- The same message without the withdrawn prefix is decoded as the claim says:
one NLRI prefix, then the return. -/
theorem nlri_exact_without_withdrawn :
    (rde_update_dispatch env_le state_two_peers
        (update_imsg env_le 7 [0, 0, 0, 3, 0, 99, 0, 24, 10, 0, 0])).value = some 0 ∧
    (rde_update_dispatch env_le state_two_peers
        (update_imsg env_le 7 [0, 0, 0, 3, 0, 99, 0, 24, 10, 0, 0])).state.map
          (fun w => w.calls)
      = some [.path_update 1 init_attr_flags ⟨10, 0, 0, 0⟩ 24, .aspath_destroy none] := by
  decide

/-- When the withdrawn-routes loop ends normally its counter is 0, whatever the
declared withdrawn-routes length was. -/
theorem withdrawn_loop_done_len (data : List u_char) (peer : Nat) :
    ∀ (fuel : Nat) (s s1 : prefix_loop_vars),
      withdrawn_loop data peer fuel s = .done s1 → s1.len = 0 := by
  intro fuel
  induction fuel with
  | zero => intro s s1 h; simp only [withdrawn_loop] at h; exact loop_end.noConfusion h
  | succ fuel ih =>
    intro s s1 h
    simp only [withdrawn_loop] at h
    by_cases hl : s.len > 0
    · rw [if_pos hl] at h
      cases hr : rde_update_get_prefix (data.drop s.p) s.len with
      | ok r => rw [hr] at h; exact ih _ _ h
      | err => rw [hr] at h; exact loop_end.noConfusion h
      | oob => rw [hr] at h; exact loop_end.noConfusion h
    · rw [if_neg hl] at h
      simp only [loop_end.done.injEq] at h
      rw [← h]; omega

/-- C17, the code at a failing input.  UP peer 7; no withdrawn routes, one
AS_PATH attribute (`02 01 fd e9`), then a truncated NLRI prefix (`18 0a`).  The
call fails (-1) after `aspath_create`, and no `aspath_destroy` was made. -/
theorem aspath_leaks_on_malformed_nlri :
    (rde_update_dispatch env_le state_two_peers
        (update_imsg env_le 7 [0, 0, 0, 7, 64, 2, 4, 2, 1, 253, 233, 24, 10])).value
      = some (-1) ∧
    (rde_update_dispatch env_le state_two_peers
        (update_imsg env_le 7 [0, 0, 0, 7, 64, 2, 4, 2, 1, 253, 233, 24, 10])).state.map
          (fun w => w.calls)
      = some [.aspath_verify [2, 1, 253, 233] 65000, .aspath_create [2, 1, 253, 233]] := by
  decide

/-- With two AS_PATH attributes in one message the second handle replaces the
first: only the second is destroyed. -/
theorem aspath_leaks_on_second_aspath :
    (rde_update_dispatch env_le state_two_peers
        (update_imsg env_le 7
          [0, 0, 0, 14, 64, 2, 4, 2, 1, 253, 233, 64, 2, 4, 2, 1, 253, 234,
           24, 10, 0, 0])).value = some 0 ∧
    (rde_update_dispatch env_le state_two_peers
        (update_imsg env_le 7
          [0, 0, 0, 14, 64, 2, 4, 2, 1, 253, 233, 64, 2, 4, 2, 1, 253, 234,
           24, 10, 0, 0])).state.map (fun w => w.calls)
      = some [.aspath_verify [2, 1, 253, 233] 65000, .aspath_create [2, 1, 253, 233],
              .aspath_verify [2, 1, 253, 234] 65000, .aspath_create [2, 1, 253, 234],
              .path_update 1
                { init_attr_flags with aspath := some ⟨[2, 1, 253, 234]⟩ } ⟨10, 0, 0, 0⟩ 24,
              .aspath_destroy (some ⟨[2, 1, 253, 234]⟩)] := by
  decide

/-! ## Progress of the decoders -/

/-- What `UPD_READ` of `k` bytes does to the counter `plen` when it cannot wrap. -/
theorem attr_four_consumed (buf : List u_char) (s : attr_vars) (s1 : attr_vars)
    (r : Option (List u_char)) (k : Nat) (hw : s.plen + k < 65536)
    (heq : UPD_READ buf s k = (r, s1)) : s1.plen = s.plen + k := by
  have hs1 : (UPD_READ buf s k).2 = s1 := by rw [heq]
  rw [UPD_READ_snd] at hs1
  rw [← hs1]
  exact Nat.mod_eq_of_lt hw

theorem attr_origin_consumed (buf : List u_char) (a : attr_flags) (attr_len : Nat)
    (s : attr_vars) (n : Nat) (a1 : attr_flags) (hw : s.plen + attr_len < 65536)
    (h : (attr_origin buf a attr_len s).ret = .ok (n, a1)) : n = s.plen + attr_len := by
  unfold attr_origin at h
  by_cases h1 : attr_len ≠ 1
  · rw [if_pos h1] at h
    exact Ret.noConfusion h
  · rw [if_neg h1] at h
    simp only [not_not] at h1
    subst h1
    split at h
    · rename_i o s1 heq
      simp only [Ret.ok.injEq, Prod.mk.injEq] at h
      rw [← h.1]
      exact attr_four_consumed buf s s1 _ 1 hw heq
    · exact Ret.noConfusion h

theorem attr_nexthop_consumed (buf : List u_char) (a : attr_flags) (attr_len : Nat)
    (s : attr_vars) (n : Nat) (a1 : attr_flags) (hw : s.plen + attr_len < 65536)
    (h : (attr_nexthop buf a attr_len s).ret = .ok (n, a1)) : n = s.plen + attr_len := by
  unfold attr_nexthop at h
  by_cases h1 : attr_len ≠ 4
  · rw [if_pos h1] at h
    exact Ret.noConfusion h
  · rw [if_neg h1] at h
    simp only [not_not] at h1
    subst h1
    split at h
    · rename_i b0 b1 b2 b3 s1 heq
      simp only [Ret.ok.injEq, Prod.mk.injEq] at h
      rw [← h.1]
      exact attr_four_consumed buf s s1 _ 4 hw heq
    · exact Ret.noConfusion h

theorem attr_med_consumed (host : byte_order) (buf : List u_char) (a : attr_flags)
    (attr_len : Nat) (s : attr_vars) (n : Nat) (a1 : attr_flags)
    (hw : s.plen + attr_len < 65536)
    (h : (attr_med host buf a attr_len s).ret = .ok (n, a1)) : n = s.plen + attr_len := by
  unfold attr_med at h
  by_cases h1 : attr_len ≠ 4
  · rw [if_pos h1] at h
    exact Ret.noConfusion h
  · rw [if_neg h1] at h
    simp only [not_not] at h1
    subst h1
    split at h
    · rename_i b0 b1 b2 b3 s1 heq
      simp only [Ret.ok.injEq, Prod.mk.injEq] at h
      rw [← h.1]
      exact attr_four_consumed buf s s1 _ 4 hw heq
    · exact Ret.noConfusion h

theorem attr_localpref_consumed (host : byte_order) (buf : List u_char) (a : attr_flags)
    (attr_len : Nat) (s : attr_vars) (n : Nat) (a1 : attr_flags)
    (hw : s.plen + attr_len < 65536)
    (h : (attr_localpref host buf a attr_len s).ret = .ok (n, a1)) :
    n = s.plen + attr_len := by
  unfold attr_localpref at h
  by_cases h1 : attr_len ≠ 4
  · rw [if_pos h1] at h
    exact Ret.noConfusion h
  · rw [if_neg h1] at h
    simp only [not_not] at h1
    subst h1
    split at h
    · rename_i b0 b1 b2 b3 s1 heq
      simp only [Ret.ok.injEq, Prod.mk.injEq] at h
      rw [← h.1]
      exact attr_four_consumed buf s s1 _ 4 hw heq
    · exact Ret.noConfusion h

theorem attr_aggregator_consumed (host : byte_order) (buf : List u_char) (a : attr_flags)
    (attr_len : Nat) (s : attr_vars) (n : Nat) (a1 : attr_flags)
    (hw : s.plen + attr_len < 65536)
    (h : (attr_aggregator host buf a attr_len s).ret = .ok (n, a1)) :
    n = s.plen + attr_len := by
  unfold attr_aggregator at h
  by_cases h1 : attr_len ≠ 6
  · rw [if_pos h1] at h
    exact Ret.noConfusion h
  · rw [if_neg h1] at h
    simp only [not_not] at h1
    subst h1
    split at h
    · rename_i c0 c1 s1 heq
      have e1 := attr_four_consumed buf s s1 _ 2 (by omega) heq
      split at h
      · rename_i b0 b1 b2 b3 s2 heq2
        have e2 := attr_four_consumed buf s1 s2 _ 4 (by omega) heq2
        simp only [Ret.ok.injEq, Prod.mk.injEq] at h
        rw [← h.1, e2, e1]
      · exact Ret.noConfusion h
    · exact Ret.noConfusion h

theorem attr_aspath_consumed (aspath_verify : List u_char → Nat → Int) (conf_as : Nat)
    (buf : List u_char) (a : attr_flags) (attr_len : Nat) (s : attr_vars) (n : Nat)
    (a1 : attr_flags) (hw : s.plen + attr_len < 65536)
    (h : (attr_aspath aspath_verify conf_as buf a attr_len s).ret = .ok (n, a1)) :
    n = s.plen + attr_len := by
  unfold attr_aspath at h
  by_cases h1 : s.p + attr_len ≤ buf.length
  · rw [if_pos h1] at h
    by_cases h2 : aspath_verify ((buf.drop s.p).take attr_len) conf_as ≠ 0
    · rw [if_pos h2] at h
      exact Ret.noConfusion h
    · rw [if_neg h2] at h
      simp only [Ret.ok.injEq, Prod.mk.injEq] at h
      rw [← h.1]
      exact Nat.mod_eq_of_lt hw
  · rw [if_neg h1] at h
    exact Ret.noConfusion h

/-- A successful `switch` consumed the header and exactly `attr_len` value bytes,
all within `len`; the 16-bit counter `plen` did not wrap. -/
theorem attr_switch_consumed (host : byte_order) (aspath_verify : List u_char → Nat → Int)
    (conf_as : Nat) (buf : List u_char) (len : Nat) (a : attr_flags)
    (type attr_len : Nat) (s : attr_vars) (n : Nat) (a1 : attr_flags)
    (hlen : len < 65536)
    (h : (attr_switch host aspath_verify conf_as buf len a type attr_len s).ret
      = .ok (n, a1)) :
    n = s.plen + attr_len ∧ s.plen + attr_len ≤ len := by
  unfold attr_switch at h
  split_ifs at h with hc
  · exact ⟨attr_origin_consumed _ _ _ _ _ _ (by omega) h, by omega⟩
  · exact ⟨attr_aspath_consumed _ _ _ _ _ _ _ _ (by omega) h, by omega⟩
  · exact ⟨attr_nexthop_consumed _ _ _ _ _ _ (by omega) h, by omega⟩
  · exact ⟨attr_med_consumed _ _ _ _ _ _ _ (by omega) h, by omega⟩
  · exact ⟨attr_localpref_consumed _ _ _ _ _ _ _ (by omega) h, by omega⟩
  · unfold attr_atomic_aggregate at h
    by_cases h0 : attr_len > 0
    · rw [if_pos h0] at h
      exact Ret.noConfusion h
    · rw [if_neg h0] at h
      simp only [Ret.ok.injEq, Prod.mk.injEq] at h
      exact ⟨by omega, by omega⟩
  · exact ⟨attr_aggregator_consumed _ _ _ _ _ _ _ (by omega) h, by omega⟩
  · unfold attr_default at h
    simp only [Ret.ok.injEq, Prod.mk.injEq] at h
    have := Nat.mod_eq_of_lt (show s.plen + attr_len < 65536 by omega)
    exact ⟨by omega, by omega⟩

/-- A successful `rde_update_get_attr` with `len` below 2^16 (it is a `u_int16_t`)
returns at least the three header bytes. -/
theorem get_attr_consumed (host : byte_order) (aspath_verify : List u_char → Nat → Int)
    (conf_as : Nat) (buf : List u_char) (len : Nat) (a : attr_flags) (n : Nat)
    (a1 : attr_flags) (hlen : len < 65536)
    (h : (rde_update_get_attr_traced host aspath_verify conf_as buf len a).ret
      = .ok (n, a1)) :
    3 ≤ n ∧ n ≤ len := by
  unfold rde_update_get_attr_traced at h
  by_cases h3 : len < 3
  · rw [if_pos h3] at h
    exact Ret.noConfusion h
  · rw [if_neg h3] at h
    split at h
    · rename_i flags s1 heq1
      have e1 := attr_four_consumed buf _ s1 _ 1 (by simp) heq1
      simp only [] at e1
      split at h
      · rename_i type s2 heq2
        have e2 := attr_four_consumed buf s1 s2 _ 1 (by omega) heq2
        by_cases hext : flags.val &&& ATTR_EXTLEN ≠ 0
        · rw [if_pos hext] at h
          by_cases hshort : (len : Int) - (s2.plen : Int) < 2
          · rw [if_pos hshort] at h
            exact Ret.noConfusion h
          · rw [if_neg hshort] at h
            split at h
            · rename_i l0 l1 s3 heq3
              have e3 := attr_four_consumed buf s2 s3 _ 2 (by omega) heq3
              have := attr_switch_consumed _ _ _ _ _ _ _ _ _ _ _ hlen h
              omega
            · exact Ret.noConfusion h
        · rw [if_neg hext] at h
          split at h
          · rename_i tmp8 s3 heq3
            have e3 := attr_four_consumed buf s2 s3 _ 1 (by omega) heq3
            have := attr_switch_consumed _ _ _ _ _ _ _ _ _ _ _ hlen h
            omega
          · exact Ret.noConfusion h
      · exact Ret.noConfusion h
    · exact Ret.noConfusion h
theorem u16_sub_exact (x y : Nat) (h : y ≤ x) (hx : x < 65536) : u16_sub x y = x - y := by
  unfold u16_sub
  omega

theorem u16_sub_lt (x y : Nat) : u16_sub x y < 65536 := by
  unfold u16_sub
  omega

theorem u16_sub_le (x y : Nat) (h : y ≤ x) : u16_sub x y ≤ x - y := by
  unfold u16_sub
  omega

theorem ntohs_lt (host : byte_order) (x : Nat) : ntohs host x < 65536 := by
  cases host <;> simp only [ntohs] <;> omega

theorem get_prefix_consumed (buf : List u_char) (len : Nat) (r : prefix_result)
    (h : rde_update_get_prefix buf len = .ok r) :
    1 ≤ r.plen ∧ r.plen ≤ len ∧ r.plen ≤ 5 :=
  (get_prefix_traced_ok buf len).2.1 r h

theorem withdrawn_loop_step (data : List u_char) (peer fuel : Nat) (s : prefix_loop_vars)
    (r : prefix_result) (h0 : 0 < s.len) (hs : s.len < 65536)
    (hr : rde_update_get_prefix (data.drop s.p) s.len = .ok r) :
    withdrawn_loop data peer (fuel + 1) s =
      withdrawn_loop data peer fuel
        { p := s.p + r.plen, len := s.len - r.plen,
          calls := s.calls ++ [.prefix_remove peer r.pfx r.prefixlen] } := by
  have hb := get_prefix_consumed _ _ _ hr
  rw [withdrawn_loop, if_pos h0, hr]
  simp only [u16_sub_exact s.len r.plen hb.2.1 hs]

theorem nlri_loop_step (data : List u_char) (peer : Nat) (attrs : attr_flags) (fuel : Nat)
    (s : prefix_loop_vars) (r : prefix_result) (h0 : 0 < s.len) (hs : s.len < 65536)
    (hr : rde_update_get_prefix (data.drop s.p) s.len = .ok r) :
    nlri_loop data peer attrs (fuel + 1) s =
      nlri_loop data peer attrs fuel
        { p := s.p + r.plen, len := s.len - r.plen,
          calls := s.calls ++ [.path_update peer attrs r.pfx r.prefixlen] } := by
  have hb := get_prefix_consumed _ _ _ hr
  rw [nlri_loop, if_pos h0, hr]
  simp only [u16_sub_exact s.len r.plen hb.2.1 hs]

theorem attr_loop_step (env : rde_env) (conf_as : Nat) (data : List u_char) (fuel : Nat)
    (s : attr_loop_vars) (log : List access) (calls : List call) (pos : Nat)
    (attrs : attr_flags) (h0 : 0 < s.len) (hs : s.len < 65536)
    (hr : rde_update_get_attr_traced env.host env.aspath_verify conf_as (data.drop s.p)
      s.len s.attrs = ⟨log, calls, .ok (pos, attrs)⟩) :
    attr_loop env conf_as data (fuel + 1) s =
      attr_loop env conf_as data fuel
        { p := s.p + pos, len := s.len - pos, attrs := attrs, calls := s.calls ++ calls } := by
  have hb := get_attr_consumed env.host env.aspath_verify conf_as (data.drop s.p) s.len
    s.attrs pos attrs hs (by rw [hr])
  rw [attr_loop, if_pos h0, hr]
  simp only [u16_sub_exact s.len pos hb.2 hs]

theorem withdrawn_loop_fuel (data : List u_char) (peer : Nat) :
    ∀ (fuel : Nat) (s : prefix_loop_vars), s.len < fuel →
      withdrawn_loop data peer fuel s ≠ .nofuel := by
  intro fuel
  induction fuel with
  | zero => intro s hs; omega
  | succ fuel ih =>
    intro s hs
    rw [withdrawn_loop]
    by_cases h0 : s.len > 0
    · rw [if_pos h0]
      cases hr : rde_update_get_prefix (data.drop s.p) s.len with
      | err => simp
      | oob => simp
      | ok r =>
        have hb := get_prefix_consumed _ _ _ hr
        have hle := u16_sub_le s.len r.plen hb.2.1
        exact ih _ (by show u16_sub s.len r.plen < fuel; omega)
    · rw [if_neg h0]; simp

theorem nlri_loop_fuel (data : List u_char) (peer : Nat) (attrs : attr_flags) :
    ∀ (fuel : Nat) (s : prefix_loop_vars), s.len < fuel →
      nlri_loop data peer attrs fuel s ≠ .nofuel := by
  intro fuel
  induction fuel with
  | zero => intro s hs; omega
  | succ fuel ih =>
    intro s hs
    rw [nlri_loop]
    by_cases h0 : s.len > 0
    · rw [if_pos h0]
      cases hr : rde_update_get_prefix (data.drop s.p) s.len with
      | err => simp
      | oob => simp
      | ok r =>
        have hb := get_prefix_consumed _ _ _ hr
        have hle := u16_sub_le s.len r.plen hb.2.1
        exact ih _ (by show u16_sub s.len r.plen < fuel; omega)
    · rw [if_neg h0]; simp

theorem attr_loop_fuel (env : rde_env) (conf_as : Nat) (data : List u_char) :
    ∀ (fuel : Nat) (s : attr_loop_vars), s.len < 65536 → s.len < fuel →
      attr_loop env conf_as data fuel s ≠ .nofuel := by
  intro fuel
  induction fuel with
  | zero => intro s _ hs; omega
  | succ fuel ih =>
    intro s h16 hs
    rw [attr_loop]
    by_cases h0 : s.len > 0
    · rw [if_pos h0]
      cases hr : rde_update_get_attr_traced env.host env.aspath_verify conf_as
          (data.drop s.p) s.len s.attrs with
      | mk log calls ret =>
        cases ret with
        | err => simp
        | oob => simp
        | ok v =>
          obtain ⟨pos, attrs⟩ := v
          have hb := get_attr_consumed env.host env.aspath_verify conf_as (data.drop s.p)
            s.len s.attrs pos attrs h16 (by rw [hr])
          have hle := u16_sub_le s.len pos hb.2
          exact ih _ (u16_sub_lt _ _) (by show u16_sub s.len pos < fuel; omega)
    · rw [if_neg h0]; simp

theorem dispatch_tail_fuel (env : rde_env) (w : rde_state) (hdr_len : Nat)
    (data : List u_char) (peer peerid p withdrawn_len : Nat) (calls : List call) :
    rde_update_dispatch_tail env w hdr_len data peer peerid p withdrawn_len calls
      ≠ .nofuel := by
  unfold rde_update_dispatch_tail
  split
  · rename_i b0 b1 _ _
    simp only []
    split_ifs with h1 h2
    · simp
    · simp
    · have ha := attr_loop_fuel env w.conf.local_as data
        (ntohs env.host (memcpy16 env.host b0 b1) + 1)
        { p := p + 2, len := ntohs env.host (memcpy16 env.host b0 b1),
          attrs := init_attr_flags, calls := calls }
        (ntohs_lt _ _) (Nat.lt_succ_self _)
      split
      · rename_i heq; exact absurd heq ha
      · simp
      · simp
      · rename_i s _
        have hn := nlri_loop_fuel data peer s.attrs _
          { p := s.p, len := (((hdr_len : Int) - (env.IMSG_HEADER_SIZE : Int) - 4
              - (withdrawn_len : Int)
              - ((ntohs env.host (memcpy16 env.host b0 b1) : Nat) : Int)) % 65536).toNat,
            calls := s.calls } (Nat.lt_succ_self _)
        split
        · rename_i heq; exact absurd heq hn
        · simp
        · simp
        · simp
  · simp

theorem dispatch_fuel (env : rde_env) (w : rde_state) (m : imsg) :
    rde_update_dispatch env w m ≠ .nofuel := by
  unfold rde_update_dispatch
  split
  · simp
  · split
    · simp
    · split_ifs with hup
      · simp
      · split
        · rename_i data _
          split
          · rename_i b0 b1 _ _
            simp only []
            split_ifs with hlen
            · simp
            · split
              · rename_i heq
                exact absurd heq (withdrawn_loop_fuel _ _ _ _ (Nat.lt_succ_self _))
              · simp
              · simp
              · exact dispatch_tail_fuel _ _ _ _ _ _ _ _ _
          · simp
        · simp

/-- C20 (the dispatcher makes progress and terminates).  A successful
`rde_update_get_prefix` with declared length `len` returns a count between 1 and
`min len 5`; a successful `rde_update_get_attr` with declared length `len` (a
`u_int16_t`, so below 65536) returns a count between 3 and `len`, so its 16-bit
counter did not wrap; one iteration of each of the three decode loops of
`rde_update_dispatch` with a successful decode continues with the remaining
length reduced by exactly that count, a strictly smaller number; each loop
started with more fuel than remaining length ends without running out of it; and
`rde_update_dispatch` ends on every input (it returns or steps outside the
message, the model never runs out of fuel). -/
theorem dispatcher_terminates :
    (∀ (buf : List u_char) (len : Nat) (r : prefix_result),
      rde_update_get_prefix buf len = .ok r → 1 ≤ r.plen ∧ r.plen ≤ min len 5) ∧
    (∀ (host : byte_order) (verify : List u_char → Nat → Int) (conf_as : Nat)
        (buf : List u_char) (len : Nat) (a : attr_flags) (n : Nat) (a1 : attr_flags),
      len < 65536 → rde_update_get_attr host verify conf_as buf len a = .ok (n, a1) →
      3 ≤ n ∧ n ≤ len) ∧
    (∀ (data : List u_char) (peer fuel : Nat) (s : prefix_loop_vars) (r : prefix_result),
      0 < s.len → s.len < 65536 →
      rde_update_get_prefix (data.drop s.p) s.len = .ok r →
      withdrawn_loop data peer (fuel + 1) s =
        withdrawn_loop data peer fuel
          { p := s.p + r.plen, len := s.len - r.plen,
            calls := s.calls ++ [.prefix_remove peer r.pfx r.prefixlen] } ∧
      r.plen ≤ s.len ∧ s.len - r.plen < s.len) ∧
    (∀ (env : rde_env) (conf_as : Nat) (data : List u_char) (fuel : Nat)
        (s : attr_loop_vars) (n : Nat) (a1 : attr_flags),
      0 < s.len → s.len < 65536 →
      rde_update_get_attr env.host env.aspath_verify conf_as (data.drop s.p) s.len s.attrs
        = .ok (n, a1) →
      (∃ calls, attr_loop env conf_as data (fuel + 1) s =
        attr_loop env conf_as data fuel
          { p := s.p + n, len := s.len - n, attrs := a1, calls := s.calls ++ calls }) ∧
      n ≤ s.len ∧ s.len - n < s.len) ∧
    (∀ (data : List u_char) (peer : Nat) (attrs : attr_flags) (fuel : Nat)
        (s : prefix_loop_vars) (r : prefix_result),
      0 < s.len → s.len < 65536 →
      rde_update_get_prefix (data.drop s.p) s.len = .ok r →
      nlri_loop data peer attrs (fuel + 1) s =
        nlri_loop data peer attrs fuel
          { p := s.p + r.plen, len := s.len - r.plen,
            calls := s.calls ++ [.path_update peer attrs r.pfx r.prefixlen] } ∧
      r.plen ≤ s.len ∧ s.len - r.plen < s.len) ∧
    (∀ (data : List u_char) (peer fuel : Nat) (s : prefix_loop_vars),
      s.len < fuel → withdrawn_loop data peer fuel s ≠ .nofuel) ∧
    (∀ (env : rde_env) (conf_as : Nat) (data : List u_char) (fuel : Nat)
        (s : attr_loop_vars),
      s.len < 65536 → s.len < fuel → attr_loop env conf_as data fuel s ≠ .nofuel) ∧
    (∀ (data : List u_char) (peer : Nat) (attrs : attr_flags) (fuel : Nat)
        (s : prefix_loop_vars),
      s.len < fuel → nlri_loop data peer attrs fuel s ≠ .nofuel) ∧
    (∀ (env : rde_env) (w : rde_state) (m : imsg),
      rde_update_dispatch env w m ≠ .nofuel ∧
      ∃ w1, (rde_update_dispatch env w m).state = some w1) := by
  refine ⟨?_, ?_, ?_, ?_, ?_, ?_, ?_, ?_, ?_⟩
  · intro buf len r h
    have := get_prefix_consumed buf len r h
    omega
  · intro host verify conf_as buf len a n a1 hlen h
    exact get_attr_consumed host verify conf_as buf len a n a1 hlen h
  · intro data peer fuel s r h0 hs hr
    have hb := get_prefix_consumed _ _ _ hr
    exact ⟨withdrawn_loop_step data peer fuel s r h0 hs hr, hb.2.1, by omega⟩
  · intro env conf_as data fuel s n a1 h0 hs hr
    have hb := get_attr_consumed _ _ _ _ _ _ _ _ hs hr
    refine ⟨?_, hb.2, by omega⟩
    unfold rde_update_get_attr at hr
    cases hrun : rde_update_get_attr_traced env.host env.aspath_verify conf_as
        (data.drop s.p) s.len s.attrs with
    | mk log calls ret =>
      rw [hrun] at hr
      simp only [] at hr
      subst hr
      exact ⟨calls, attr_loop_step env conf_as data fuel s log calls n a1 h0 hs hrun⟩
  · intro data peer attrs fuel s r h0 hs hr
    have hb := get_prefix_consumed _ _ _ hr
    exact ⟨nlri_loop_step data peer attrs fuel s r h0 hs hr, hb.2.1, by omega⟩
  · intro data peer fuel s h
    exact withdrawn_loop_fuel data peer fuel s h
  · intro env conf_as data fuel s h16 h
    exact attr_loop_fuel env conf_as data fuel s h16 h
  · intro data peer attrs fuel s h
    exact nlri_loop_fuel data peer attrs fuel s h
  · intro env w m
    have h := dispatch_fuel env w m
    refine ⟨h, ?_⟩
    cases hr : rde_update_dispatch env w m with
    | ret v w1 => exact ⟨w1, rfl⟩
    | fatal msg w1 => exact ⟨w1, rfl⟩
    | oob w1 => exact ⟨w1, rfl⟩
    | nofuel => exact absurd hr h

/-- An instance of `dispatcher_terminates`: the UPDATE announcing 10.0.0.0/24 with
an ORIGIN attribute returns, and its single NLRI prefix consumed four bytes. -/
theorem dispatcher_terminates_example :
    (rde_update_dispatch env_le state_two_peers
      (update_imsg env_le 7 [0, 0, 0, 4, 64, 1, 1, 0, 24, 10, 0, 0])).state.isSome = true ∧
    (1 ≤ 4 ∧ 4 ≤ min 4 5) := by
  obtain ⟨h1, _, _, _, _, _, _, _, h9⟩ := dispatcher_terminates
  refine ⟨?_, h1 [24, 10, 0, 0] 4 { plen := 4, pfx := ⟨10, 0, 0, 0⟩, prefixlen := 24 }
    (by decide)⟩
  obtain ⟨w1, hw1⟩ := (h9 env_le state_two_peers
    (update_imsg env_le 7 [0, 0, 0, 4, 64, 1, 1, 0, 24, 10, 0, 0])).2
  rw [hw1]
  rfl
/-! ## The registry invariant holds in every reachable state -/

theorem hash_size_ge : ∀ (fuel hs hashsize r : Nat),
    hash_size fuel hs hashsize = some r → hs ≤ r := by
  intro fuel
  induction fuel with
  | zero =>
    intro hs hashsize r h
    simp only [hash_size] at h
    exact Option.noConfusion h
  | succ fuel ih =>
    intro hs hashsize r h
    simp only [hash_size] at h
    by_cases hlt : hs < hashsize
    · rw [if_pos hlt] at h
      have := ih _ _ _ h
      omega
    · rw [if_neg hlt] at h
      simp only [Option.some.injEq] at h
      omega

theorem registry_ok_empty (w : rde_state) (hs : Nat) (hpos : 1 ≤ hs) :
    registry_ok
      { w with
        peertable := { peer_hashtbl := List.replicate hs [], peer_hashmask := hs - 1 }
        peerlist := []
        conf := { w.conf with peers := [] } } := by
  constructor
  · show (List.replicate hs ([] : List Nat)).length = hs - 1 + 1
    rw [List.length_replicate]; omega
  · exact List.nodup_nil
  · intro ptr hp
    exact absurd hp (List.not_mem_nil ptr)
  · intro i b hb ptr hptr
    have hb1 : (List.replicate hs ([] : List Nat))[i]? = some b := hb
    have hmem := List.getElem?_mem hb1
    rw [List.eq_of_mem_replicate hmem] at hptr
    exact absurd hptr (List.not_mem_nil ptr)
  · intro b hb
    have hb1 : b ∈ List.replicate hs ([] : List Nat) := hb
    rw [List.eq_of_mem_replicate hb1]
    exact List.nodup_nil
  · intro p q pr qr hp
    exact absurd hp (List.not_mem_nil p)
  · intro ptr hp
    exact absurd hp (List.not_mem_nil ptr)

theorem peer_add_returns (w w1 : rde_state) (id p : Nat) (p_conf : peer_config)
    (h : peer_add w id p_conf = .ret p w1) :
    peer_get w id = none ∧ w1 = peer_add_state w id p_conf := by
  by_cases hg : peer_get w id = none
  · rw [peer_add_fresh w id p_conf hg] at h
    simp only [exec.ret.injEq] at h
    exact ⟨hg, h.2.symm⟩
  · unfold peer_add at h
    rw [if_pos hg] at h
    exact exec.noConfusion h

theorem registry_ok_add_ret (w w1 : rde_state) (hok : registry_ok w) (id p : Nat)
    (p_conf : peer_config) (hid : p_conf.id = id)
    (h : peer_add w id p_conf = .ret p w1) : registry_ok w1 := by
  obtain ⟨hg, rfl⟩ := peer_add_returns w w1 id p p_conf h
  exact registry_ok_peer_add w hok id p_conf hg hid

theorem registry_ok_init_loop : ∀ (l : List peer_config) (w w1 : rde_state),
    registry_ok w → peer_init_loop l w = .ret () w1 → registry_ok w1 := by
  intro l
  induction l with
  | nil =>
    intro w w1 hok h
    simp only [peer_init_loop, exec.ret.injEq, true_and] at h
    rw [← h]; exact hok
  | cons pc l ih =>
    intro w w1 hok h
    rw [peer_init_loop] at h
    cases hadd : peer_add w pc.id { pc with reconf_action := .RECONF_NONE } with
    | ret p w2 =>
      rw [hadd] at h
      exact ih w2 w1 (registry_ok_add_ret w w2 hok pc.id p
        { pc with reconf_action := .RECONF_NONE } rfl hadd) h
    | fatal msg w2 => rw [hadd] at h; exact exec.noConfusion h
    | oob w2 => rw [hadd] at h; exact exec.noConfusion h
    | nofuel => rw [hadd] at h; exact exec.noConfusion h

theorem registry_ok_init (w0 w : rde_state) (hashsize : Nat)
    (h : peer_init w0 hashsize = .ret () w) : registry_ok w := by
  unfold peer_init at h
  cases hhs : hash_size (hashsize + 1) 1 hashsize with
  | none => rw [hhs] at h; exact exec.noConfusion h
  | some hs =>
    rw [hhs] at h
    exact registry_ok_init_loop _ _ w
      (registry_ok_empty w0 hs (hash_size_ge _ _ _ _ hhs)) h

theorem registry_ok_remove_ret (w w1 : rde_state) (hok : registry_ok w) (ptr : Nat)
    (h : peer_remove w ptr = .ret () w1) : registry_ok w1 := by
  unfold peer_remove at h
  cases hh : w.heap ptr with
  | none => rw [hh] at h; exact exec.noConfusion h
  | some pr =>
    rw [hh] at h
    simp only [] at h
    by_cases hup : pr.state = .PEER_UP
    · rw [if_pos hup] at h
      simp only [exec.ret.injEq, true_and] at h
      rw [← h]
      exact registry_ok_heap_set w hok ptr pr
        { pr with conf := { pr.conf with reconf_action := .RECONF_DELETE } } hh rfl
    · rw [if_neg hup] at h
      by_cases hg : peer_get w pr.conf.id = none
      · rw [if_pos hg] at h; exact exec.noConfusion h
      · rw [if_neg hg] at h
        by_cases hp : pr.path_h ≠ []
        · rw [if_pos hp] at h; exact exec.noConfusion h
        · rw [if_neg hp] at h
          simp only [exec.ret.injEq, true_and] at h
          rw [← h]
          exact registry_ok_unlink w hok ptr

theorem registry_ok_up_ret (w w1 : rde_state) (hok : registry_ok w) (id rid : Nat)
    (h : peer_up w id rid = .ret () w1) : registry_ok w1 := by
  unfold peer_up at h
  cases hg : peer_get w id with
  | none =>
    rw [hg] at h
    simp only [exec.ret.injEq, true_and] at h
    rw [← h]
    exact registry_ok_calls w hok _
  | some ptr =>
    rw [hg] at h
    simp only [] at h
    cases hh : w.heap ptr with
    | none => rw [hh] at h; exact exec.noConfusion h
    | some pr =>
      rw [hh] at h
      simp only [exec.ret.injEq, true_and] at h
      rw [← h]
      exact registry_ok_heap_set w hok ptr pr
        { pr with remote_bgpid := rid, state := .PEER_UP } hh rfl

theorem registry_ok_down_ret (w w1 : rde_state) (hok : registry_ok w) (id : Nat)
    (h : peer_down w id = .ret () w1) : registry_ok w1 := by
  cases hg : peer_get w id with
  | none =>
    unfold peer_down at h
    rw [hg] at h
    simp only [exec.ret.injEq, true_and] at h
    rw [← h]
    exact registry_ok_calls w hok _
  | some ptr =>
    cases hh : w.heap ptr with
    | none =>
      unfold peer_down at h
      rw [hg] at h
      simp only [] at h
      rw [hh] at h
      exact exec.noConfusion h
    | some pr =>
      rw [peer_down_known w id ptr pr hg hh] at h
      have hmid : registry_ok
          { w with
            heap := heap_set w.heap ptr
              (some { pr with remote_bgpid := 0, state := .PEER_DOWN, path_h := [] })
            calls := w.calls ++ pr.path_h.map call.path_remove } :=
        registry_ok_calls _ (registry_ok_heap_set w hok ptr pr
          { pr with remote_bgpid := 0, state := .PEER_DOWN, path_h := [] } hh rfl) _
      by_cases hd : pr.conf.reconf_action = .RECONF_DELETE
      · rw [if_pos hd] at h
        exact registry_ok_remove_ret _ w1 hmid ptr h
      · rw [if_neg hd] at h
        simp only [exec.ret.injEq, true_and] at h
        rw [← h]
        exact hmid

theorem registry_ok_mark_keep (w w1 : rde_state) (hok : registry_ok w) (p : Nat)
    (h : mark_keep w p = .ret () w1) : registry_ok w1 := by
  unfold mark_keep at h
  cases hh : w.heap p with
  | none => rw [hh] at h; exact exec.noConfusion h
  | some pr =>
    rw [hh] at h
    simp only [exec.ret.injEq, true_and] at h
    rw [← h]
    exact registry_ok_heap_set w hok p pr
      { pr with conf := { pr.conf with reconf_action := .RECONF_KEEP } } hh rfl

theorem registry_ok_sweep_ret : ∀ (l : List Nat) (w w1 : rde_state),
    registry_ok w → reconf_sweep l w = .ret () w1 → registry_ok w1 := by
  intro l
  induction l with
  | nil =>
    intro w w1 hok h
    simp only [reconf_sweep, exec.ret.injEq, true_and] at h
    rw [← h]; exact hok
  | cons p np ih =>
    intro w w1 hok h
    rw [reconf_sweep] at h
    cases hh : w.heap p with
    | none => rw [hh] at h; exact exec.noConfusion h
    | some pr =>
      rw [hh] at h
      simp only [] at h
      cases hact : pr.conf.reconf_action with
      | RECONF_NONE =>
        rw [hact] at h
        simp only [] at h
        cases hrem : peer_remove w p with
        | ret u w2 =>
          rw [hrem] at h
          exact ih w2 w1 (registry_ok_remove_ret w w2 hok p hrem) h
        | fatal msg w2 => rw [hrem] at h; exact exec.noConfusion h
        | oob w2 => rw [hrem] at h; exact exec.noConfusion h
        | nofuel => rw [hrem] at h; exact exec.noConfusion h
      | RECONF_KEEP =>
        rw [hact] at h
        exact ih _ w1 (registry_ok_heap_set w hok p pr
          { pr with conf := { pr.conf with reconf_action := .RECONF_NONE } } hh rfl) h
      | RECONF_DELETE =>
        rw [hact] at h
        exact ih w w1 hok h
theorem dispatch_tail_frame (env : rde_env) (w : rde_state) (hdr_len : Nat)
    (data : List u_char) (peer peerid p withdrawn_len : Nat) (calls : List call)
    (v : Int) (w1 : rde_state)
    (h : rde_update_dispatch_tail env w hdr_len data peer peerid p withdrawn_len calls
      = .ret v w1) :
    w1.heap = w.heap ∧ w1.brk = w.brk ∧ w1.peertable = w.peertable ∧
      w1.peerlist = w.peerlist := by
  unfold rde_update_dispatch_tail at h
  split at h
  · simp only [] at h
    split_ifs at h with h1 h2
    · simp only [exec.ret.injEq] at h
      rw [← h.2]; exact ⟨rfl, rfl, rfl, rfl⟩
    · simp only [exec.ret.injEq] at h
      rw [← h.2]; exact ⟨rfl, rfl, rfl, rfl⟩
    · split at h
      · exact exec.noConfusion h
      · exact exec.noConfusion h
      · simp only [exec.ret.injEq] at h
        rw [← h.2]; exact ⟨rfl, rfl, rfl, rfl⟩
      · split at h
        · exact exec.noConfusion h
        · exact exec.noConfusion h
        · simp only [exec.ret.injEq] at h
          rw [← h.2]; exact ⟨rfl, rfl, rfl, rfl⟩
        · simp only [exec.ret.injEq] at h
          rw [← h.2]; exact ⟨rfl, rfl, rfl, rfl⟩
  · exact exec.noConfusion h

theorem dispatch_frame (env : rde_env) (w : rde_state) (m : imsg) (v : Int)
    (w1 : rde_state) (h : rde_update_dispatch env w m = .ret v w1) :
    w1.heap = w.heap ∧ w1.brk = w.brk ∧ w1.peertable = w.peertable ∧
      w1.peerlist = w.peerlist := by
  unfold rde_update_dispatch at h
  split at h
  · simp only [exec.ret.injEq] at h
    rw [← h.2]; exact ⟨rfl, rfl, rfl, rfl⟩
  · split at h
    · exact exec.noConfusion h
    · split_ifs at h with hup
      · simp only [exec.ret.injEq] at h
        rw [← h.2]; exact ⟨rfl, rfl, rfl, rfl⟩
      · split at h
        · split at h
          · simp only [] at h
            split_ifs at h with hlen
            · simp only [exec.ret.injEq] at h
              rw [← h.2]; exact ⟨rfl, rfl, rfl, rfl⟩
            · split at h
              · exact exec.noConfusion h
              · exact exec.noConfusion h
              · simp only [exec.ret.injEq] at h
                rw [← h.2]; exact ⟨rfl, rfl, rfl, rfl⟩
              · exact dispatch_tail_frame _ _ _ _ _ _ _ _ _ _ _ h
          · exact exec.noConfusion h
        · exact exec.noConfusion h

theorem registry_ok_mrt_end (w w1 : rde_state) (hok : registry_ok w) (idx : Nat) (m : imsg)
    (h : mrt_end w idx m = .ret () w1) : registry_ok w1 := by
  unfold mrt_end at h
  by_cases hi : idx ≠ PFD_PIPE_MAIN
  · rw [if_pos hi] at h; exact exec.noConfusion h
  · rw [if_neg hi] at h
    simp only [exec.ret.injEq, true_and] at h
    rw [← h]
    exact registry_ok_of_eq w _ hok rfl rfl rfl rfl

theorem registry_ok_imsg_ret (env : rde_env) (w w1 : rde_state) (hok : registry_ok w)
    (idx : Nat) (m : imsg) (h : rde_dispatch_imsg env w idx m = .ret () w1) :
    registry_ok w1 := by
  unfold rde_dispatch_imsg at h
  split at h
  · -- IMSG_RECONF_CONF
    by_cases hi : idx ≠ PFD_PIPE_MAIN
    · rw [if_pos hi] at h; exact exec.noConfusion h
    · rw [if_neg hi] at h
      split at h
      · simp only [exec.ret.injEq, true_and] at h
        rw [← h]
        exact registry_ok_of_eq w _ hok rfl rfl rfl rfl
      · exact exec.noConfusion h
  · -- IMSG_RECONF_PEER
    by_cases hi : idx ≠ PFD_PIPE_MAIN
    · rw [if_pos hi] at h; exact exec.noConfusion h
    · rw [if_neg hi] at h
      split at h
      · rename_i pconf _
        split at h
        · cases hadd : peer_add w pconf.id pconf with
          | ret p w2 =>
            rw [hadd] at h
            exact registry_ok_mark_keep w2 w1
              (registry_ok_add_ret w w2 hok pconf.id p pconf rfl hadd) p h
          | fatal msg w2 => rw [hadd] at h; exact exec.noConfusion h
          | oob w2 => rw [hadd] at h; exact exec.noConfusion h
          | nofuel => rw [hadd] at h; exact exec.noConfusion h
        · rename_i p hg
          split at h
          · exact exec.noConfusion h
          · rename_i pr hh
            have hid : pr.conf.id = pconf.id :=
              ((peer_get_some_iff w hok pconf.id p).1 hg).2.elim
                (fun pr1 hpr1 => by
                  have := hpr1.1
                  rw [hh] at this
                  simp only [Option.some.injEq] at this
                  rw [this]; exact hpr1.2)
            exact registry_ok_mark_keep _ w1
              (registry_ok_heap_set w hok p pr { pr with conf := pconf } hh hid.symm) p h
      · exact exec.noConfusion h
  · -- IMSG_RECONF_DONE
    by_cases hi : idx ≠ PFD_PIPE_MAIN
    · rw [if_pos hi] at h; exact exec.noConfusion h
    · rw [if_neg hi] at h
      split at h
      · exact exec.noConfusion h
      · cases hsw : reconf_sweep w.peerlist w with
        | ret u w2 =>
          rw [hsw] at h
          simp only [exec.ret.injEq, true_and] at h
          rw [← h]
          exact registry_ok_of_eq w2 _ (registry_ok_sweep_ret _ w w2 hok hsw) rfl rfl rfl rfl
        | fatal msg w2 => rw [hsw] at h; exact exec.noConfusion h
        | oob w2 => rw [hsw] at h; exact exec.noConfusion h
        | nofuel => rw [hsw] at h; exact exec.noConfusion h
  · -- IMSG_UPDATE
    by_cases hi : idx ≠ PFD_PIPE_SESSION
    · rw [if_pos hi] at h; exact exec.noConfusion h
    · rw [if_neg hi] at h
      cases hu : rde_update_dispatch env w m with
      | ret v w2 =>
        rw [hu] at h
        simp only [exec.ret.injEq, true_and] at h
        rw [← h]
        obtain ⟨e1, e2, e3, e4⟩ := dispatch_frame env w m v w2 hu
        exact registry_ok_of_eq w w2 hok e1 e2 e3 e4
      | fatal msg w2 => rw [hu] at h; exact exec.noConfusion h
      | oob w2 => rw [hu] at h; exact exec.noConfusion h
      | nofuel => rw [hu] at h; exact exec.noConfusion h
  · -- IMSG_SESSION_UP
    by_cases hi : idx ≠ PFD_PIPE_SESSION
    · rw [if_pos hi] at h; exact exec.noConfusion h
    · rw [if_neg hi] at h
      by_cases hsz : (m.hdr.len : Int) - (env.IMSG_HEADER_SIZE : Int) ≠ 4
      · rw [if_pos hsz] at h; exact exec.noConfusion h
      · rw [if_neg hsz] at h
        split at h
        · exact registry_ok_up_ret w w1 hok _ _ h
        · exact exec.noConfusion h
  · -- IMSG_SESSION_DOWN
    by_cases hi : idx ≠ PFD_PIPE_SESSION
    · rw [if_pos hi] at h; exact exec.noConfusion h
    · rw [if_neg hi] at h
      exact registry_ok_down_ret w w1 hok _ h
  · -- IMSG_MRT_REQ
    by_cases hi : idx ≠ PFD_PIPE_MAIN
    · rw [if_pos hi] at h; exact exec.noConfusion h
    · rw [if_neg hi] at h
      exact registry_ok_mrt_end _ w1 (registry_ok_calls w hok _) idx m h
  · -- IMSG_MRT_END
    exact registry_ok_mrt_end w w1 hok idx m h
  · -- IMSG_SHUTDOWN_REQUEST
    simp only [exec.ret.injEq, true_and] at h
    rw [← h]
    exact registry_ok_of_eq w _ hok rfl rfl rfl rfl
  · simp only [exec.ret.injEq, true_and] at h
    rw [← h]; exact hok

theorem registry_ok_reachable (env : rde_env) (w : rde_state) (h : reachable env w) :
    registry_ok w := by
  induction h with
  | init w0 w hashsize h => exact registry_ok_init w0 w hashsize h
  | add w w1 id p_conf p _ hid h ih => exact registry_ok_add_ret w w1 ih id p p_conf hid h
  | remove w w1 ptr _ h ih => exact registry_ok_remove_ret w w1 ih ptr h
  | up w w1 id rid _ h ih => exact registry_ok_up_ret w w1 ih id rid h
  | down w w1 id _ h ih => exact registry_ok_down_ret w w1 ih id h
  | imsg w w1 idx m _ h ih => exact registry_ok_imsg_ret env w w1 ih idx m h
  | rib w ptr pr paths _ hh ih =>
    exact registry_ok_heap_set w ih ptr pr { pr with path_h := paths } hh rfl

theorem sum_count_zero (ptr : Nat) : ∀ (tbl : List (List Nat)),
    (∀ b ∈ tbl, ptr ∉ b) → (tbl.map (fun b => b.count ptr)).sum = 0 := by
  intro tbl
  induction tbl with
  | nil => intro _; rfl
  | cons c tbl ih =>
    intro h
    rw [List.map_cons, List.sum_cons, ih (fun b hb => h b (List.mem_cons_of_mem c hb)),
      List.count_eq_zero_of_not_mem (h c (List.mem_cons_self c tbl))]

theorem sum_count_one (ptr : Nat) : ∀ (tbl : List (List Nat)) (i : Nat) (b : List Nat),
    tbl[i]? = some b → ptr ∈ b → b.Nodup →
    (∀ j c, tbl[j]? = some c → ptr ∈ c → j = i) →
    (tbl.map (fun b => b.count ptr)).sum = 1 := by
  intro tbl
  induction tbl with
  | nil =>
    intro i b hb
    simp only [List.getElem?_nil] at hb
    exact Option.noConfusion hb
  | cons c tbl ih =>
    intro i b hb hmem hnd honly
    rw [List.map_cons, List.sum_cons]
    cases i with
    | zero =>
      simp only [List.getElem?_cons_zero, Option.some.injEq] at hb
      subst hb
      rw [List.count_eq_one_of_mem hnd hmem, sum_count_zero ptr tbl]
      intro d hd hin
      obtain ⟨j, hj⟩ := List.getElem?_of_mem hd
      have := honly (j + 1) d (by simpa using hj) hin
      omega
    | succ i =>
      simp only [List.getElem?_cons_succ] at hb
      have hc : ptr ∉ c := by
        intro hin
        have := honly 0 c (by simp) hin
        omega
      rw [List.count_eq_zero_of_not_mem hc, ih i b hb hmem hnd]
      · intro j d hj hin
        have := honly (j + 1) d (by simpa using hj) hin
        omega

/-- C18 (registry consistency invariant).  In every state reachable from
`peer_init` through `peer_add` (with a fresh id, the id of the configuration
stored), `peer_remove`, `peer_up`, `peer_down` and dispatched messages (the
reconfiguration messages among them): an address is in some hash bucket exactly
when it is in the peer list; every listed peer occurs once in the list and once
in the hash table, all buckets together; no two listed peers share an id; every
listed peer is a live record that sits in the bucket indexed by its id masked
with the hash mask; and `peer_get(id)` returns a peer exactly when that peer is
in the list and has that id (so it returns `NULL` exactly when no listed peer has
the id). -/
theorem registry_consistent (env : rde_env) (w : rde_state) (h : reachable env w) :
    (∀ ptr, (∃ b ∈ w.peertable.peer_hashtbl, ptr ∈ b) ↔ ptr ∈ w.peerlist) ∧
    (∀ ptr ∈ w.peerlist, w.peerlist.count ptr = 1 ∧ bucket_occurrences w ptr = 1) ∧
    (∀ p q pr qr, p ∈ w.peerlist → q ∈ w.peerlist → w.heap p = some pr →
      w.heap q = some qr → pr.conf.id = qr.conf.id → p = q) ∧
    (∀ ptr ∈ w.peerlist, ∃ pr, w.heap ptr = some pr ∧
      ∃ b, w.peertable.peer_hashtbl[pr.conf.id &&& w.peertable.peer_hashmask]? = some b ∧
        ptr ∈ b) ∧
    (∀ id ptr, peer_get w id = some ptr ↔
      ptr ∈ w.peerlist ∧ ∃ pr, w.heap ptr = some pr ∧ pr.conf.id = id) ∧
    (∀ id, peer_get w id = none ↔
      ∀ ptr ∈ w.peerlist, ∀ pr, w.heap ptr = some pr → pr.conf.id ≠ id) := by
  have hok := registry_ok_reachable env w h
  refine ⟨?_, ?_, hok.id_unique, ?_, peer_get_some_iff w hok, peer_get_none_iff w hok⟩
  · intro ptr
    constructor
    · rintro ⟨b, hb, hp⟩
      obtain ⟨i, hi⟩ := List.getElem?_of_mem hb
      exact (hok.bucket_sound i b hi ptr hp).1
    · intro hl
      obtain ⟨pr, _, hin⟩ := hok.list_live ptr hl
      exact ⟨PEER_HASH w pr.conf.id, List.getElem?_mem (PEER_HASH_getElem w hok pr.conf.id),
        hin⟩
  · intro ptr hl
    refine ⟨List.count_eq_one_of_mem hok.list_nodup hl, ?_⟩
    obtain ⟨pr, hh, hin⟩ := hok.list_live ptr hl
    have hget := PEER_HASH_getElem w hok pr.conf.id
    refine sum_count_one ptr w.peertable.peer_hashtbl _ _ hget hin
      (hok.bucket_nodup _ (List.getElem?_mem hget)) ?_
    intro j c hj hc
    obtain ⟨_, pr1, hh1, hidx⟩ := hok.bucket_sound j c hj ptr hc
    rw [hh] at hh1
    simp only [Option.some.injEq] at hh1
    rw [← hidx, hh1]
  · intro ptr hl
    obtain ⟨pr, hh, hin⟩ := hok.list_live ptr hl
    exact ⟨pr, hh, PEER_HASH w pr.conf.id, PEER_HASH_getElem w hok pr.conf.id, hin⟩

theorem boot_init : peer_init state_boot 64 = .ret () state_booted := rfl

/-- Witness for `registry_consistent`: the state `peer_init` leaves for a
configuration with peers 7 and 9 is reachable, and there `peer_get` finds exactly
the listed peers. -/
theorem registry_consistent_witness :
    reachable env_le state_booted ∧
    (∀ id ptr, peer_get state_booted id = some ptr ↔
      ptr ∈ state_booted.peerlist ∧
        ∃ pr, state_booted.heap ptr = some pr ∧ pr.conf.id = id) :=
  ⟨reachable.init state_boot state_booted 64 boot_init,
    (registry_consistent env_le state_booted
      (reachable.init state_boot state_booted 64 boot_init)).2.2.2.2.1⟩
